import Mathlib

/-!
# A shallow embedding of the `scheme` interpreter

The development follows the C++ sources file by file:

* `tokenizer.cpp`  : `Tokenizer.Next`, `IsEnd`, `GetToken`;
* `parser.cpp`     : `Read`, `ReadList`;
* `object.h/.cpp`  : the object model, `Eval`, `Apply`, the argument helpers
                     (`GetVector`, `GetRawVector`, `GetObjFrowVector`,
                     `MakeArgsForList`) and the 27 primitives of `symbol_map`;
* `scheme.cpp`     : `ReadFullString`, `RepresentAsStr`, `Interpreter::Run`.

Conventions of the embedding.

* `std::string` is `List Char`.  Only ASCII matters to the scanner: every byte
  of a multi-byte character falls in the final `else` branch of
  `Tokenizer::Next`, exactly like the character itself does here.
* `std::shared_ptr<Object>` is `Obj`; the empty pointer is `Obj.null`.
* A C++ exception is the `error` side of `Except Stop`.  Besides the three
  exception classes of the interpreter, `Stop` records `std::out_of_range`
  (thrown by `std::stoi`), `Undefined` (the program dereferences an empty
  pointer or leaves a non-void function without `return`) and `OutOfFuel`,
  which is not a behaviour of the program: it says that the recursion bound
  given to the embedding was too small.
* `int64_t` values are integers reduced by `wrap64` after each addition,
  subtraction and multiplication (two's complement wraparound).  The division
  `INT64_MIN / -1`, whose quotient is no `int64_t`, is `Undefined`: the
  division instruction traps and the program is killed.
-/

namespace Scheme

/-! ## Outcomes -/

/-- Ways in which a call can stop without a value. -/
inductive Stop
  | SyntaxError
  | RuntimeError
  | NameError
  | OutOfRange
  | Undefined
  | OutOfFuel
  deriving DecidableEq, Repr

deriving instance DecidableEq for Except

/-- Result of a call that may throw. -/
abbrev Res (α : Type) := Except Stop α

/-! ## Tokens (`tokenizer.h`, `tokenizer.cpp`) -/

/-- Enumeration `BracketToken`. -/
inductive BracketToken
  | OPEN
  | CLOSE
  deriving DecidableEq, Repr

/-- Enumeration `BoolToken`. -/
inductive BoolToken
  | TRUE
  | FALSE
  deriving DecidableEq, Repr

/-- The variant `Token`: symbol, quote mark, dot, integer constant, boolean
literal, bracket. -/
inductive Token
  | Symbol (name : List Char)
  | Quote
  | Dot
  | Constant (value : Int)
  | Bool (b : BoolToken)
  | Bracket (b : BracketToken)
  deriving DecidableEq, Repr

/-- The character `'` (code 39). -/
def quoteChar : Char := Char.ofNat 39

/-- C `isspace` in the default locale: space, `\t`, `\n`, `\v`, `\f`, `\r`. -/
def isspace (c : Char) : Bool :=
  c.toNat = 32 || (9 ≤ c.toNat && c.toNat ≤ 13)

/-- C `isdigit`. -/
def isdigit (c : Char) : Bool :=
  48 ≤ c.toNat && c.toNat ≤ 57

/-- C `isalpha` in the default locale. -/
def isalpha (c : Char) : Bool :=
  (65 ≤ c.toNat && c.toNat ≤ 90) || (97 ≤ c.toNat && c.toNat ≤ 122)

/-- The set `first_pack` of `Tokenizer::Next`. -/
def first_pack : List Char := ['<', '=', '>', '*', '#']

/-- The set `second_pack` of `Tokenizer::Next`. -/
def second_pack : List Char := ['<', '=', '>', '*', '#', '?', '!', '-']

/-- Loop condition of the symbol branch of `Tokenizer::Next`. -/
def symbolTail (c : Char) : Bool :=
  !isspace c && (isalpha c || isdigit c || second_pack.contains c)

/-- Largest value of `int` (32 bits). -/
def INT_MAX : Int := 2147483647

/-- Decimal value of a run of digits. -/
def digitsValue (num : List Char) : Nat :=
  num.foldl (fun acc c => acc * 10 + (c.toNat - 48)) 0

/-- The call `std::stoi(num)` on a non-empty run of digits: the value as an
`int`, or `std::out_of_range` when it does not fit. -/
def stoi (num : List Char) : Res Int :=
  if (digitsValue num : Int) ≤ INT_MAX then .ok (digitsValue num) else .error .OutOfRange

/-- State of a `Tokenizer`: the unread part of the stream `in_`, the current
token `next_` and the flag `is_end_`. -/
structure Tokenizer where
  in_ : List Char
  next_ : Token
  is_end_ : Bool
  deriving DecidableEq, Repr

/-- Method `Tokenizer::Next`.  At the end of the stream only `is_end_` is set:
`next_` keeps the previous token. -/
def Tokenizer.Next (t : Tokenizer) : Res Tokenizer :=
  match t.in_.dropWhile isspace with
  | [] => .ok ⟨[], t.next_, true⟩
  | ch :: rest =>
    if ch = quoteChar then .ok ⟨rest, Token.Quote, false⟩
    else if ch = '.' then .ok ⟨rest, Token.Dot, false⟩
    else if ch = '(' then .ok ⟨rest, Token.Bracket .OPEN, false⟩
    else if ch = ')' then .ok ⟨rest, Token.Bracket .CLOSE, false⟩
    else if ch = '*' ∨ ch = '/' then .ok ⟨rest, Token.Symbol [ch], false⟩
    else if ch = '+' ∨ ch = '-' then
      match rest with
      | [] => .ok ⟨rest, Token.Symbol [ch], false⟩
      | next_ch :: _ =>
        if isspace next_ch then .ok ⟨rest, Token.Symbol [ch], false⟩
        else if isdigit next_ch then
          match stoi (rest.takeWhile isdigit) with
          | .error e => .error e
          | .ok v =>
            if ch = '+' then .ok ⟨rest.dropWhile isdigit, Token.Constant v, false⟩
            else .ok ⟨rest.dropWhile isdigit, Token.Constant (v * (-1)), false⟩
        else .ok ⟨rest, Token.Symbol [ch], false⟩
    else if isdigit ch then
      match stoi (ch :: rest.takeWhile isdigit) with
      | .error e => .error e
      | .ok v => .ok ⟨rest.dropWhile isdigit, Token.Constant v, false⟩
    else if ch = '#' then
      match rest with
      | [] => .error .SyntaxError
      | c :: rest2 =>
        if c = 't' then .ok ⟨rest2, Token.Bool .TRUE, false⟩
        else if c = 'f' then .ok ⟨rest2, Token.Bool .FALSE, false⟩
        else .error .SyntaxError
    else if isalpha ch ∨ ch ∈ first_pack then
      .ok ⟨rest.dropWhile symbolTail, Token.Symbol (ch :: rest.takeWhile symbolTail), false⟩
    else .error .SyntaxError

/-- Method `Tokenizer::IsEnd`. -/
def Tokenizer.IsEnd (t : Tokenizer) : Bool := t.is_end_

/-- Method `Tokenizer::GetToken`. -/
def Tokenizer.GetToken (t : Tokenizer) : Token := t.next_

/-- Constructor `Tokenizer(std::istream*)`: one call of `Next` on the fresh
object.  The default-constructed `next_` is never observed, since `Read`
tests `IsEnd` before `GetToken`; it is taken to be the constant `0`. -/
def Tokenizer.new (str : List Char) : Res Tokenizer :=
  Tokenizer.Next ⟨str, Token.Constant 0, false⟩

/-! ## Objects (`object.h`) -/

/-- The 27 procedure classes registered in `Symbol::symbol_map`. -/
inductive Func
  | IsBool | Not | And | Or | Quote | IsPair | IsNull | IsList | Cons | Car | Cdr
  | List | ListRef | ListTail | IsNumber
  | IsEqual | IsDecrease | IsIncrease | IsNonIncrease | IsNonDecrease
  | Sum | Sub | Prod | Div | Max | Min | Abs
  deriving DecidableEq, Repr

/-- A `std::shared_ptr<Object>`: the empty pointer, or a `Number`, `Symbol`,
`Bool`, `Cell` or procedure object.  `Bool` objects only ever hold the states
`"#t"` and `"#f"`, recorded here as a boolean. -/
inductive Obj
  | null
  | num (value : Int)
  | sym (name : List Char)
  | bool (state : Bool)
  | cell (first second : Obj)
  | func (f : Func)
  deriving DecidableEq, Repr

/-- Constructor `Bool(const BoolToken&)`. -/
def Obj.ofBoolToken (token : BoolToken) : Obj :=
  if token = BoolToken.TRUE then Obj.bool true else Obj.bool false

/-- Method `Bool::GetState`. -/
def GetState (state : Bool) : List Char :=
  if state then ['#', 't'] else ['#', 'f']

/-- The name `quote`. -/
def quoteName : List Char := ['q', 'u', 'o', 't', 'e']

/-! ## Reader (`parser.cpp`) -/

mutual
/-- Function `Read`.  The first argument bounds the depth of the mutual recursion. -/
def Read : Nat → Tokenizer → Res (Obj × Tokenizer)
  | 0, _ => .error .OutOfFuel
  | n + 1, tk =>
    if tk.IsEnd then .error .SyntaxError
    else
      match tk.Next with
      | .error e => .error e
      | .ok tk1 =>
        match tk.GetToken with
        | Token.Bracket .OPEN => ReadList n tk1 true
        | Token.Bracket .CLOSE => .error .SyntaxError
        | Token.Bool b => .ok (Obj.ofBoolToken b, tk1)
        | Token.Dot =>
          if tk1.IsEnd then .error .SyntaxError else Read n tk1
        | Token.Quote =>
          if tk1.IsEnd then .error .SyntaxError
          else
            match Read n tk1 with
            | .error e => .error e
            | .ok (x, tk2) => .ok (Obj.cell (Obj.sym quoteName) (Obj.cell x Obj.null), tk2)
        | Token.Symbol name => .ok (Obj.sym name, tk1)
        | Token.Constant value => .ok (Obj.num value, tk1)
/-- Function `ReadList`. -/
def ReadList : Nat → Tokenizer → Bool → Res (Obj × Tokenizer)
  | 0, _, _ => .error .OutOfFuel
  | n + 1, tk, with_close_bracket =>
    if tk.IsEnd then .error .SyntaxError
    else if tk.GetToken = Token.Dot then .error .SyntaxError
    else if tk.GetToken = Token.Bracket .CLOSE then
      match tk.Next with
      | .error e => .error e
      | .ok tk1 => .ok (Obj.null, tk1)
    else
      match Read n tk with
      | .error e => .error e
      | .ok (first, tk1) =>
        match (if tk1.GetToken = Token.Dot then Read n tk1
               else if tk1.GetToken = Token.Bracket .CLOSE then .ok (Obj.null, tk1)
               else ReadList n tk1 false) with
        | .error e => .error e
        | .ok (second, tk2) =>
          if !with_close_bracket then .ok (Obj.cell first second, tk2)
          else if tk2.IsEnd then .error .SyntaxError
          else if tk2.GetToken = Token.Bracket .CLOSE then
            match tk2.Next with
            | .error e => .error e
            | .ok tk3 => .ok (Obj.cell first second, tk3)
          else .error .SyntaxError
end

/-- Recursion bound that `ReadFullString` gives to `Read`: every call of `Read`
consumes a token and a token has at least one character, so the nesting depth
stays below twice the length of the text plus three. -/
def readFuel (str : List Char) : Nat := 2 * str.length + 3

/-- Function `ReadFullString` (`scheme.cpp`). -/
def ReadFullString (str : List Char) : Res Obj :=
  match Tokenizer.new str with
  | .error e => .error e
  | .ok tokenizer =>
    match Read (readFuel str) tokenizer with
    | .error e => .error e
    | .ok (res, tk) => if !tk.IsEnd then .error .SyntaxError else .ok res

/-! ## Printer (`scheme.cpp`) -/

/-- Decimal digits of a natural number, most significant first; the first
argument bounds the number of digits. -/
def natDigits : Nat → Nat → List Char
  | 0, _ => []
  | f + 1, n =>
    if n < 10 then [Nat.digitChar n]
    else natDigits f (n / 10) ++ [Nat.digitChar (n % 10)]

/-- The call `std::to_string(value)` for an `int64_t`. -/
def to_string (value : Int) : List Char :=
  if value < 0 then '-' :: natDigits (value.natAbs + 1) value.natAbs
  else natDigits (value.natAbs + 1) value.natAbs

/-- Template `Is<Cell>`. -/
def Is_Cell : Obj → Bool
  | Obj.cell _ _ => true
  | _ => false

/-- Template `Is<Number>`. -/
def Is_Number : Obj → Bool
  | Obj.num _ => true
  | _ => false

/-- Template `Is<Bool>`. -/
def Is_Bool : Obj → Bool
  | Obj.bool _ => true
  | _ => false

/-- Function `RepresentAsStr`.  A procedure object reaches the final `else`
branch, where `As<Cell>` throws. -/
def RepresentAsStr : Obj → Bool → Res (List Char)
  | Obj.null, _ => .ok ['(', ')']
  | Obj.num value, _ => .ok (to_string value)
  | Obj.sym name, _ => .ok name
  | Obj.bool state, _ => .ok (GetState state)
  | Obj.func _, _ => .error .RuntimeError
  | Obj.cell first second, brackets =>
    match RepresentAsStr first true with
    | .error e => .error e
    | .ok a =>
      if second ≠ Obj.null then
        match RepresentAsStr second false with
        | .error e => .error e
        | .ok b =>
          .ok ((if brackets then ['('] else []) ++ a ++ [' ']
                ++ (if !Is_Cell second then ['.', ' '] else []) ++ b
                ++ (if brackets then [')'] else []))
      else .ok ((if brackets then ['('] else []) ++ a ++ (if brackets then [')'] else []))

/-! ## Evaluation (`object.h`, `object.cpp`) -/

/-- The table `Symbol::symbol_map`. -/
def symbol_map : List (List Char × Func) :=
  [("boolean?".toList, Func.IsBool),
   ("not".toList, Func.Not),
   ("and".toList, Func.And),
   ("or".toList, Func.Or),
   ("quote".toList, Func.Quote),
   ("pair?".toList, Func.IsPair),
   ("null?".toList, Func.IsNull),
   ("list?".toList, Func.IsList),
   ("cons".toList, Func.Cons),
   ("car".toList, Func.Car),
   ("cdr".toList, Func.Cdr),
   ("list".toList, Func.List),
   ("list-ref".toList, Func.ListRef),
   ("list-tail".toList, Func.ListTail),
   ("number?".toList, Func.IsNumber),
   ("=".toList, Func.IsEqual),
   (">".toList, Func.IsDecrease),
   ("<".toList, Func.IsIncrease),
   (">=".toList, Func.IsNonIncrease),
   ("<=".toList, Func.IsNonDecrease),
   ("+".toList, Func.Sum),
   ("-".toList, Func.Sub),
   ("*".toList, Func.Prod),
   ("/".toList, Func.Div),
   ("max".toList, Func.Max),
   ("min".toList, Func.Min),
   ("abs".toList, Func.Abs)]

/-- The expression `symbol_map[name_]` of `Symbol::Eval`: the registered
procedure, or the empty pointer for a name that is not in the table. -/
def lookup (name : List Char) : Obj :=
  match symbol_map.lookup name with
  | some f => Obj.func f
  | none => Obj.null

/-- Template `As<Cell>`: the two slots of a cell, `RuntimeError` otherwise. -/
def As_Cell : Obj → Res (Obj × Obj)
  | Obj.cell first second => .ok (first, second)
  | _ => .error .RuntimeError

/-- Template `As<Number>` followed by `GetValue`. -/
def As_Number : Obj → Res Int
  | Obj.num value => .ok value
  | _ => .error .RuntimeError

/-- Two's complement reduction of an integer to `int64_t`. -/
def wrap64 (x : Int) : Int := (x + 2 ^ 63) % 2 ^ 64 - 2 ^ 63

/-- Conversion of an `int64_t` to `size_t`. -/
def to_size_t (x : Int) : Nat := (x % 2 ^ 64).toNat

/-- Function `GetVector`: the operands of a call, evaluated in order by `ev`.
A non-empty tail that is not a cell is evaluated and then fails in `As<Cell>`;
a cell with an empty `first` is rejected. -/
def GetVector (ev : Obj → Res Obj) : Obj → Res (List Obj)
  | Obj.null => .ok []
  | Obj.cell first second =>
    if first = Obj.null then .error .RuntimeError
    else
      match ev first with
      | .error e => .error e
      | .ok v =>
        match GetVector ev second with
        | .error e => .error e
        | .ok rest => .ok (v :: rest)
  | args =>
    match ev args with
    | .error e => .error e
    | .ok _ => .error .RuntimeError

/-- Function `GetRawVector`: the operands as they stand, a non-empty tail that
is not a cell being the last element. -/
def GetRawVector : Obj → List Obj
  | Obj.null => []
  | Obj.cell first second => first :: GetRawVector second
  | args => [args]

/-- The cells that `GetObjFrowVector` builds from the elements it has not yet
passed. -/
def listOfVector : List Obj → Obj
  | [] => Obj.null
  | x :: rest => Obj.cell x (listOfVector rest)

/-- Function `GetObjFrowVector`: the proper list of the elements of `obj` from
index `i` on. -/
def GetObjFrowVector (obj : List Obj) (i : Nat) : Obj :=
  listOfVector (obj.drop i)

/-- Function `MakeArgsForList`: the argument list `((quote obj))`. -/
def MakeArgsForList (obj : Obj) : Obj :=
  Obj.cell (Obj.cell (Obj.sym quoteName) (Obj.cell obj Obj.null)) Obj.null

/-- Template `ValidateObj<Number>`. -/
def ValidateObj_Number (obj : List Obj) : Bool :=
  obj.all Is_Number

/-- The values of a vector of objects through `As<Number>`. -/
def numbersOf : List Obj → Res (List Int)
  | [] => .ok []
  | x :: rest =>
    match As_Number x with
    | .error e => .error e
    | .ok v =>
      match numbersOf rest with
      | .error e => .error e
      | .ok vs => .ok (v :: vs)

/-! ### The primitives

Each `X_Apply ev args` is the body of `X::Apply(args)`, where `ev` stands for the
virtual call `->Eval()`. -/

/-- Method `IsBool::Apply` (`boolean?`). -/
def IsBool_Apply (ev : Obj → Res Obj) (args : Obj) : Res Obj :=
  match As_Cell args with
  | .error e => .error e
  | .ok (first, second) =>
    match ev first with
    | .error e => .error e
    | .ok evalueted =>
      if second ≠ Obj.null then .error .RuntimeError
      else if evalueted ≠ Obj.null then
        if Is_Bool evalueted then .ok (Obj.bool true) else .ok (Obj.bool false)
      else .ok (Obj.bool false)

/-- Method `Not::Apply` (`not`). -/
def Not_Apply (args : Obj) : Res Obj :=
  match GetRawVector args with
  | [x] =>
    match x with
    | Obj.bool state => if state then .ok (Obj.bool false) else .ok (Obj.bool true)
    | _ => .ok (Obj.bool false)
  | _ => .error .RuntimeError

/-- The loop of `And::Apply`: `true` when some element evaluates to the false
`Bool` and the loop returns from the method. -/
def And_loop (ev : Obj → Res Obj) : List Obj → Res Bool
  | [] => .ok false
  | el :: rest =>
    match ev el with
    | .error e => .error e
    | .ok eval => if eval = Obj.bool false then .ok true else And_loop ev rest

/-- Method `And::Apply` (`and`). -/
def And_Apply (ev : Obj → Res Obj) (args : Obj) : Res Obj :=
  match GetRawVector args with
  | [] => .ok (Obj.bool true)
  | x :: xs =>
    match And_loop ev (x :: xs) with
    | .error e => .error e
    | .ok true => .ok (Obj.bool false)
    | .ok false => ev ((x :: xs).getLast (List.cons_ne_nil x xs))

/-- The loop of `Or::Apply`: the value returned from inside the loop, if any. -/
def Or_loop (ev : Obj → Res Obj) : List Obj → Res (Option Obj)
  | [] => .ok none
  | el :: rest =>
    match ev el with
    | .error e => .error e
    | .ok eval => if eval ≠ Obj.bool false then .ok (some eval) else Or_loop ev rest

/-- Method `Or::Apply` (`or`). -/
def Or_Apply (ev : Obj → Res Obj) (args : Obj) : Res Obj :=
  match GetRawVector args with
  | [] => .ok (Obj.bool false)
  | obj =>
    match Or_loop ev obj with
    | .error e => .error e
    | .ok (some eval) => .ok eval
    | .ok none => .ok (Obj.bool false)

/-- Method `Quote::Apply` (`quote`). -/
def Quote_Apply (args : Obj) : Res Obj :=
  match As_Cell args with
  | .error e => .error e
  | .ok (first, second) =>
    if second ≠ Obj.null then .error .RuntimeError else .ok first

/-- Method `IsPair::Apply` (`pair?`). -/
def IsPair_Apply (ev : Obj → Res Obj) (args : Obj) : Res Obj :=
  match GetVector ev args with
  | .error e => .error e
  | .ok [x] => if Is_Cell x then .ok (Obj.bool true) else .ok (Obj.bool false)
  | .ok _ => .ok (Obj.bool false)

/-- Method `IsNull::Apply` (`null?`). -/
def IsNull_Apply (ev : Obj → Res Obj) (args : Obj) : Res Obj :=
  match GetVector ev args with
  | .error e => .error e
  | .ok [x] =>
    if !(GetRawVector x).isEmpty then .ok (Obj.bool false) else .ok (Obj.bool true)
  | .ok _ => .ok (Obj.bool false)

/-- Method `IsList::Apply` (`list?`); `self` is the recursive call
`std::make_shared<IsList>()->Apply(...)`. -/
def IsList_Apply (ev : Obj → Res Obj) (self : Obj → Res Obj) (args : Obj) : Res Obj :=
  match GetVector ev args with
  | .error e => .error e
  | .ok [x] =>
    match x with
    | Obj.null => .ok (Obj.bool true)
    | Obj.cell _ sec => self (MakeArgsForList sec)
    | _ => .ok (Obj.bool false)
  | .ok _ => .error .RuntimeError

/-- Method `Cons::Apply` (`cons`). -/
def Cons_Apply (ev : Obj → Res Obj) (args : Obj) : Res Obj :=
  match GetVector ev args with
  | .error e => .error e
  | .ok [] => .ok Obj.null
  | .ok [a] => .ok (Obj.cell a Obj.null)
  | .ok [a, b] => .ok (Obj.cell a b)
  | .ok _ => .error .RuntimeError

/-- Method `Car::Apply` (`car`). -/
def Car_Apply (ev : Obj → Res Obj) (args : Obj) : Res Obj :=
  match args with
  | Obj.cell (Obj.cell a b) _ =>
    match ev (Obj.cell a b) with
    | .error e => .error e
    | .ok eval =>
      if eval = Obj.null then .error .RuntimeError
      else
        match GetRawVector eval with
        | x :: _ => .ok x
        | [] => .error .RuntimeError
  | _ => .error .NameError

/-- Method `Cdr::Apply` (`cdr`). -/
def Cdr_Apply (ev : Obj → Res Obj) (args : Obj) : Res Obj :=
  match args with
  | Obj.cell (Obj.cell a b) _ =>
    match ev (Obj.cell a b) with
    | .error e => .error e
    | .ok eval =>
      if eval = Obj.null then .error .RuntimeError
      else
        match eval with
        | Obj.cell _ second => .ok second
        | _ => .error .RuntimeError
  | _ => .error .NameError

/-- Method `List::Apply` (`list`). -/
def List_Apply (ev : Obj → Res Obj) (args : Obj) : Res Obj :=
  match GetVector ev args with
  | .error e => .error e
  | .ok obj => .ok (GetObjFrowVector obj 0)

/-- Method `ListRef::Apply` (`list-ref`). -/
def ListRef_Apply (ev : Obj → Res Obj) (args : Obj) : Res Obj :=
  match GetVector ev args with
  | .error e => .error e
  | .ok [l, i] =>
    if i ≠ Obj.null then
      match As_Number i with
      | .error e => .error e
      | .ok v =>
        match (GetRawVector l)[to_size_t v]? with
        | some x => .ok x
        | none => .error .RuntimeError
    else .error .RuntimeError
  | .ok _ => .error .RuntimeError

/-- Method `ListTail::Apply` (`list-tail`). -/
def ListTail_Apply (ev : Obj → Res Obj) (args : Obj) : Res Obj :=
  match GetVector ev args with
  | .error e => .error e
  | .ok [l, i] =>
    if i ≠ Obj.null then
      match As_Number i with
      | .error e => .error e
      | .ok v =>
        if to_size_t v ≤ (GetRawVector l).length then
          .ok (GetObjFrowVector (GetRawVector l) (to_size_t v))
        else .error .RuntimeError
    else .error .RuntimeError
  | .ok _ => .error .RuntimeError

/-- Method `IsNumber::Apply` (`number?`). -/
def IsNumber_Apply (args : Obj) : Res Obj :=
  match As_Cell args with
  | .error e => .error e
  | .ok (first, second) =>
    if second ≠ Obj.null then .error .RuntimeError else .ok (Obj.bool (Is_Number first))

/-- The loop shared by the five comparison classes: `eq` starts as `true` and
becomes `false` at the first adjacent pair on which `stop` holds. -/
def compare_loop (stop : Int → Int → Bool) : List Int → Bool
  | a :: b :: rest => if stop a b then false else compare_loop stop (b :: rest)
  | _ => true

/-- Common body of `IsEqual::Apply`, `IsDecrease::Apply`, `IsIncrease::Apply`,
`IsNonIncrease::Apply` and `IsNonDecrease::Apply`, which differ only in the test
`stop` that ends the loop. -/
def Compare_Apply (stop : Int → Int → Bool) (ev : Obj → Res Obj) (args : Obj) : Res Obj :=
  match GetVector ev args with
  | .error e => .error e
  | .ok obj =>
    if !ValidateObj_Number obj then .error .RuntimeError
    else if obj.length = 1 then .error .RuntimeError
    else
      match numbersOf obj with
      | .error e => .error e
      | .ok vs => .ok (Obj.bool (compare_loop stop vs))

/-- Method `IsEqual::Apply` (`=`): the loop stops on `a != b`. -/
def IsEqual_Apply := Compare_Apply (fun a b => decide (a ≠ b))

/-- Method `IsDecrease::Apply` (`>`): the loop stops on `a <= b`. -/
def IsDecrease_Apply := Compare_Apply (fun a b => decide (a ≤ b))

/-- Method `IsIncrease::Apply` (`<`): the loop stops on `a >= b`. -/
def IsIncrease_Apply := Compare_Apply (fun a b => decide (a ≥ b))

/-- Method `IsNonIncrease::Apply` (`>=`): the loop stops on `a < b`. -/
def IsNonIncrease_Apply := Compare_Apply (fun a b => decide (a < b))

/-- Method `IsNonDecrease::Apply` (`<=`): the loop stops on `a > b`. -/
def IsNonDecrease_Apply := Compare_Apply (fun a b => decide (a > b))

/-- Method `Sum::Apply` (`+`). -/
def Sum_Apply (ev : Obj → Res Obj) (args : Obj) : Res Obj :=
  match GetVector ev args with
  | .error e => .error e
  | .ok obj =>
    if !ValidateObj_Number obj then .error .RuntimeError
    else
      match numbersOf obj with
      | .error e => .error e
      | .ok vs => .ok (Obj.num (vs.foldl (fun sum el => wrap64 (sum + el)) 0))

/-- Method `Sub::Apply` (`-`). -/
def Sub_Apply (ev : Obj → Res Obj) (args : Obj) : Res Obj :=
  match GetVector ev args with
  | .error e => .error e
  | .ok obj =>
    if !ValidateObj_Number obj then .error .RuntimeError
    else if obj.length < 2 then .error .RuntimeError
    else
      match numbersOf obj with
      | .error e => .error e
      | .ok [] => .error .Undefined
      | .ok (v :: vs) => .ok (Obj.num (vs.foldl (fun sub el => wrap64 (sub - el)) v))

/-- Method `Prod::Apply` (`*`). -/
def Prod_Apply (ev : Obj → Res Obj) (args : Obj) : Res Obj :=
  match GetVector ev args with
  | .error e => .error e
  | .ok obj =>
    if !ValidateObj_Number obj then .error .RuntimeError
    else
      match numbersOf obj with
      | .error e => .error e
      | .ok vs => .ok (Obj.num (vs.foldl (fun prod el => wrap64 (prod * el)) 1))

/-- The statement `mul /= el` on `int64_t` for a non-zero `el`: the quotient
truncated toward zero.  For `INT64_MIN / -1` the quotient is not an `int64_t`:
the behaviour is undefined, and the division instruction traps. -/
def div64 (a b : Int) : Res Int :=
  if a = -9223372036854775808 ∧ b = -1 then .error .Undefined else .ok (Int.tdiv a b)

/-- The loop of `Div::Apply`: `RuntimeError` at the first zero divisor,
otherwise `mul /= el`. -/
def Div_loop : Int → List Int → Res Int
  | mul, [] => .ok mul
  | mul, el :: rest =>
    if el = 0 then .error .RuntimeError
    else
      match div64 mul el with
      | .error e => .error e
      | .ok q => Div_loop q rest

/-- Method `Div::Apply` (`/`). -/
def Div_Apply (ev : Obj → Res Obj) (args : Obj) : Res Obj :=
  match GetVector ev args with
  | .error e => .error e
  | .ok obj =>
    if !ValidateObj_Number obj then .error .RuntimeError
    else if obj.length < 2 then .error .RuntimeError
    else
      match numbersOf obj with
      | .error e => .error e
      | .ok [] => .error .Undefined
      | .ok (v :: vs) =>
        match Div_loop v vs with
        | .error e => .error e
        | .ok mul => .ok (Obj.num mul)

/-- Method `Max::Apply` (`max`). -/
def Max_Apply (ev : Obj → Res Obj) (args : Obj) : Res Obj :=
  match GetVector ev args with
  | .error e => .error e
  | .ok obj =>
    if !ValidateObj_Number obj then .error .RuntimeError
    else if obj.isEmpty then .error .RuntimeError
    else
      match numbersOf obj with
      | .error e => .error e
      | .ok [] => .error .Undefined
      | .ok (v :: vs) => .ok (Obj.num ((v :: vs).foldl (fun max_el el => max max_el el) v))

/-- Method `Min::Apply` (`min`). -/
def Min_Apply (ev : Obj → Res Obj) (args : Obj) : Res Obj :=
  match GetVector ev args with
  | .error e => .error e
  | .ok obj =>
    if !ValidateObj_Number obj then .error .RuntimeError
    else if obj.isEmpty then .error .RuntimeError
    else
      match numbersOf obj with
      | .error e => .error e
      | .ok [] => .error .Undefined
      | .ok (v :: vs) => .ok (Obj.num ((v :: vs).foldl (fun min_el el => min min_el el) v))

/-- Method `Abs::Apply` (`abs`). -/
def Abs_Apply (ev : Obj → Res Obj) (args : Obj) : Res Obj :=
  match GetVector ev args with
  | .error e => .error e
  | .ok obj =>
    if !ValidateObj_Number obj then .error .RuntimeError
    else
      match obj with
      | [x] =>
        match As_Number x with
        | .error e => .error e
        | .ok v => .ok (Obj.num (wrap64 |v|))
      | _ => .error .RuntimeError

/-! ### `Eval` and `Apply` -/

mutual
/-- Virtual method `Eval`.  The first argument bounds the nesting depth of the
calls of `Eval` and `Apply`.  `Object::Eval`, which procedure objects inherit,
has no `return`; a call through the empty pointer is undefined as well. -/
def Eval : Nat → Obj → Res Obj
  | 0, _ => .error .OutOfFuel
  | _ + 1, Obj.null => .error .Undefined
  | _ + 1, Obj.num value => .ok (Obj.num value)
  | _ + 1, Obj.sym name => .ok (lookup name)
  | _ + 1, Obj.bool state => .ok (Obj.bool state)
  | _ + 1, Obj.func _ => .error .Undefined
  | n + 1, Obj.cell first second =>
    if first ≠ Obj.null then
      match Eval n first with
      | .error e => .error e
      | .ok evalueted =>
        if evalueted ≠ Obj.null then Apply n evalueted second
        else .error .RuntimeError
    else .error .RuntimeError
/-- Virtual method `Apply` of the object `callee` on the unevaluated argument
list `args`: `Object::Apply` throws, the procedure classes override it. -/
def Apply : Nat → Obj → Obj → Res Obj
  | 0, _, _ => .error .OutOfFuel
  | _ + 1, Obj.null, _ => .error .Undefined
  | n + 1, Obj.func f, args =>
    match f with
    | Func.IsBool => IsBool_Apply (fun e => Eval n e) args
    | Func.Not => Not_Apply args
    | Func.And => And_Apply (fun e => Eval n e) args
    | Func.Or => Or_Apply (fun e => Eval n e) args
    | Func.Quote => Quote_Apply args
    | Func.IsPair => IsPair_Apply (fun e => Eval n e) args
    | Func.IsNull => IsNull_Apply (fun e => Eval n e) args
    | Func.IsList =>
      IsList_Apply (fun e => Eval n e) (fun a => Apply n (Obj.func Func.IsList) a) args
    | Func.Cons => Cons_Apply (fun e => Eval n e) args
    | Func.Car => Car_Apply (fun e => Eval n e) args
    | Func.Cdr => Cdr_Apply (fun e => Eval n e) args
    | Func.List => List_Apply (fun e => Eval n e) args
    | Func.ListRef => ListRef_Apply (fun e => Eval n e) args
    | Func.ListTail => ListTail_Apply (fun e => Eval n e) args
    | Func.IsNumber => IsNumber_Apply args
    | Func.IsEqual => IsEqual_Apply (fun e => Eval n e) args
    | Func.IsDecrease => IsDecrease_Apply (fun e => Eval n e) args
    | Func.IsIncrease => IsIncrease_Apply (fun e => Eval n e) args
    | Func.IsNonIncrease => IsNonIncrease_Apply (fun e => Eval n e) args
    | Func.IsNonDecrease => IsNonDecrease_Apply (fun e => Eval n e) args
    | Func.Sum => Sum_Apply (fun e => Eval n e) args
    | Func.Sub => Sub_Apply (fun e => Eval n e) args
    | Func.Prod => Prod_Apply (fun e => Eval n e) args
    | Func.Div => Div_Apply (fun e => Eval n e) args
    | Func.Max => Max_Apply (fun e => Eval n e) args
    | Func.Min => Min_Apply (fun e => Eval n e) args
    | Func.Abs => Abs_Apply (fun e => Eval n e) args
  | _ + 1, _, _ => .error .RuntimeError
end

/-! ## Entry point (`scheme.cpp`) -/

/-- Method `Interpreter::Run`; `fuel` bounds the nesting depth of evaluation. -/
def Run (fuel : Nat) (expr : List Char) : Res (List Char) :=
  match ReadFullString expr with
  | .error e => .error e
  | .ok obj =>
    if obj = Obj.null then .error .RuntimeError
    else
      match Eval fuel obj with
      | .error e => .error e
      | .ok res => RepresentAsStr res true

/-! ## Notions used in the statements -/

/-- The Pair chain with elements `vs` whose last `second` is `tail`; with
`tail = Obj.null` it is the proper list of `vs`. -/
def chain (vs : List Obj) (tail : Obj) : Obj :=
  vs.foldr Obj.cell tail

/-- Under the bound `n`, the expressions `es` evaluate one by one to the values `vs`. -/
def EvalsTo (n : Nat) (es vs : List Obj) : Prop :=
  List.Forall₂ (fun e v => Eval n e = .ok v) es vs

/-- Under the bound `n`, the expressions `es` evaluate one by one to the
Numbers `ns`. -/
def EvalsToNumbers (n : Nat) (es : List Obj) (ns : List Int) : Prop :=
  List.Forall₂ (fun e v => Eval n e = .ok (Obj.num v)) es ns

/-- The comparison primitives with the relation each one names. -/
def comparisons : List (String × (Int → Int → Bool)) :=
  [("=", fun a b => decide (a = b)), ("<", fun a b => decide (a < b)),
   (">", fun a b => decide (a > b)), ("<=", fun a b => decide (a ≤ b)),
   (">=", fun a b => decide (a ≥ b))]

/-- A text that the scanner reads as one symbol token whose name is the whole
text: one of `*`, `/`, `+`, `-` alone, or a letter or one of `<`, `=`, `>`
followed by characters that the symbol loop accepts. -/
def symbolText : List Char → Bool
  | [] => false
  | c :: tail =>
    ((c = '*' || c = '/' || c = '+' || c = '-') && tail.isEmpty)
      || ((isalpha c || c = '<' || c = '=' || c = '>') && tail.all symbolTail)

/-- What follows a rendered element: nothing, a space or a close bracket. -/
def Delim (rest : List Char) : Prop :=
  ∀ c ∈ rest.head?, c = ' ' ∨ c = ')'

/-- Expressions built only from Numbers that the scanner accepts (absolute
value at most `2^31 - 1`), Bools, Symbols whose name is a single scanner symbol
token, Pairs and the empty list. -/
def Printable : Obj → Bool
  | Obj.null => true
  | Obj.num value => value.natAbs ≤ 2147483647
  | Obj.sym name => symbolText name
  | Obj.bool _ => true
  | Obj.cell first second => Printable first && Printable second
  | Obj.func _ => false

/-- The text that `RepresentAsStr` returns, empty when it throws. -/
def textOf (e : Obj) (brackets : Bool) : List Char :=
  match RepresentAsStr e brackets with
  | .ok s => s
  | .error _ => []

/-- On the rendering of `e` followed by `rest`, the tokenizer finds a first
token and `Read` returns `e`, leaving the tokenizer where one more `Next` on
`rest` leaves it. -/
def ReadsBack (e : Obj) : Prop :=
  ∀ (rest : List Char) (st : Token) (b : Bool) (n : Nat), Delim rest →
    2 * (textOf e true).length ≤ n →
    ∃ tk st1, Tokenizer.Next ⟨textOf e true ++ rest, st, b⟩ = .ok tk ∧ tk.is_end_ = false
      ∧ tk.next_ ≠ Token.Dot ∧ tk.next_ ≠ Token.Bracket .CLOSE
      ∧ Read n tk = Except.map (fun t => (e, t)) (Tokenizer.Next ⟨rest, st1, false⟩)

/-- On the rendering without brackets of the chain `c` followed by `)` and
`rest`, `ReadList` returns `c`; with `with_close_bracket` it also consumes the
bracket. -/
def ListReadsBack (c : Obj) : Prop :=
  ∀ (rest : List Char) (st : Token) (b : Bool) (n : Nat) (wc : Bool),
    2 * (textOf c false).length + 1 ≤ n →
    ∃ tk, Tokenizer.Next ⟨textOf c false ++ ')' :: rest, st, b⟩ = .ok tk ∧ tk.is_end_ = false
      ∧ tk.next_ ≠ Token.Dot ∧ tk.next_ ≠ Token.Bracket .CLOSE
      ∧ ReadList n tk wc
          = if wc then
              Except.map (fun t => (c, t)) (Tokenizer.Next ⟨rest, Token.Bracket .CLOSE, false⟩)
            else .ok (c, ⟨rest, Token.Bracket .CLOSE, false⟩)

/-- The tokenizer goes from the state `tk` through the tokens `c` to the state
`tk1`: each token is the current one of a state that is not at the end, and
`Next` leads to the following state. -/
inductive Consumes : Tokenizer → List Token → Tokenizer → Prop
  | nil (tk : Tokenizer) : Consumes tk [] tk
  | cons (tk tk1 tk2 : Tokenizer) (c : List Token) :
      tk.is_end_ = false → tk.Next = .ok tk1 → Consumes tk1 c tk2 →
      Consumes tk (tk.next_ :: c) tk2

/-- The tokens `ts` are all the tokens from the state `tk` up to the end of the
stream. -/
def Scans (tk : Tokenizer) (ts : List Token) : Prop :=
  ∃ tk1, Consumes tk ts tk1 ∧ tk1.is_end_ = true

/-- The token sequence of a text: what the scanner yields from the
constructor of the tokenizer up to the end of the text. -/
def TokensOf (str : List Char) (ts : List Token) : Prop :=
  ∃ tk, Tokenizer.new str = .ok tk ∧ Scans tk ts

/-- Number of open brackets in a token sequence. -/
def opens (ts : List Token) : Nat :=
  ts.count (Token.Bracket .OPEN)

/-- Number of close brackets in a token sequence. -/
def closes (ts : List Token) : Nat :=
  ts.count (Token.Bracket .CLOSE)

/-- A token sequence with unbalanced brackets: some prefix holds more close
brackets than open brackets, or the whole sequence holds more open brackets
than close brackets. -/
def Unbalanced (ts : List Token) : Prop :=
  (∃ p, p <+: ts ∧ opens p < closes p) ∨ closes ts < opens ts

/-- Bracket depth after the tokens `ts`, starting from depth `d`; `none` when a
close bracket comes at depth `0`. -/
def depthAfter : Nat → List Token → Option Nat
  | d, [] => some d
  | d, Token.Bracket .OPEN :: ts => depthAfter (d + 1) ts
  | 0, Token.Bracket .CLOSE :: _ => none
  | d + 1, Token.Bracket .CLOSE :: ts => depthAfter d ts
  | d, _ :: ts => depthAfter d ts

/-- A run of tokens that leaves every bracket depth as it found it. -/
def Bal (c : List Token) : Prop :=
  ∀ d, depthAfter d c = some d

/-- The test at the head of `Car::Apply` and `Cdr::Apply`: the argument list is
a cell and its first element is a cell. -/
def pairOperand : Obj → Bool
  | Obj.cell (Obj.cell _ _) _ => true
  | _ => false

/-- A proper list: the empty list, or a chain of Pairs whose last `second` is
empty. -/
def properList : Obj → Bool
  | Obj.null => true
  | Obj.cell _ second => properList second
  | _ => false

/-- Number of Pairs along the chain of `second` slots of a value. -/
def spine : Obj → Nat
  | Obj.cell _ second => spine second + 1
  | _ => 0

/-- The procedure classes whose `Apply` begins by collecting the operands with
`GetVector`. -/
def usesGetVector : Func → Bool
  | Func.IsPair | Func.IsNull | Func.IsList | Func.Cons | Func.List | Func.ListRef
  | Func.ListTail | Func.IsEqual | Func.IsDecrease | Func.IsIncrease | Func.IsNonIncrease
  | Func.IsNonDecrease | Func.Sum | Func.Sub | Func.Prod | Func.Div | Func.Max | Func.Min
  | Func.Abs => true
  | Func.IsBool | Func.Not | Func.And | Func.Or | Func.Quote | Func.Car | Func.Cdr
  | Func.IsNumber => false

/-- Number of Pairs in an object. -/
def cells : Obj → Nat
  | Obj.cell first second => cells first + cells second + 1
  | _ => 0

/-- A nesting depth within which the evaluation of `e` ends: twice the number
of Pairs of `e`, plus one. -/
def evalBound (e : Obj) : Nat := 2 * cells e + 1

/-- Number of Pairs of the proper list that holds the objects `xs`. -/
def weight : List Obj → Nat
  | [] => 0
  | x :: rest => cells x + 1 + weight rest

/-- What a procedure class does with its operands: `none` when `Apply` never
calls `Eval` on them (`not`, `quote`, `number?`), `some true` when it calls
`Eval` on an operand without testing it for the empty pointer (`boolean?`,
`and`, `or`), `some false` when it evaluates non-empty operands only. -/
def evaluates : Func → Option Bool
  | Func.Not | Func.Quote | Func.IsNumber => none
  | Func.IsBool | Func.And | Func.Or => some true
  | _ => some false

/-- No procedure object occurs in the expression: the reader builds Numbers,
Symbols, Bools, Pairs and the empty list only. -/
def funcFree : Obj → Bool
  | Obj.func _ => false
  | Obj.cell first second => funcFree first && funcFree second
  | _ => true

/-- The procedure that the head `first` of a call evaluates to, if it
evaluates to one; the depth `evalBound first` suffices for the evaluation of
`first`. -/
def headProc (first : Obj) : Option Func :=
  match Eval (evalBound first) first with
  | .ok (Obj.func f) => some f
  | _ => none

/-- The values of the operands `args` of a call, collected by `GetVector` at a
depth that suffices for each operand. -/
def operandValues (args : Obj) : Res (List Obj) :=
  GetVector (fun e => Eval (2 * cells args + 1) e) args

/-- The call hands the bare empty list to `boolean?`, `and` or `or`: the
procedure is one of the three, which call `Eval` on an operand without testing
it for the empty pointer, and an operand is the empty list. -/
def emptyOperand (f : Func) (args : Obj) : Bool :=
  decide (evaluates f = some true) && (GetRawVector args).contains Obj.null

/-- The call is a division whose operands evaluate to Numbers on which the
loop of `Div::Apply` divides `INT64_MIN` by `-1`. -/
def divisionTrap (f : Func) (args : Obj) : Bool :=
  decide (f = Func.Div) &&
    match operandValues args with
    | .ok vals =>
      match numbersOf vals with
      | .ok (v :: vs) => decide (Div_loop v vs = .error .Undefined)
      | _ => false
    | .error _ => false

mutual
/-- No call of the expression, in a position where it may be evaluated, is of
the kind `P`.  The calls of an expression are the expression itself, the calls
of its head and, when the head evaluates to a procedure that evaluates
operands, the calls of its operands; the procedure of a call is the one its
head evaluates to, and a call whose head does not evaluate to a procedure
touches no operand. -/
def avoids (P : Func → Obj → Bool) : Obj → Bool
  | Obj.cell first second =>
    avoids P first &&
      match headProc first with
      | some f =>
        !P f second &&
          match evaluates f with
          | none => true
          | some _ => avoidsArgs P second
      | none => true
  | _ => true
/-- The operands of a call hold no call of the kind `P`. -/
def avoidsArgs (P : Func → Obj → Bool) : Obj → Bool
  | Obj.cell first second => avoids P first && avoidsArgs P second
  | _ => true
end

/-- The divisors `ds` make the loop of `Div::Apply`, started from `n1`, divide
`INT64_MIN` by `-1`: some divisor `-1` is reached, with no zero divisor before
it, when the quotient so far is `INT64_MIN`. -/
def overflows (n1 : Int) (ds : List Int) : Prop :=
  ∃ p rest, ds = p ++ (-1) :: rest ∧ (0 : Int) ∉ p ∧
    p.foldl Int.tdiv n1 = -9223372036854775808

/-- The outcome `r` of a procedure that does nothing with its operands `args`
but collect them with `GetVector`: the error of `GetVector`, or else
`RuntimeError` or a value with no more Pairs than the list of the collected
values. -/
def Flat (ev : Obj → Res Obj) (args : Obj) (r : Res Obj) : Prop :=
  match GetVector ev args with
  | .error err => r = .error err
  | .ok vs => r = .error .RuntimeError ∨ ∃ v, r = .ok v ∧ cells v ≤ weight vs

/-! # Theorems -/

/-! ## Evaluation of a call -/

theorem Eval_call (n : Nat) (name : List Char) (f : Func) (args : Obj)
    (h : lookup name = Obj.func f) :
    Eval (n + 2) (Obj.cell (Obj.sym name) args) = Apply (n + 1) (Obj.func f) args := by
  simp [Eval, h]

theorem Eval_null_ne_ok (n : Nat) (v : Obj) : Eval n Obj.null ≠ .ok v := by
  cases n <;> simp [Eval]

theorem listOfVector_eq_chain (es : List Obj) : listOfVector es = chain es Obj.null := by
  induction es with
  | nil => rfl
  | cons e es ih => simp [listOfVector, chain, ih]

/-- Evaluated flattening of a proper operand list whose elements all evaluate. -/
theorem GetVector_chain (ev : Obj → Res Obj) (es vs : List Obj)
    (hnull : ∀ v, ev Obj.null ≠ .ok v)
    (h : List.Forall₂ (fun e v => ev e = .ok v) es vs) :
    GetVector ev (chain es Obj.null) = .ok vs := by
  induction h with
  | nil => simp [chain, GetVector]
  | @cons e v es vs hev _ ih =>
    have hne : e ≠ Obj.null := by
      rintro rfl
      exact hnull _ hev
    simp only [chain, List.foldr_cons] at ih ⊢
    simp [GetVector, hne, hev, ih]

theorem GetVector_EvalsTo (n : Nat) (es vs : List Obj) (h : EvalsTo n es vs) :
    GetVector (fun e => Eval n e) (chain es Obj.null) = .ok vs :=
  GetVector_chain _ es vs (Eval_null_ne_ok n) h

theorem EvalsToNumbers.evalsTo {n : Nat} {es : List Obj} {ns : List Int}
    (h : EvalsToNumbers n es ns) : EvalsTo n es (ns.map Obj.num) := by
  induction h with
  | nil => exact List.Forall₂.nil
  | cons h _ ih => exact List.Forall₂.cons h ih

theorem numbersOf_map_num (ns : List Int) : numbersOf (ns.map Obj.num) = .ok ns := by
  induction ns with
  | nil => rfl
  | cons a l ih => simp [numbersOf, As_Number, ih]

theorem ValidateObj_map_num (ns : List Int) :
    ValidateObj_Number (ns.map Obj.num) = true := by
  simp [ValidateObj_Number, Is_Number]

theorem ValidateObj_false_of_mem (vs : List Obj) (v : Obj) (hv : v ∈ vs)
    (h : Is_Number v = false) : ValidateObj_Number vs = false := by
  simp only [ValidateObj_Number, List.all_eq_false]
  exact ⟨v, hv, by simp [h]⟩

/-! ## `quote` (C1) -/

theorem lookup_quoteName : lookup quoteName = Obj.func Func.Quote := by decide

/-- C1. Evaluating the chain `(quote X)` returns exactly `X`, for every object
`X` and under a bound that does not depend on `X` (two nested calls, so that
nothing of `X` is evaluated); with no operand, and with anything after the
first operand, `quote` signals `RuntimeError`; and for the text `'X` the reader
builds exactly the chain `(quote X)` from the expression `X` it reads after the
quote mark. -/
theorem C1_quote_returns_operand :
    (∀ (n : Nat) (X : Obj),
      Eval (n + 2) (Obj.cell (Obj.sym quoteName) (Obj.cell X Obj.null)) = .ok X) ∧
    (∀ (n : Nat), Eval (n + 2) (Obj.cell (Obj.sym quoteName) Obj.null) = .error .RuntimeError) ∧
    (∀ (n : Nat) (X Y : Obj), Y ≠ Obj.null →
      Eval (n + 2) (Obj.cell (Obj.sym quoteName) (Obj.cell X Y)) = .error .RuntimeError) ∧
    (∀ (n : Nat) (tk tk1 tk2 : Tokenizer) (X : Obj),
      tk.IsEnd = false → tk.GetToken = Token.Quote → tk.Next = .ok tk1 →
      tk1.IsEnd = false → Read n tk1 = .ok (X, tk2) →
      Read (n + 1) tk = .ok (Obj.cell (Obj.sym quoteName) (Obj.cell X Obj.null), tk2)) := by
  refine ⟨?_, ?_, ?_, ?_⟩
  · intro n X
    rw [Eval_call n _ _ _ lookup_quoteName]
    simp [Apply, Quote_Apply, As_Cell]
  · intro n
    rw [Eval_call n _ _ _ lookup_quoteName]
    simp [Apply, Quote_Apply, As_Cell]
  · intro n X Y hY
    rw [Eval_call n _ _ _ lookup_quoteName]
    simp [Apply, Quote_Apply, As_Cell, hY]
  · intro n tk tk1 tk2 X h0 h1 h2 h3 h4
    simp [Read, h0, h1, h2, h3, h4]

/-- Witness of C1: `(quote (car))` returns `(car)` although evaluating `(car)`
signals `NameError`; `(quote 1 2)` signals `RuntimeError`; the text `'(car)`
reads as `(quote (car))`. -/
theorem C1_quote_returns_operand_witness :
    Eval 1 (Obj.cell (Obj.sym "car".toList) Obj.null) = .error .OutOfFuel ∧
    Eval 2 (Obj.cell (Obj.sym "car".toList) Obj.null) = .error .NameError ∧
    Eval 2 (Obj.cell (Obj.sym quoteName)
      (Obj.cell (Obj.cell (Obj.sym "car".toList) Obj.null) Obj.null))
      = .ok (Obj.cell (Obj.sym "car".toList) Obj.null) ∧
    Eval 2 (Obj.cell (Obj.sym quoteName) (Obj.cell (Obj.num 1) (Obj.cell (Obj.num 2) Obj.null)))
      = .error .RuntimeError ∧
    Read 4 ⟨"(car)".toList, Token.Quote, false⟩
      = .ok (Obj.cell (Obj.sym quoteName)
          (Obj.cell (Obj.cell (Obj.sym "car".toList) Obj.null) Obj.null),
          ⟨[], Token.Bracket .CLOSE, true⟩) :=
  ⟨by decide, by decide, C1_quote_returns_operand.1 0 _,
   C1_quote_returns_operand.2.2.1 0 _ _ (by decide),
   C1_quote_returns_operand.2.2.2 3 ⟨"(car)".toList, Token.Quote, false⟩
     ⟨"car)".toList, Token.Bracket .OPEN, false⟩ ⟨[], Token.Bracket .CLOSE, true⟩ _
     (by decide) (by decide) (by decide) (by decide) (by decide)⟩

/-! ## Arithmetic and comparisons (C8, C10) -/

theorem wrap64_add_left (a b : Int) : wrap64 (wrap64 a + b) = wrap64 (a + b) := by
  simp only [wrap64]
  norm_num
  omega

theorem foldl_wrap_add (ns : List Int) (a : Int) :
    ns.foldl (fun sum el => wrap64 (sum + el)) (wrap64 a) = wrap64 (a + ns.sum) := by
  induction ns generalizing a with
  | nil => simp
  | cons x l ih =>
    simp only [List.foldl_cons, List.sum_cons]
    rw [wrap64_add_left, ih, add_assoc]

theorem Sum_loop_eq (ns : List Int) :
    ns.foldl (fun sum el => wrap64 (sum + el)) 0 = wrap64 ns.sum := by
  have h := foldl_wrap_add ns 0
  have h0 : wrap64 0 = 0 := by decide
  rw [h0, zero_add] at h
  exact h

/-- C8. When the operands `e1 ... ek` (any `k`, also none) evaluate to the
Numbers `n1 ... nk`, the call `(+ e1 ... ek)` evaluates to the Number
`n1 + ... + nk` reduced to 64 bits, which is `0` for `(+)`; when the operands
evaluate to values one of which is not a Number, the call signals
`RuntimeError`. -/
theorem C8_sum :
    (∀ (n : Nat) (es : List Obj) (ns : List Int), EvalsToNumbers n es ns →
      Eval (n + 2) (Obj.cell (Obj.sym "+".toList) (chain es Obj.null))
        = .ok (Obj.num (wrap64 ns.sum))) ∧
    (∀ (n : Nat), Eval (n + 2) (Obj.cell (Obj.sym "+".toList) Obj.null) = .ok (Obj.num 0)) ∧
    (∀ (n : Nat) (es vs : List Obj) (v : Obj), EvalsTo n es vs → v ∈ vs →
      Is_Number v = false →
      Eval (n + 2) (Obj.cell (Obj.sym "+".toList) (chain es Obj.null))
        = .error .RuntimeError) := by
  refine ⟨?_, ?_, ?_⟩
  · intro n es ns h
    rw [Eval_call n _ Func.Sum _ (by decide)]
    simp only [Apply, Sum_Apply]
    rw [GetVector_EvalsTo n es _ h.evalsTo]
    simp [ValidateObj_map_num, numbersOf_map_num, Sum_loop_eq]
  · intro n
    rw [Eval_call n _ Func.Sum _ (by decide)]
    simp [Apply, Sum_Apply, GetVector, ValidateObj_Number, numbersOf]
  · intro n es vs v h hv hnum
    rw [Eval_call n _ Func.Sum _ (by decide)]
    simp only [Apply, Sum_Apply]
    rw [GetVector_EvalsTo n es _ h]
    simp [ValidateObj_false_of_mem vs v hv hnum]

/-- Witness of C8: `(+ 1 2 3)` evaluates to `6`, and `(+ 1 #t)` signals
`RuntimeError`. -/
theorem C8_sum_witness :
    Eval 3 (Obj.cell (Obj.sym "+".toList) (chain [Obj.num 1, Obj.num 2, Obj.num 3] Obj.null))
      = .ok (Obj.num 6) ∧
    Eval 3 (Obj.cell (Obj.sym "+".toList) (chain [Obj.num 1, Obj.bool true] Obj.null))
      = .error .RuntimeError :=
  ⟨C8_sum.1 1 [Obj.num 1, Obj.num 2, Obj.num 3] [1, 2, 3]
    (List.Forall₂.cons rfl (List.Forall₂.cons rfl (List.Forall₂.cons rfl List.Forall₂.nil))),
   C8_sum.2.2 1 [Obj.num 1, Obj.bool true] [Obj.num 1, Obj.bool true] (Obj.bool true)
    (List.Forall₂.cons rfl (List.Forall₂.cons rfl List.Forall₂.nil)) (by decide) rfl⟩

theorem compare_loop_iff (stop R : Int → Int → Bool) (h : ∀ a b, stop a b = !R a b)
    (ns : List Int) :
    compare_loop stop ns = true ↔ List.Chain' (fun a b => R a b = true) ns := by
  induction ns with
  | nil => simp [compare_loop]
  | cons a l ih =>
    cases l with
    | nil => simp [compare_loop]
    | cons b l =>
      rw [List.chain'_cons, ← ih]
      cases hR : R a b <;> simp [compare_loop, h, hR]

theorem Compare_Apply_numbers (stop : Int → Int → Bool) (n : Nat) (es : List Obj)
    (ns : List Int) (hlen : 2 ≤ ns.length) (h : EvalsToNumbers n es ns) :
    Compare_Apply stop (fun e => Eval n e) (chain es Obj.null)
      = .ok (Obj.bool (compare_loop stop ns)) := by
  have h1 : ¬ (ns.length = 1) := by omega
  simp only [Compare_Apply]
  rw [GetVector_EvalsTo n es _ h.evalsTo]
  simp [ValidateObj_map_num, numbersOf_map_num, h1]

theorem Compare_Apply_not_number (stop : Int → Int → Bool) (n : Nat) (es vs : List Obj)
    (v : Obj) (h : EvalsTo n es vs) (hv : v ∈ vs) (hnum : Is_Number v = false) :
    Compare_Apply stop (fun e => Eval n e) (chain es Obj.null) = .error .RuntimeError := by
  simp only [Compare_Apply]
  rw [GetVector_EvalsTo n es _ h]
  simp [ValidateObj_false_of_mem vs v hv hnum]

/-- The comparison primitives are bound to the classes whose loop stops on the
negation of the relation they name. -/
theorem comparisons_spec (p : String × (Int → Int → Bool)) (hp : p ∈ comparisons) :
    ∃ stop : Int → Int → Bool, (∀ a b, stop a b = !p.2 a b) ∧
      ∀ (n : Nat) (args : Obj),
        Eval (n + 2) (Obj.cell (Obj.sym p.1.toList) args)
          = Compare_Apply stop (fun e => Eval n e) args := by
  simp only [comparisons, List.mem_cons, List.mem_singleton, List.not_mem_nil, or_false] at hp
  rcases hp with rfl | rfl | rfl | rfl | rfl
  · refine ⟨fun a b => decide (a ≠ b), fun a b => by simp, fun n args => ?_⟩
    rw [Eval_call n _ Func.IsEqual _ (by decide)]
    simp only [Apply, IsEqual_Apply]
  · refine ⟨fun a b => decide (a ≥ b), fun a b => ?_, fun n args => ?_⟩
    · rw [← decide_not]
      exact decide_eq_decide.mpr (by omega)
    · rw [Eval_call n _ Func.IsIncrease _ (by decide)]
      simp only [Apply, IsIncrease_Apply]
  · refine ⟨fun a b => decide (a ≤ b), fun a b => ?_, fun n args => ?_⟩
    · rw [← decide_not]
      exact decide_eq_decide.mpr (by omega)
    · rw [Eval_call n _ Func.IsDecrease _ (by decide)]
      simp only [Apply, IsDecrease_Apply]
  · refine ⟨fun a b => decide (a > b), fun a b => ?_, fun n args => ?_⟩
    · rw [← decide_not]
      exact decide_eq_decide.mpr (by omega)
    · rw [Eval_call n _ Func.IsNonDecrease _ (by decide)]
      simp only [Apply, IsNonDecrease_Apply]
  · refine ⟨fun a b => decide (a < b), fun a b => ?_, fun n args => ?_⟩
    · rw [← decide_not]
      exact decide_eq_decide.mpr (by omega)
    · rw [Eval_call n _ Func.IsNonIncrease _ (by decide)]
      simp only [Apply, IsNonIncrease_Apply]

/-- C10. For each of `=`, `<`, `>`, `<=`, `>=` with the relation `R` it names: when
the operands evaluate to at least two Numbers `n1 ... nk`, the call returns a
`Bool` that is `#t` exactly when every adjacent pair `(n_i, n_(i+1))` satisfies
`R`; when the operands evaluate to values one of which is not a Number, the
call signals `RuntimeError`. -/
theorem C10_comparisons :
    (∀ p ∈ comparisons, ∀ (n : Nat) (es : List Obj) (ns : List Int),
      2 ≤ ns.length → EvalsToNumbers n es ns →
      ∃ b : Bool,
        Eval (n + 2) (Obj.cell (Obj.sym p.1.toList) (chain es Obj.null)) = .ok (Obj.bool b) ∧
        (b = true ↔ List.Chain' (fun x y => p.2 x y = true) ns)) ∧
    (∀ p ∈ comparisons, ∀ (n : Nat) (es vs : List Obj) (v : Obj),
      EvalsTo n es vs → v ∈ vs → Is_Number v = false →
      Eval (n + 2) (Obj.cell (Obj.sym p.1.toList) (chain es Obj.null))
        = .error .RuntimeError) := by
  refine ⟨?_, ?_⟩
  · intro p hp n es ns hlen h
    obtain ⟨stop, hstop, hev⟩ := comparisons_spec p hp
    refine ⟨compare_loop stop ns, ?_, compare_loop_iff stop p.2 hstop ns⟩
    rw [hev, Compare_Apply_numbers stop n es ns hlen h]
  · intro p hp n es vs v h hv hnum
    obtain ⟨stop, _, hev⟩ := comparisons_spec p hp
    rw [hev, Compare_Apply_not_number stop n es vs v h hv hnum]

/-- Witness of C10: the instance for `(< 1 3 2)`, with `(= 1 1 1)` and
`(< 1 2 3)` giving `#t`, `(< 1 3 2)` giving `#f` and `(< 1 #t)` signalling
`RuntimeError`. -/
theorem C10_comparisons_witness :
    (∃ b : Bool,
      Eval 3 (Obj.cell (Obj.sym "<".toList) (chain [Obj.num 1, Obj.num 3, Obj.num 2] Obj.null))
        = .ok (Obj.bool b) ∧
      (b = true ↔ List.Chain' (fun x y => decide (x < y) = true) [(1 : Int), 3, 2])) ∧
    Eval 3 (Obj.cell (Obj.sym "=".toList) (chain [Obj.num 1, Obj.num 1, Obj.num 1] Obj.null))
      = .ok (Obj.bool true) ∧
    Eval 3 (Obj.cell (Obj.sym "<".toList) (chain [Obj.num 1, Obj.num 2, Obj.num 3] Obj.null))
      = .ok (Obj.bool true) ∧
    Eval 3 (Obj.cell (Obj.sym "<".toList) (chain [Obj.num 1, Obj.num 3, Obj.num 2] Obj.null))
      = .ok (Obj.bool false) ∧
    Eval 3 (Obj.cell (Obj.sym "<".toList) (chain [Obj.num 1, Obj.bool true] Obj.null))
      = .error .RuntimeError :=
  ⟨C10_comparisons.1 ("<", fun a b => decide (a < b))
      (List.mem_cons_of_mem _ (List.mem_cons_self _ _)) 1
      [Obj.num 1, Obj.num 3, Obj.num 2] [1, 3, 2] (by decide)
      (List.Forall₂.cons rfl (List.Forall₂.cons rfl (List.Forall₂.cons rfl List.Forall₂.nil))),
   by decide, by decide, by decide,
   C10_comparisons.2 ("<", fun a b => decide (a < b))
      (List.mem_cons_of_mem _ (List.mem_cons_self _ _)) 1
      [Obj.num 1, Obj.bool true] [Obj.num 1, Obj.bool true] (Obj.bool true)
      (List.Forall₂.cons rfl (List.Forall₂.cons rfl List.Forall₂.nil)) (by decide) rfl⟩

/-! ## Printer (C4) -/

theorem RepresentAsStr_not_cell (t : Obj) (b : Bool) (h : Is_Cell t = false) :
    RepresentAsStr t b = RepresentAsStr t true := by
  cases t <;> simp_all [RepresentAsStr, Is_Cell]

theorem intercalate_cons_cons (sep x y : List Char) (l : List (List Char)) :
    List.intercalate sep (x :: y :: l) = x ++ sep ++ List.intercalate sep (y :: l) := by
  simp [List.intercalate, List.intersperse]

/-- Rendering of a non-empty chain, with or without the outer brackets. -/
theorem RepresentAsStr_chain (vs : List Obj) (rs : List (List Char)) (tail : Obj)
    (rt : List Char) (htail : Is_Cell tail = false)
    (ht : tail ≠ Obj.null → RepresentAsStr tail true = .ok rt)
    (hvs : List.Forall₂ (fun v r => RepresentAsStr v true = .ok r) vs rs) :
    ∀ (v : Obj) (r : List Char) (b : Bool), RepresentAsStr v true = .ok r →
      RepresentAsStr (chain (v :: vs) tail) b
        = .ok ((if b then ['('] else []) ++ List.intercalate [' '] (r :: rs)
            ++ (if tail = Obj.null then [] else [' ', '.', ' '] ++ rt)
            ++ (if b then [')'] else [])) := by
  induction hvs with
  | nil =>
    intro v r b hv
    by_cases hn : tail = Obj.null
    · subst hn
      simp [chain, RepresentAsStr, hv, List.intercalate]
    · have h2 := ht hn
      rw [← RepresentAsStr_not_cell tail false htail] at h2
      simp [chain, RepresentAsStr, hv, hn, h2, htail, List.intercalate]
  | @cons v1 r1 vs rs hv1 _ ih =>
    intro v r b hv
    have ih1 := ih v1 r1 false hv1
    simp only [chain, List.foldr_cons] at ih1 ⊢
    rw [intercalate_cons_cons, RepresentAsStr, hv]
    simp [ih1, Is_Cell]

theorem Run_eq (fuel : Nat) (expr : List Char) (obj res : Obj) (out : List Char)
    (h1 : ReadFullString expr = .ok obj) (h2 : obj ≠ Obj.null)
    (h3 : Eval fuel obj = .ok res) (h4 : RepresentAsStr res true = .ok out) :
    Run fuel expr = .ok out := by
  simp [Run, h1, h2, h3, h4]

/-- C4. The rendering with brackets of a Pair chain with elements `v1 ... vn`
(`n >= 1`) whose renderings are `r1 ... rn` is `(`, then `r1 ... rn` separated by
single spaces, then, when the chain ends in a non-empty non-Pair tail rendered
as `rt`, the text ` . ` and `rt`, then `)`; an element that is itself a Pair is
rendered within its own brackets; `(cons 1 2)` prints as `(1 . 2)` and
`(cons 1 (cons 2 (quote ())))` as `(1 2)`. -/
theorem C4_render_chain :
    (∀ (v : Obj) (vs : List Obj) (r : List Char) (rs : List (List Char)),
      List.Forall₂ (fun v r => RepresentAsStr v true = .ok r) (v :: vs) (r :: rs) →
      RepresentAsStr (chain (v :: vs) Obj.null) true
        = .ok (['('] ++ List.intercalate [' '] (r :: rs) ++ [')'])) ∧
    (∀ (v : Obj) (vs : List Obj) (tail : Obj) (r : List Char) (rs : List (List Char))
      (rt : List Char),
      tail ≠ Obj.null → Is_Cell tail = false → RepresentAsStr tail true = .ok rt →
      List.Forall₂ (fun v r => RepresentAsStr v true = .ok r) (v :: vs) (r :: rs) →
      RepresentAsStr (chain (v :: vs) tail) true
        = .ok (['('] ++ List.intercalate [' '] (r :: rs) ++ [' ', '.', ' '] ++ rt ++ [')'])) ∧
    (∀ (a b : Obj) (r : List Char), RepresentAsStr (Obj.cell a b) true = .ok r →
      ∃ inner, r = ['('] ++ inner ++ [')'] ∧ RepresentAsStr (Obj.cell a b) false = .ok inner) ∧
    (∀ (n : Nat), Run (n + 3) "(cons 1 2)".toList = .ok "(1 . 2)".toList) ∧
    (∀ (n : Nat), Run (n + 6) "(cons 1 (cons 2 (quote ())))".toList = .ok "(1 2)".toList) ∧
    (∀ (n : Nat), Run (n + 6) ("(cons 1 (cons 2 ".toList ++ [quoteChar] ++ "()))".toList)
      = .ok "(1 2)".toList) := by
  refine ⟨?_, ?_, ?_, ?_, ?_, ?_⟩
  · intro v vs r rs h
    cases h with
    | cons hv hvs =>
      have := RepresentAsStr_chain vs rs Obj.null [] rfl (fun h => absurd rfl h) hvs v r true hv
      simpa using this
  · intro v vs tail r rs rt hn hc ht h
    cases h with
    | cons hv hvs =>
      have := RepresentAsStr_chain vs rs tail rt hc (fun _ => ht) hvs v r true hv
      simpa [hn] using this
  · intro a b r h
    simp only [RepresentAsStr] at h ⊢
    cases ha : RepresentAsStr a true with
    | error e => simp [ha] at h
    | ok ra =>
      simp only [ha] at h ⊢
      by_cases hb : b = Obj.null
      · simp only [hb, ne_eq, not_true_eq_false, if_false] at h ⊢
        simp only [Except.ok.injEq] at h
        exact ⟨ra, by rw [← h]; simp, by simp⟩
      · simp only [hb, ne_eq, not_false_eq_true, if_true] at h ⊢
        cases hrb : RepresentAsStr b false with
        | error e => simp [hrb] at h
        | ok rb =>
          simp only [hrb, Except.ok.injEq] at h ⊢
          exact ⟨ra ++ [' '] ++ (if !Is_Cell b then ['.', ' '] else []) ++ rb,
            by rw [← h]; simp, by simp⟩
  · intro n
    refine Run_eq _ _
      (Obj.cell (Obj.sym "cons".toList) (Obj.cell (Obj.num 1) (Obj.cell (Obj.num 2) Obj.null)))
      (Obj.cell (Obj.num 1) (Obj.num 2)) _ (by decide) (by decide) ?_ (by decide)
    rw [Eval_call (n + 1) _ Func.Cons _ (by decide)]
    simp [Apply, Cons_Apply, GetVector, Eval]
  · intro n
    refine Run_eq _ _
      (Obj.cell (Obj.sym "cons".toList) (Obj.cell (Obj.num 1) (Obj.cell
        (Obj.cell (Obj.sym "cons".toList) (Obj.cell (Obj.num 2) (Obj.cell
          (Obj.cell (Obj.sym quoteName) (Obj.cell Obj.null Obj.null)) Obj.null))) Obj.null)))
      (Obj.cell (Obj.num 1) (Obj.cell (Obj.num 2) Obj.null)) _
      (by decide) (by decide) ?_ (by decide)
    have hc : lookup ['c', 'o', 'n', 's'] = Obj.func Func.Cons := by decide
    simp [Eval, Apply, Cons_Apply, GetVector, Quote_Apply, As_Cell, hc, lookup_quoteName]
  · intro n
    refine Run_eq _ _
      (Obj.cell (Obj.sym "cons".toList) (Obj.cell (Obj.num 1) (Obj.cell
        (Obj.cell (Obj.sym "cons".toList) (Obj.cell (Obj.num 2) (Obj.cell
          (Obj.cell (Obj.sym quoteName) (Obj.cell Obj.null Obj.null)) Obj.null))) Obj.null)))
      (Obj.cell (Obj.num 1) (Obj.cell (Obj.num 2) Obj.null)) _
      (by decide) (by decide) ?_ (by decide)
    have hc : lookup ['c', 'o', 'n', 's'] = Obj.func Func.Cons := by decide
    simp [Eval, Apply, Cons_Apply, GetVector, Quote_Apply, As_Cell, hc, lookup_quoteName]

/-! ## The scanner on rendered atoms -/

theorem Next_open (r : List Char) (st : Token) (b : Bool) :
    Tokenizer.Next ⟨'(' :: r, st, b⟩ = .ok ⟨r, Token.Bracket .OPEN, false⟩ := by
  simp [Tokenizer.Next, isspace, quoteChar]

theorem Next_close (r : List Char) (st : Token) (b : Bool) :
    Tokenizer.Next ⟨')' :: r, st, b⟩ = .ok ⟨r, Token.Bracket .CLOSE, false⟩ := by
  simp [Tokenizer.Next, isspace, quoteChar]

theorem Next_dot (r : List Char) (st : Token) (b : Bool) :
    Tokenizer.Next ⟨'.' :: r, st, b⟩ = .ok ⟨r, Token.Dot, false⟩ := by
  simp [Tokenizer.Next, isspace, quoteChar]

theorem Next_space (r : List Char) (st : Token) (b : Bool) :
    Tokenizer.Next ⟨' ' :: r, st, b⟩ = Tokenizer.Next ⟨r, st, b⟩ := by
  simp [Tokenizer.Next, isspace]

theorem Next_nil (st : Token) (b : Bool) :
    Tokenizer.Next ⟨[], st, b⟩ = .ok ⟨[], st, true⟩ := by
  simp [Tokenizer.Next]

theorem takeWhile_append_stop (p : Char → Bool) (l r : List Char)
    (hl : ∀ c ∈ l, p c = true) (hr : ∀ c ∈ r.head?, p c = false) :
    (l ++ r).takeWhile p = l := by
  induction l with
  | nil =>
    cases r with
    | nil => rfl
    | cons c r => simp [List.takeWhile, hr c (by simp)]
  | cons a l ih =>
    simp [List.takeWhile, hl a (by simp), ih (fun c hc => hl c (by simp [hc]))]

theorem dropWhile_append_stop (p : Char → Bool) (l r : List Char)
    (hl : ∀ c ∈ l, p c = true) (hr : ∀ c ∈ r.head?, p c = false) :
    (l ++ r).dropWhile p = r := by
  induction l with
  | nil =>
    cases r with
    | nil => rfl
    | cons c r => simp [List.dropWhile, hr c (by simp)]
  | cons a l ih =>
    simp [List.dropWhile, hl a (by simp), ih (fun c hc => hl c (by simp [hc]))]

theorem Delim.not_digit {rest : List Char} (h : Delim rest) : ∀ c ∈ rest.head?, isdigit c = false := by
  intro c hc
  rcases h c hc with rfl | rfl <;> decide

theorem Delim.not_symbolTail {rest : List Char} (h : Delim rest) :
    ∀ c ∈ rest.head?, symbolTail c = false := by
  intro c hc
  rcases h c hc with rfl | rfl <;> decide

theorem digitChar_toNat (d : Nat) (h : d < 10) : (Nat.digitChar d).toNat - 48 = d := by
  interval_cases d <;> decide

theorem digitChar_isdigit (d : Nat) (h : d < 10) : isdigit (Nat.digitChar d) = true := by
  interval_cases d <;> decide

theorem natDigits_all (f n : Nat) : ∀ c ∈ natDigits f n, isdigit c = true := by
  induction f generalizing n with
  | zero => simp [natDigits]
  | succ f ih =>
    intro c hc
    simp only [natDigits] at hc
    split at hc
    · simp only [List.mem_singleton] at hc
      subst hc
      exact digitChar_isdigit n (by assumption)
    · simp only [List.mem_append, List.mem_singleton] at hc
      rcases hc with hc | hc
      · exact ih _ c hc
      · subst hc
        exact digitChar_isdigit _ (Nat.mod_lt _ (by decide))

theorem natDigits_ne_nil (f n : Nat) : natDigits (f + 1) n ≠ [] := by
  simp only [natDigits]
  split <;> simp

theorem digitsValue_append (l : List Char) (c : Char) :
    digitsValue (l ++ [c]) = digitsValue l * 10 + (c.toNat - 48) := by
  simp [digitsValue, List.foldl_append]

theorem digitsValue_natDigits (f n : Nat) (h : n < f) : digitsValue (natDigits f n) = n := by
  induction f generalizing n with
  | zero => omega
  | succ f ih =>
    simp only [natDigits]
    split
    · rename_i h10
      simp [digitsValue, digitChar_toNat n h10]
    · rw [digitsValue_append, ih (n / 10) (by omega), digitChar_toNat _ (Nat.mod_lt _ (by decide))]
      omega

theorem isdigit_facts (c : Char) (h : isdigit c = true) :
    isspace c = false ∧ c ≠ quoteChar ∧ c ≠ '.' ∧ c ≠ '(' ∧ c ≠ ')' ∧ c ≠ '*' ∧ c ≠ '/'
      ∧ c ≠ '+' ∧ c ≠ '-' := by
  refine ⟨?_, ?_, ?_, ?_, ?_, ?_, ?_, ?_, ?_⟩
  · simp only [isdigit, isspace, Bool.and_eq_true, decide_eq_true_eq, Bool.or_eq_false_iff,
      decide_eq_false_iff_not, Bool.and_eq_false_iff] at h ⊢
    omega
  all_goals
    rintro rfl
    exact absurd h (by decide)

theorem Next_digits (ds rest : List Char) (st : Token) (b : Bool) (hne : ds ≠ [])
    (hall : ∀ c ∈ ds, isdigit c = true) (hr : Delim rest)
    (hv : (digitsValue ds : Int) ≤ INT_MAX) :
    Tokenizer.Next ⟨ds ++ rest, st, b⟩ = .ok ⟨rest, Token.Constant (digitsValue ds), false⟩ := by
  cases ds with
  | nil => exact absurd rfl hne
  | cons d ds =>
    obtain ⟨h1, h2, h3, h4, h5, h6, h7, h8, h9⟩ := isdigit_facts d (hall d (by simp))
    have hd := hall d (by simp)
    have htw := takeWhile_append_stop isdigit ds rest (fun c hc => hall c (by simp [hc])) hr.not_digit
    have hdw := dropWhile_append_stop isdigit ds rest (fun c hc => hall c (by simp [hc])) hr.not_digit
    simp [Tokenizer.Next, List.dropWhile, h1, h2, h3, h4, h5, h6, h7, h8, h9, hd, htw, hdw, stoi, hv]

theorem Next_minus_digits (ds rest : List Char) (st : Token) (b : Bool) (hne : ds ≠ [])
    (hall : ∀ c ∈ ds, isdigit c = true) (hr : Delim rest)
    (hv : (digitsValue ds : Int) ≤ INT_MAX) :
    Tokenizer.Next ⟨'-' :: (ds ++ rest), st, b⟩
      = .ok ⟨rest, Token.Constant (-(digitsValue ds : Int)), false⟩ := by
  cases ds with
  | nil => exact absurd rfl hne
  | cons d ds =>
    obtain ⟨h1, -⟩ := isdigit_facts d (hall d (by simp))
    have hd := hall d (by simp)
    have htw := takeWhile_append_stop isdigit (d :: ds) rest hall hr.not_digit
    have hdw := dropWhile_append_stop isdigit ds rest (fun c hc => hall c (by simp [hc]))
      hr.not_digit
    have hm : isspace '-' = false := by decide
    simp only [List.cons_append] at htw
    simp [Tokenizer.Next, List.dropWhile, hm, quoteChar, h1, hd, htw, hdw, stoi, hv]

theorem Next_to_string (v : Int) (rest : List Char) (st : Token) (b : Bool)
    (hv : v.natAbs ≤ 2147483647) (hr : Delim rest) :
    Tokenizer.Next ⟨to_string v ++ rest, st, b⟩ = .ok ⟨rest, Token.Constant v, false⟩ := by
  have hval := digitsValue_natDigits (v.natAbs + 1) v.natAbs (Nat.lt_succ_self _)
  have hmax : ((digitsValue (natDigits (v.natAbs + 1) v.natAbs) : Nat) : Int) ≤ INT_MAX := by
    rw [hval]
    simp only [INT_MAX]
    omega
  by_cases hneg : v < 0
  · simp only [to_string, hneg, if_true, List.cons_append]
    rw [Next_minus_digits _ rest st b (natDigits_ne_nil _ _) (natDigits_all _ _) hr hmax, hval]
    have : -((v.natAbs : Nat) : Int) = v := by omega
    rw [this]
  · simp only [to_string, hneg, if_false]
    rw [Next_digits _ rest st b (natDigits_ne_nil _ _) (natDigits_all _ _) hr hmax, hval]
    have : ((v.natAbs : Nat) : Int) = v := by omega
    rw [this]

theorem Next_bool (x : Bool) (rest : List Char) (st : Token) (b : Bool) :
    Tokenizer.Next ⟨GetState x ++ rest, st, b⟩
      = .ok ⟨rest, Token.Bool (if x then BoolToken.TRUE else BoolToken.FALSE), false⟩ := by
  cases x <;> simp [GetState, Tokenizer.Next, isspace, quoteChar, isdigit]

theorem symbolHead_facts (c : Char)
    (h : (isalpha c || c = '<' || c = '=' || c = '>') = true) :
    isspace c = false ∧ c ≠ quoteChar ∧ c ≠ '.' ∧ c ≠ '(' ∧ c ≠ ')' ∧ c ≠ '*' ∧ c ≠ '/'
      ∧ c ≠ '+' ∧ c ≠ '-' ∧ isdigit c = false ∧ c ≠ '#'
      ∧ (isalpha c = true ∨ c ∈ first_pack) := by
  have key : isalpha c = true ∨ c = '<' ∨ c = '=' ∨ c = '>' := by
    simpa [Bool.or_eq_true, or_assoc] using h
  rcases key with h | rfl | rfl | rfl
  · refine ⟨?_, ?_, ?_, ?_, ?_, ?_, ?_, ?_, ?_, ?_, ?_, Or.inl h⟩
    · simp only [isalpha, isspace, Bool.and_eq_true, decide_eq_true_eq, Bool.or_eq_true,
        Bool.or_eq_false_iff, decide_eq_false_iff_not, Bool.and_eq_false_iff] at h ⊢
      omega
    case refine_10 =>
      simp only [isalpha, isdigit, Bool.and_eq_true, decide_eq_true_eq, Bool.or_eq_true,
        Bool.or_eq_false_iff, decide_eq_false_iff_not, Bool.and_eq_false_iff] at h ⊢
      omega
    all_goals
      rintro rfl
      exact absurd h (by decide)
  all_goals decide

theorem Next_symbol (s rest : List Char) (st : Token) (b : Bool)
    (hs : symbolText s = true) (hr : Delim rest) :
    Tokenizer.Next ⟨s ++ rest, st, b⟩ = .ok ⟨rest, Token.Symbol s, false⟩ := by
  cases s with
  | nil => simp [symbolText] at hs
  | cons c tail =>
    simp only [symbolText, Bool.or_eq_true, Bool.and_eq_true] at hs
    rcases hs with ⟨hc, ht⟩ | ⟨hc, ht⟩
    · have ht2 : tail = [] := by simpa using ht
      subst ht2
      have hc2 : c = '*' ∨ c = '/' ∨ c = '+' ∨ c = '-' := by
        simpa [Bool.or_eq_true, or_assoc] using hc
      rcases hc2 with rfl | rfl | rfl | rfl
      · simp [Tokenizer.Next, isspace, quoteChar]
      · simp [Tokenizer.Next, isspace, quoteChar]
      · cases rest with
        | nil => simp [Tokenizer.Next, isspace, quoteChar]
        | cons r rest =>
          rcases hr r (by simp) with rfl | rfl <;>
            simp [Tokenizer.Next, isspace, quoteChar, isdigit]
      · cases rest with
        | nil => simp [Tokenizer.Next, isspace, quoteChar]
        | cons r rest =>
          rcases hr r (by simp) with rfl | rfl <;>
            simp [Tokenizer.Next, isspace, quoteChar, isdigit]
    · obtain ⟨h1, h2, h3, h4, h5, h6, h7, h8, h9, h10, h11, h12⟩ :=
        symbolHead_facts c (by simp only [Bool.or_eq_true]; exact hc)
      have hall : ∀ x ∈ tail, symbolTail x = true := by simpa using ht
      have htw := takeWhile_append_stop symbolTail tail rest hall hr.not_symbolTail
      have hdw := dropWhile_append_stop symbolTail tail rest hall hr.not_symbolTail
      simp [Tokenizer.Next, List.dropWhile, h1, h2, h3, h4, h5, h6, h7, h8, h9, h10, h11, h12,
        htw, hdw]

theorem dropWhile_head_not (p : Char → Bool) (l r : List Char) (a : Char)
    (h : l.dropWhile p = a :: r) : p a = false := by
  have := List.head_dropWhile_not p l (by rw [h]; simp)
  simpa [h] using this

/-- The texts accepted by `symbolText` are exactly those that the scanner reads
as one symbol token whose name is the whole text. -/
theorem symbolText_iff (s : List Char) :
    symbolText s = true ↔ Tokenizer.new s = .ok ⟨[], Token.Symbol s, false⟩ := by
  constructor
  · intro hs
    have := Next_symbol s [] (Token.Constant 0) false hs (by intro c hc; simp at hc)
    simpa [Tokenizer.new] using this
  · intro h
    unfold Tokenizer.new Tokenizer.Next at h
    dsimp only at h
    cases hd : List.dropWhile isspace s with
    | nil =>
      rw [hd] at h
      cases h
    | cons ch rest =>
      rw [hd] at h
      dsimp only at h
      have hsp := dropWhile_head_not isspace s rest ch hd
      -- once the name is known to start with `ch`, the text has no leading space
      have hs_eq : ∀ x, s = ch :: x → x = rest := by
        intro x hx
        subst hx
        simp only [List.dropWhile, hsp] at hd
        exact (List.cons.inj hd).2
      by_cases c1 : ch = quoteChar
      · rw [if_pos c1] at h; cases h
      rw [if_neg c1] at h
      by_cases c2 : ch = '.'
      · rw [if_pos c2] at h; cases h
      rw [if_neg c2] at h
      by_cases c3 : ch = '('
      · rw [if_pos c3] at h; cases h
      rw [if_neg c3] at h
      by_cases c4 : ch = ')'
      · rw [if_pos c4] at h; cases h
      rw [if_neg c4] at h
      by_cases c5 : ch = '*' ∨ ch = '/'
      · rw [if_pos c5] at h
        cases h
        rcases c5 with rfl | rfl <;> decide
      rw [if_neg c5] at h
      by_cases c6 : ch = '+' ∨ ch = '-'
      · rw [if_pos c6] at h
        split at h
        · cases h
          rcases c6 with rfl | rfl <;> decide
        · rename_i nc tl
          by_cases d1 : isspace nc = true
          · rw [if_pos d1] at h; cases h
          rw [if_neg d1] at h
          by_cases d2 : isdigit nc = true
          · rw [if_pos d2] at h
            split at h
            · cases h
            · by_cases d3 : ch = '+'
              · rw [if_pos d3] at h; exact Token.noConfusion (Tokenizer.mk.inj (Except.ok.inj h)).2.1
              · rw [if_neg d3] at h; exact Token.noConfusion (Tokenizer.mk.inj (Except.ok.inj h)).2.1
          · rw [if_neg d2] at h; cases h
      rw [if_neg c6] at h
      by_cases c7 : isdigit ch = true
      · rw [if_pos c7] at h
        split at h
        · cases h
        · exact Token.noConfusion (Tokenizer.mk.inj (Except.ok.inj h)).2.1
      rw [if_neg c7] at h
      by_cases c8 : ch = '#'
      · rw [if_pos c8] at h
        split at h
        · cases h
        · rename_i c rest2
          by_cases e1 : c = 't'
          · rw [if_pos e1] at h; cases h
          rw [if_neg e1] at h
          by_cases e2 : c = 'f'
          · rw [if_pos e2] at h; cases h
          · rw [if_neg e2] at h; cases h
      rw [if_neg c8] at h
      by_cases c9 : isalpha ch = true ∨ ch ∈ first_pack
      · rw [if_pos c9] at h
        simp only [Except.ok.injEq, Tokenizer.mk.injEq, Token.Symbol.injEq, and_true] at h
        obtain ⟨-, hname⟩ := h
        have hrest := hs_eq _ hname.symm
        have hall : ∀ x ∈ rest, symbolTail x = true := by
          intro x hx
          rw [← hrest] at hx
          exact List.mem_takeWhile_imp hx
        have hhead : (isalpha ch || decide (ch = '<') || decide (ch = '=') || decide (ch = '>'))
            = true := by
          rcases c9 with hal | hfp
          · simp [hal]
          · simp only [first_pack, List.mem_cons, List.mem_singleton, List.not_mem_nil,
              or_false] at hfp
            rcases hfp with rfl | rfl | rfl | rfl | rfl
            · decide
            · decide
            · decide
            · exact absurd (Or.inl rfl) c5
            · exact absurd rfl c8
        rw [← hname, hrest]
        simp only [symbolText, Bool.or_eq_true, Bool.and_eq_true, List.all_eq_true]
        exact Or.inr ⟨by simpa [Bool.or_eq_true] using hhead, hall⟩
      · rw [if_neg c9] at h; cases h

/-! ## Reading back a rendering (C2, C3) -/

theorem RepresentAsStr_Printable (e : Obj) (h : Printable e = true) :
    ∀ b, RepresentAsStr e b = .ok (textOf e b) := by
  induction e with
  | null => intro b; simp [textOf, RepresentAsStr]
  | num v => intro b; simp [textOf, RepresentAsStr]
  | sym s => intro b; simp [textOf, RepresentAsStr]
  | bool s => intro b; simp [textOf, RepresentAsStr]
  | func f => simp [Printable] at h
  | cell a d iha ihd =>
    intro b
    simp only [Printable, Bool.and_eq_true] at h
    have ha := iha h.1 true
    have hd := ihd h.2 false
    simp only [textOf]
    rw [RepresentAsStr, ha]
    by_cases hn : d = Obj.null
    · simp [hn]
    · simp [hn, hd]

theorem textOf_cell (a d : Obj) (b : Bool) (h : Printable (Obj.cell a d) = true) :
    textOf (Obj.cell a d) b
      = (if b then ['('] else []) ++ textOf a true
          ++ (if d = Obj.null then []
              else ' ' :: ((if Is_Cell d then [] else ['.', ' ']) ++ textOf d false))
          ++ (if b then [')'] else []) := by
  have h2 := h
  simp only [Printable, Bool.and_eq_true] at h2
  have ha := RepresentAsStr_Printable a h2.1 true
  have hd := RepresentAsStr_Printable d h2.2 false
  have hc := RepresentAsStr_Printable (Obj.cell a d) h b
  rw [RepresentAsStr, ha] at hc
  by_cases hn : d = Obj.null
  · simp only [hn, ne_eq, not_true_eq_false, if_false, Except.ok.injEq, if_true] at hc ⊢
    rw [← hc]
    simp
  · simp only [hn, ne_eq, not_false_eq_true, if_true, hd, Except.ok.injEq, if_false] at hc ⊢
    rw [← hc]
    cases hcd : Is_Cell d <;> simp

theorem to_string_ne_nil (v : Int) : to_string v ≠ [] := by
  simp only [to_string]
  split
  · simp
  · exact natDigits_ne_nil _ _

theorem textOf_pos (e : Obj) (h : Printable e = true) : 1 ≤ (textOf e true).length := by
  cases e with
  | null => simp [textOf, RepresentAsStr]
  | num v =>
    have := to_string_ne_nil v
    simp only [textOf, RepresentAsStr]
    exact List.length_pos.mpr this
  | sym s =>
    simp only [textOf, RepresentAsStr]
    cases s with
    | nil => simp [Printable, symbolText] at h
    | cons c t => simp
  | bool s => cases s <;> simp [textOf, RepresentAsStr, GetState]
  | func f => simp [Printable] at h
  | cell a d =>
    rw [textOf_cell a d true h]
    simp

theorem Read_Symbol (n : Nat) (tk : Tokenizer) (s : List Char) (h0 : tk.is_end_ = false)
    (h1 : tk.next_ = Token.Symbol s) :
    Read (n + 1) tk = Except.map (fun t => (Obj.sym s, t)) tk.Next := by
  simp only [Read, Tokenizer.IsEnd, Tokenizer.GetToken, h0, h1]
  cases tk.Next <;> simp [Except.map]

theorem Read_Constant (n : Nat) (tk : Tokenizer) (v : Int) (h0 : tk.is_end_ = false)
    (h1 : tk.next_ = Token.Constant v) :
    Read (n + 1) tk = Except.map (fun t => (Obj.num v, t)) tk.Next := by
  simp only [Read, Tokenizer.IsEnd, Tokenizer.GetToken, h0, h1]
  cases tk.Next <;> simp [Except.map]

theorem Read_Bool (n : Nat) (tk : Tokenizer) (t : BoolToken) (h0 : tk.is_end_ = false)
    (h1 : tk.next_ = Token.Bool t) :
    Read (n + 1) tk = Except.map (fun t1 => (Obj.ofBoolToken t, t1)) tk.Next := by
  simp only [Read, Tokenizer.IsEnd, Tokenizer.GetToken, h0, h1]
  cases tk.Next <;> simp [Except.map]

theorem ReadsBack_num (v : Int) (hv : v.natAbs ≤ 2147483647) : ReadsBack (Obj.num v) := by
  intro rest st b n hr hn
  have ht : textOf (Obj.num v) true = to_string v := by simp [textOf, RepresentAsStr]
  have hpos := List.length_pos.mpr (to_string_ne_nil v)
  rw [ht] at hn ⊢
  obtain ⟨m, rfl⟩ : ∃ m, n = m + 1 := ⟨n - 1, by omega⟩
  refine ⟨⟨rest, Token.Constant v, false⟩, Token.Constant v,
    Next_to_string v rest st b hv hr, rfl, by simp, by simp, ?_⟩
  exact Read_Constant m _ v rfl rfl

theorem ReadsBack_sym (s : List Char) (hs : symbolText s = true) : ReadsBack (Obj.sym s) := by
  intro rest st b n hr hn
  have ht : textOf (Obj.sym s) true = s := by simp [textOf, RepresentAsStr]
  have hpos : 1 ≤ s.length := by
    cases s with
    | nil => simp [symbolText] at hs
    | cons c t => simp
  rw [ht] at hn ⊢
  obtain ⟨m, rfl⟩ : ∃ m, n = m + 1 := ⟨n - 1, by omega⟩
  refine ⟨⟨rest, Token.Symbol s, false⟩, Token.Symbol s,
    Next_symbol s rest st b hs hr, rfl, by simp, by simp, ?_⟩
  exact Read_Symbol m _ s rfl rfl

theorem ReadsBack_bool (x : Bool) : ReadsBack (Obj.bool x) := by
  intro rest st b n hr hn
  have ht : textOf (Obj.bool x) true = GetState x := by simp [textOf, RepresentAsStr]
  have hpos : 1 ≤ (GetState x).length := by cases x <;> simp [GetState]
  rw [ht] at hn ⊢
  obtain ⟨m, rfl⟩ : ∃ m, n = m + 1 := ⟨n - 1, by omega⟩
  refine ⟨⟨rest, Token.Bool (if x then BoolToken.TRUE else BoolToken.FALSE), false⟩,
    Token.Bool (if x then BoolToken.TRUE else BoolToken.FALSE),
    Next_bool x rest st b, rfl, by simp, by simp, ?_⟩
  cases x
  · exact Read_Bool m ⟨rest, Token.Bool BoolToken.FALSE, false⟩ BoolToken.FALSE rfl rfl
  · exact Read_Bool m ⟨rest, Token.Bool BoolToken.TRUE, false⟩ BoolToken.TRUE rfl rfl

theorem ReadsBack_null : ReadsBack Obj.null := by
  intro rest st b n hr hn
  have ht : textOf Obj.null true = ['(', ')'] := by simp [textOf, RepresentAsStr]
  rw [ht] at hn ⊢
  obtain ⟨m, rfl⟩ : ∃ m, n = m + 2 := ⟨n - 2, by simp at hn; omega⟩
  refine ⟨⟨')' :: rest, Token.Bracket .OPEN, false⟩, Token.Bracket .CLOSE,
    Next_open _ st b, rfl, by simp, by simp, ?_⟩
  simp only [Read, Tokenizer.IsEnd, Tokenizer.GetToken, Next_close, ReadList]
  cases Tokenizer.Next ⟨rest, Token.Bracket .CLOSE, false⟩ <;> simp [Except.map]

theorem ReadList_step (m : Nat) (tk tk1 : Tokenizer) (wc : Bool) (a d : Obj)
    (rest : List Char) (h0 : tk.is_end_ = false) (h1 : tk.next_ ≠ Token.Dot)
    (h2 : tk.next_ ≠ Token.Bracket .CLOSE) (hread : Read m tk = .ok (a, tk1))
    (htail : (if tk1.next_ = Token.Dot then Read m tk1
              else if tk1.next_ = Token.Bracket .CLOSE then .ok (Obj.null, tk1)
              else ReadList m tk1 false) = .ok (d, ⟨rest, Token.Bracket .CLOSE, false⟩)) :
    ReadList (m + 1) tk wc
      = if wc then
          Except.map (fun t => (Obj.cell a d, t))
            (Tokenizer.Next ⟨rest, Token.Bracket .CLOSE, false⟩)
        else .ok (Obj.cell a d, ⟨rest, Token.Bracket .CLOSE, false⟩) := by
  simp only [ReadList, Tokenizer.IsEnd, Tokenizer.GetToken, h0, h1, h2, hread, htail]
  cases wc
  · simp
  · cases Tokenizer.Next ⟨rest, Token.Bracket .CLOSE, false⟩ <;> simp [Except.map]

theorem ListReadsBack_cell (a d : Obj) (hp : Printable (Obj.cell a d) = true)
    (ha : ReadsBack a) (hd : ReadsBack d) (hdl : Is_Cell d = true → ListReadsBack d) :
    ListReadsBack (Obj.cell a d) := by
  intro rest st b n wc hn
  have hp2 := hp
  simp only [Printable, Bool.and_eq_true] at hp2
  have hta := textOf_pos a hp2.1
  rw [textOf_cell a d false hp] at hn ⊢
  simp only [Bool.false_eq_true, if_false, List.nil_append, List.append_nil] at hn ⊢
  obtain ⟨m, rfl⟩ : ∃ m, n = m + 1 := ⟨n - 1, by omega⟩
  by_cases hnull : d = Obj.null
  · subst hnull
    simp only [if_true, List.append_nil] at hn ⊢
    obtain ⟨tk, st1, hnext, hend, hdot, hclose, hread⟩ :=
      ha (')' :: rest) st b m (by intro c hc; simp at hc; exact Or.inr hc.symm) (by omega)
    refine ⟨tk, hnext, hend, hdot, hclose, ?_⟩
    rw [Next_close] at hread
    exact ReadList_step m tk _ wc a Obj.null rest hend hdot hclose hread (by simp)
  · simp only [hnull, if_false] at hn ⊢
    by_cases hcell : Is_Cell d = true
    · simp only [hcell, if_true, List.nil_append, List.length_append, List.length_cons] at hn ⊢
      obtain ⟨tk, st1, hnext, hend, hdot, hclose, hread⟩ :=
        ha (' ' :: (textOf d false ++ ')' :: rest)) st b m
          (by intro c hc; simp at hc; exact Or.inl hc.symm) (by omega)
      obtain ⟨tkd, hnextd, hendd, hdotd, hclosed, hreadd⟩ :=
        hdl hcell rest st1 false m false (by omega)
      refine ⟨tk, ?_, hend, hdot, hclose, ?_⟩
      · simpa using hnext
      · rw [Next_space, hnextd] at hread
        exact ReadList_step m tk _ wc a d rest hend hdot hclose hread
          (by simp [hdotd, hclosed, hreadd])
    · have hcell2 : Is_Cell d = false := by simpa using hcell
      simp only [hcell2, Bool.false_eq_true, if_false, List.length_append, List.length_cons,
        List.cons_append, List.nil_append] at hn ⊢
      have htd : textOf d false = textOf d true := by
        simp only [textOf, RepresentAsStr_not_cell d false hcell2]
      rw [htd] at hn ⊢
      have htdpos := textOf_pos d hp2.2
      obtain ⟨tk, st1, hnext, hend, hdot, hclose, hread⟩ :=
        ha (' ' :: '.' :: ' ' :: (textOf d true ++ ')' :: rest)) st b m
          (by intro c hc; simp at hc; exact Or.inl hc.symm) (by omega)
      obtain ⟨m2, rfl⟩ : ∃ m2, m = m2 + 1 := ⟨m - 1, by omega⟩
      obtain ⟨tkd, st2, hnextd, hendd, hdotd, hclosed, hreadd⟩ :=
        hd (')' :: rest) Token.Dot false m2
          (by intro c hc; simp at hc; exact Or.inr hc.symm) (by omega)
      refine ⟨tk, ?_, hend, hdot, hclose, ?_⟩
      · simpa using hnext
      · rw [Next_space, Next_dot] at hread
        rw [Next_close] at hreadd
        refine ReadList_step (m2 + 1) tk _ wc a d rest hend hdot hclose hread ?_
        simp only [if_true]
        simp only [Read, Tokenizer.IsEnd, Tokenizer.GetToken, Bool.false_eq_true, if_false,
          Next_space, hnextd, hendd, hreadd]
        simp [Except.map]

theorem ReadsBack_cell (a d : Obj) (hl : ListReadsBack (Obj.cell a d))
    (hp : Printable (Obj.cell a d) = true) : ReadsBack (Obj.cell a d) := by
  intro rest st b n hr hn
  have htext : textOf (Obj.cell a d) true = '(' :: (textOf (Obj.cell a d) false ++ [')']) := by
    rw [textOf_cell a d true hp, textOf_cell a d false hp]
    simp
  rw [htext] at hn ⊢
  simp only [List.length_cons, List.length_append, List.length_nil] at hn
  obtain ⟨m, rfl⟩ : ∃ m, n = m + 1 := ⟨n - 1, by omega⟩
  obtain ⟨tk, hnext, hend, hdot, hclose, hread⟩ :=
    hl rest (Token.Bracket .OPEN) false m true (by omega)
  refine ⟨⟨textOf (Obj.cell a d) false ++ ')' :: rest, Token.Bracket .OPEN, false⟩,
    Token.Bracket .CLOSE, ?_, rfl, by simp, by simp, ?_⟩
  · simp [Next_open]
  · simp only [Read, Tokenizer.IsEnd, Tokenizer.GetToken, hnext, hread, Bool.false_eq_true,
      if_false, if_true]

theorem ReadsBack_all (e : Obj) (hp : Printable e = true) :
    ReadsBack e ∧ (Is_Cell e = true → ListReadsBack e) := by
  induction e with
  | null => exact ⟨ReadsBack_null, by simp [Is_Cell]⟩
  | num v => exact ⟨ReadsBack_num v (by simpa [Printable] using hp), by simp [Is_Cell]⟩
  | sym s => exact ⟨ReadsBack_sym s (by simpa [Printable] using hp), by simp [Is_Cell]⟩
  | bool x => exact ⟨ReadsBack_bool x, by simp [Is_Cell]⟩
  | func f => simp [Printable] at hp
  | cell a d iha ihd =>
    have hp2 := hp
    simp only [Printable, Bool.and_eq_true] at hp2
    have hl := ListReadsBack_cell a d hp (iha hp2.1).1 (ihd hp2.2).1 (ihd hp2.2).2
    exact ⟨ReadsBack_cell a d hl hp, fun _ => hl⟩

theorem ReadFullString_textOf (e : Obj) (hp : Printable e = true) :
    ReadFullString (textOf e true) = .ok e := by
  obtain ⟨tk, st1, hnext, hend, -, -, hread⟩ :=
    (ReadsBack_all e hp).1 [] (Token.Constant 0) false (readFuel (textOf e true))
      (by intro c hc; simp at hc) (by simp only [readFuel]; omega)
  simp only [List.append_nil] at hnext
  simp only [ReadFullString, Tokenizer.new, hnext, hread, Next_nil]
  simp [Except.map, Tokenizer.IsEnd]

/-- Witness of C4: the chain with elements `1` and `(2)` and tail `3` prints as
`(1 (2) . 3)`, and the proper list of `1` and `(2)` as `(1 (2))`. -/
theorem C4_render_chain_witness :
    RepresentAsStr (chain [Obj.num 1, Obj.cell (Obj.num 2) Obj.null] (Obj.num 3)) true
      = .ok (['('] ++ List.intercalate [' '] ["1".toList, "(2)".toList]
          ++ [' ', '.', ' '] ++ "3".toList ++ [')']) ∧
    RepresentAsStr (chain [Obj.num 1, Obj.cell (Obj.num 2) Obj.null] Obj.null) true
      = .ok (['('] ++ List.intercalate [' '] ["1".toList, "(2)".toList] ++ [')']) :=
  ⟨C4_render_chain.2.1 (Obj.num 1) [Obj.cell (Obj.num 2) Obj.null] (Obj.num 3)
      "1".toList ["(2)".toList] "3".toList (by decide) rfl (by decide)
      (List.Forall₂.cons (by decide) (List.Forall₂.cons (by decide) List.Forall₂.nil)),
   C4_render_chain.1 (Obj.num 1) [Obj.cell (Obj.num 2) Obj.null]
      "1".toList ["(2)".toList]
      (List.Forall₂.cons (by decide) (List.Forall₂.cons (by decide) List.Forall₂.nil))⟩

/-- C3. For every expression `e` built only from Numbers of absolute value at
most `2^31 - 1`, Bools, Symbols whose name is a single scanner symbol token,
Pairs and the empty list, `RepresentAsStr(e, true)` returns a text and
`ReadFullString` of that text returns `e` itself. -/
theorem C3_print_then_read (e : Obj) (h : Printable e = true) :
    ∃ s, RepresentAsStr e true = .ok s ∧ ReadFullString s = .ok e :=
  ⟨textOf e true, RepresentAsStr_Printable e h true, ReadFullString_textOf e h⟩

/-- Witness of C3: the expression `(1 (a . -2) () . #t)`. -/
theorem C3_print_then_read_witness :
    Printable (chain [Obj.num 1, Obj.cell (Obj.sym ['a']) (Obj.num (-2)), Obj.null]
      (Obj.bool true)) = true ∧
    ∃ s, RepresentAsStr (chain [Obj.num 1, Obj.cell (Obj.sym ['a']) (Obj.num (-2)), Obj.null]
        (Obj.bool true)) true = .ok s ∧
      ReadFullString s = .ok (chain [Obj.num 1, Obj.cell (Obj.sym ['a']) (Obj.num (-2)),
        Obj.null] (Obj.bool true)) :=
  ⟨by decide, C3_print_then_read _ (by decide)⟩

/-- Counterexample to C2: the integer literals `+5` and `007` read as the
Numbers `5` and `7`, which render as `5` and `7`. -/
theorem C2_counterexample :
    ReadFullString "+5".toList = .ok (Obj.num 5) ∧
    RepresentAsStr (Obj.num 5) true = .ok "5".toList ∧
    "5".toList ≠ "+5".toList ∧
    ReadFullString "007".toList = .ok (Obj.num 7) ∧
    RepresentAsStr (Obj.num 7) true = .ok "7".toList ∧
    "7".toList ≠ "007".toList := by
  decide

/-- C2, amended. For every atom text `t` that is `#t`, `#f`, a single scanner
symbol token, or the decimal form that the printer gives to an integer of
absolute value at most `2^31 - 1` (a `-` for a negative value, no `+`, no
leading zeros), reading `t` returns an expression whose rendering is `t`. -/
theorem C2_atom_round_trip (t : List Char)
    (h : t = "#t".toList ∨ t = "#f".toList ∨ symbolText t = true
      ∨ ∃ v : Int, v.natAbs ≤ 2147483647 ∧ t = to_string v) :
    ∃ e, ReadFullString t = .ok e ∧ RepresentAsStr e true = .ok t := by
  rcases h with rfl | rfl | hs | ⟨v, hv, rfl⟩
  · exact ⟨Obj.bool true, by decide, by decide⟩
  · exact ⟨Obj.bool false, by decide, by decide⟩
  · have hp : Printable (Obj.sym t) = true := by simpa [Printable] using hs
    have := ReadFullString_textOf (Obj.sym t) hp
    simp only [textOf, RepresentAsStr] at this
    exact ⟨Obj.sym t, this, rfl⟩
  · have hp : Printable (Obj.num v) = true := by simpa [Printable] using hv
    have := ReadFullString_textOf (Obj.num v) hp
    simp only [textOf, RepresentAsStr] at this
    exact ⟨Obj.num v, this, rfl⟩

/-- Witness of C2, amended: the symbol text `list-tail`. -/
theorem C2_atom_round_trip_witness :
    ∃ e, ReadFullString "list-tail".toList = .ok e ∧
      RepresentAsStr e true = .ok "list-tail".toList :=
  C2_atom_round_trip "list-tail".toList (Or.inr (Or.inr (Or.inl (by decide))))

/-! ## `Run` (C6, C7) -/

/-- The result of `Next` depends on the previous token only at the end of the
stream. -/
theorem Next_stale (r : List Char) (st st1 : Token) (b b1 : Bool) (tk : Tokenizer)
    (h : Tokenizer.Next ⟨r, st, b⟩ = .ok tk) (hne : tk.is_end_ = false) :
    Tokenizer.Next ⟨r, st1, b1⟩ = .ok tk := by
  unfold Tokenizer.Next at h ⊢
  dsimp only at h ⊢
  cases hd : List.dropWhile isspace r with
  | nil =>
    rw [hd] at h
    cases h
    exact Bool.noConfusion hne
  | cons ch rest =>
    rw [hd] at h
    exact h

/-- C6. When the text holds one complete expression followed by at least one
further token, `Run` signals `SyntaxError` under every bound, the bound `0`
included, so nothing is evaluated.  This holds whenever `Read` returns and
leaves a current token in the tokenizer; in particular for the rendering of
any printable expression followed by a text that starts, after a space or at a
close bracket, with a token of the scanner. -/
theorem C6_run_rejects_trailing_token :
    (∀ (fuel : Nat) (expr : List Char) (tokenizer tk : Tokenizer) (res : Obj),
      Tokenizer.new expr = .ok tokenizer →
      Read (readFuel expr) tokenizer = .ok (res, tk) →
      tk.IsEnd = false →
      Run fuel expr = .error .SyntaxError) ∧
    (∀ (fuel : Nat) (e : Obj) (rest : List Char) (st : Token) (tk : Tokenizer),
      Printable e = true → Delim rest →
      Tokenizer.Next ⟨rest, st, false⟩ = .ok tk → tk.IsEnd = false →
      Run fuel (textOf e true ++ rest) = .error .SyntaxError) := by
  have part1 : ∀ (fuel : Nat) (expr : List Char) (tokenizer tk : Tokenizer) (res : Obj),
      Tokenizer.new expr = .ok tokenizer →
      Read (readFuel expr) tokenizer = .ok (res, tk) →
      tk.IsEnd = false →
      Run fuel expr = .error .SyntaxError := by
    intro fuel expr tokenizer tk res h1 h2 h3
    simp [Run, ReadFullString, h1, h2, h3]
  refine ⟨part1, ?_⟩
  intro fuel e rest st tk hp hd hnext hend
  obtain ⟨tk0, st1, hnext0, -, -, -, hread⟩ :=
    (ReadsBack_all e hp).1 rest (Token.Constant 0) false (readFuel (textOf e true ++ rest)) hd
      (by simp only [readFuel, List.length_append]; omega)
  rw [Next_stale rest st st1 false false tk hnext hend] at hread
  exact part1 fuel _ tk0 tk e hnext0 hread hend

/-- Witness of C6: the text `1 2`, and the text `(+ 1 2))` as the rendering of
`(+ 1 2)` followed by `)`. -/
theorem C6_run_rejects_trailing_token_witness :
    Run 0 "1 2".toList = .error .SyntaxError ∧
    Run 9 (textOf (Obj.cell (Obj.sym ['+']) (Obj.cell (Obj.num 1) (Obj.cell (Obj.num 2)
      Obj.null))) true ++ [')']) = .error .SyntaxError ∧
    textOf (Obj.cell (Obj.sym ['+']) (Obj.cell (Obj.num 1) (Obj.cell (Obj.num 2)
      Obj.null))) true ++ [')'] = "(+ 1 2))".toList :=
  ⟨C6_run_rejects_trailing_token.1 0 "1 2".toList ⟨" 2".toList, Token.Constant 1, false⟩
      ⟨[], Token.Constant 2, false⟩ (Obj.num 1) (by decide) (by decide) (by decide),
   C6_run_rejects_trailing_token.2 9
      (Obj.cell (Obj.sym ['+']) (Obj.cell (Obj.num 1) (Obj.cell (Obj.num 2) Obj.null)))
      [')'] (Token.Constant 0) ⟨[], Token.Bracket .CLOSE, false⟩ (by decide)
      (by intro c hc; simp at hc; exact Or.inr hc.symm) (by decide) (by decide),
   by decide⟩

/-- Counterexample to C7: `foo` is not in the procedure table, and `Run` on
the text `foo` signals no error: it returns `()`. -/
theorem C7_counterexample :
    lookup "foo".toList = Obj.null ∧
    ∀ fuel : Nat, Run (fuel + 1) "foo".toList = .ok "()".toList := by
  refine ⟨by decide, fun fuel => ?_⟩
  exact Run_eq _ _ (Obj.sym "foo".toList) Obj.null _ (by decide) (by decide)
    (by simp only [Eval]; rw [show lookup "foo".toList = Obj.null by decide]) (by decide)

/-- C7, amended. For every name `s` that is a single scanner symbol token and
is not registered in the procedure table, evaluating the symbol yields the
empty value without an error and `Run(s)` returns the text `()`; an error,
`RuntimeError`, is signalled when a Pair with that symbol as its first element
is evaluated. -/
theorem C7_unbound_symbol (s : List Char) (fuel : Nat) (hs : symbolText s = true)
    (hl : lookup s = Obj.null) :
    Eval (fuel + 1) (Obj.sym s) = .ok Obj.null ∧
    Run (fuel + 1) s = .ok "()".toList ∧
    ∀ args : Obj, Eval (fuel + 2) (Obj.cell (Obj.sym s) args) = .error .RuntimeError := by
  have hp : Printable (Obj.sym s) = true := by simpa [Printable] using hs
  have hread := ReadFullString_textOf (Obj.sym s) hp
  simp only [textOf, RepresentAsStr] at hread
  have hev : Eval (fuel + 1) (Obj.sym s) = .ok Obj.null := by simp [Eval, hl]
  refine ⟨hev, ?_, ?_⟩
  · exact Run_eq _ _ (Obj.sym s) Obj.null _ hread (by simp) hev (by decide)
  · intro args
    simp [Eval, hl]

/-- Witness of C7, amended: the name `foo`. -/
theorem C7_unbound_symbol_witness :
    Eval 1 (Obj.sym "foo".toList) = .ok Obj.null ∧
    Run 1 "foo".toList = .ok "()".toList ∧
    ∀ args : Obj, Eval 2 (Obj.cell (Obj.sym "foo".toList) args) = .error .RuntimeError :=
  C7_unbound_symbol "foo".toList 0 (by decide) (by decide)

/-! ## Bracket balance of what the reader consumes (C5) -/

theorem depthAfter_append (a b : List Token) :
    ∀ d, depthAfter d (a ++ b) = (depthAfter d a).bind (fun d1 => depthAfter d1 b) := by
  induction a with
  | nil => intro d; simp [depthAfter]
  | cons t a ih =>
    intro d
    rcases t with s | _ | _ | v | x | x
    · simp [depthAfter, ih]
    · simp [depthAfter, ih]
    · simp [depthAfter, ih]
    · simp [depthAfter, ih]
    · simp [depthAfter, ih]
    · cases x
      · simp [depthAfter, ih]
      · cases d <;> simp [depthAfter, ih]

theorem Bal.nil : Bal [] := by
  intro d
  simp [depthAfter]

theorem Bal.concat {a b : List Token} (ha : Bal a) (hb : Bal b) : Bal (a ++ b) := by
  intro d
  rw [depthAfter_append, ha d]
  exact hb d

theorem Bal.single (t : Token) (h : ∀ x, t ≠ Token.Bracket x) : Bal [t] := by
  intro d
  rcases t with s | _ | _ | v | x | x
  · simp [depthAfter]
  · simp [depthAfter]
  · simp [depthAfter]
  · simp [depthAfter]
  · simp [depthAfter]
  · exact absurd rfl (h x)

theorem Bal.brackets {c : List Token} (hc : Bal c) :
    Bal (Token.Bracket .OPEN :: (c ++ [Token.Bracket .CLOSE])) := by
  intro d
  simp only [depthAfter]
  rw [depthAfter_append, hc (d + 1)]
  simp [depthAfter]

theorem Consumes.append {a b d : Tokenizer} {c1 c2 : List Token}
    (h1 : Consumes a c1 b) (h2 : Consumes b c2 d) : Consumes a (c1 ++ c2) d := by
  induction h1 with
  | nil tk => exact h2
  | cons tk tk1 tk2 c h0 hn _ ih => exact Consumes.cons tk tk1 _ _ h0 hn (ih h2)

theorem Consumes.one (tk tk1 : Tokenizer) (h0 : tk.is_end_ = false) (hn : tk.Next = .ok tk1) :
    Consumes tk [tk.next_] tk1 :=
  Consumes.cons tk tk1 tk1 [] h0 hn (Consumes.nil tk1)

/-- The tokens from a state on are determined by the state. -/
theorem Scans.split {tk tk1 : Tokenizer} {c ts : List Token} (hc : Consumes tk c tk1)
    (hs : Scans tk ts) : ∃ r, ts = c ++ r ∧ Scans tk1 r := by
  induction hc generalizing ts with
  | nil tk => exact ⟨ts, rfl, hs⟩
  | cons tk tk1 tk2 c h0 hn _ ih =>
    obtain ⟨tke, hce, hend⟩ := hs
    cases hce with
    | nil => rw [h0] at hend; exact absurd hend (by simp)
    | cons _ tk1b _ c2 _ hn2 hc2 =>
      rw [hn] at hn2
      cases hn2
      obtain ⟨r, hr, hsr⟩ := ih ⟨tke, hc2, hend⟩
      exact ⟨r, by rw [hr]; rfl, hsr⟩

theorem Scans.of_end {tk : Tokenizer} {ts : List Token} (hs : Scans tk ts)
    (h : tk.is_end_ = true) : ts = [] := by
  obtain ⟨tke, hce, -⟩ := hs
  cases hce with
  | nil => rfl
  | cons _ _ _ _ h0 => rw [h] at h0; exact absurd h0 (by simp)

theorem Scans.next_ok {tk : Tokenizer} {ts : List Token} (hs : Scans tk ts)
    (h : tk.is_end_ = false) :
    ∃ tk1 ts1, tk.Next = .ok tk1 ∧ ts = tk.next_ :: ts1 ∧ Scans tk1 ts1 := by
  obtain ⟨tke, hce, hend⟩ := hs
  cases hce with
  | nil => rw [h] at hend; exact absurd hend (by simp)
  | cons _ tk1 _ c _ hn hc => exact ⟨tk1, c, hn, rfl, tke, hc, hend⟩

/-- What `Read` and `ReadList` consume when they return: `Read` a non-empty
balanced run of tokens; `ReadList` the close bracket alone when it starts on
one, and otherwise a balanced run, followed by the close bracket when
`with_close_bracket` is set. -/
theorem reads_consume (n : Nat) :
    (∀ (tk : Tokenizer) (e : Obj) (tk2 : Tokenizer), Read n tk = .ok (e, tk2) →
      ∃ c, Consumes tk c tk2 ∧ Bal c ∧ c ≠ []) ∧
    (∀ (tk : Tokenizer) (wc : Bool) (e : Obj) (tk2 : Tokenizer),
      ReadList n tk wc = .ok (e, tk2) →
      ∃ c, Consumes tk c tk2 ∧ c ≠ [] ∧
        ((tk.next_ = Token.Bracket .CLOSE ∧ c = [Token.Bracket .CLOSE]) ∨
         (tk.next_ ≠ Token.Bracket .CLOSE ∧
           if wc then ∃ c0, c = c0 ++ [Token.Bracket .CLOSE] ∧ Bal c0 else Bal c))) := by
  induction n with
  | zero => exact ⟨fun tk e tk2 h => by simp [Read] at h, fun tk wc e tk2 h => by simp [ReadList] at h⟩
  | succ n ih =>
    obtain ⟨ihR, ihL⟩ := ih
    refine ⟨?_, ?_⟩
    · intro tk e tk2 h
      rw [Read] at h
      by_cases hend : tk.is_end_ = true
      · simp [Tokenizer.IsEnd, hend] at h
      · have hend2 : tk.is_end_ = false := by simpa using hend
        cases hnext : tk.Next with
        | error err => simp [Tokenizer.IsEnd, hend2, hnext] at h
        | ok tk1 =>
          have hone := Consumes.one tk tk1 hend2 hnext
          simp only [Tokenizer.IsEnd, hend2, hnext, Bool.false_eq_true, if_false,
            Tokenizer.GetToken] at h
          cases htok : tk.next_ with
          | Symbol s =>
            simp only [htok, Except.ok.injEq, Prod.mk.injEq] at h
            obtain ⟨-, rfl⟩ := h
            exact ⟨[tk.next_], hone, by rw [htok]; exact Bal.single _ (by simp), by simp⟩
          | Constant v =>
            simp only [htok, Except.ok.injEq, Prod.mk.injEq] at h
            obtain ⟨-, rfl⟩ := h
            exact ⟨[tk.next_], hone, by rw [htok]; exact Bal.single _ (by simp), by simp⟩
          | Bool x =>
            simp only [htok, Except.ok.injEq, Prod.mk.injEq] at h
            obtain ⟨-, rfl⟩ := h
            exact ⟨[tk.next_], hone, by rw [htok]; exact Bal.single _ (by simp), by simp⟩
          | Dot =>
            simp only [htok] at h
            by_cases he1 : tk1.is_end_ = true
            · simp [he1] at h
            · simp only [he1, if_false] at h
              obtain ⟨c, hc, hb, -⟩ := ihR tk1 e tk2 h
              refine ⟨tk.next_ :: c, Consumes.cons tk tk1 tk2 c hend2 hnext hc, ?_, by simp⟩
              rw [htok]
              exact Bal.concat (Bal.single Token.Dot (by simp)) hb
          | Quote =>
            simp only [htok] at h
            by_cases he1 : tk1.is_end_ = true
            · simp [he1] at h
            · simp only [he1, if_false] at h
              cases hr : Read n tk1 with
              | error err => simp [hr] at h
              | ok p =>
                obtain ⟨x, tk3⟩ := p
                simp only [hr, Except.ok.injEq, Prod.mk.injEq] at h
                obtain ⟨-, rfl⟩ := h
                obtain ⟨c, hc, hb, -⟩ := ihR tk1 x tk2 hr
                refine ⟨tk.next_ :: c, Consumes.cons tk tk1 tk2 c hend2 hnext hc, ?_, by simp⟩
                rw [htok]
                exact Bal.concat (Bal.single Token.Quote (by simp)) hb
          | Bracket x =>
            cases x with
            | CLOSE => simp [htok] at h
            | OPEN =>
              simp only [htok] at h
              obtain ⟨c, hc, -, hcase⟩ := ihL tk1 true e tk2 h
              refine ⟨tk.next_ :: c, Consumes.cons tk tk1 tk2 c hend2 hnext hc, ?_, by simp⟩
              rw [htok]
              rcases hcase with ⟨-, rfl⟩ | ⟨-, hc0⟩
              · exact Bal.brackets Bal.nil
              · simp only [if_true] at hc0
                obtain ⟨c0, rfl, hb0⟩ := hc0
                exact Bal.brackets hb0
    · intro tk wc e tk2 h
      rw [ReadList] at h
      by_cases hend : tk.is_end_ = true
      · simp [Tokenizer.IsEnd, hend] at h
      · have hend2 : tk.is_end_ = false := by simpa using hend
        simp only [Tokenizer.IsEnd, hend2, Bool.false_eq_true, if_false,
          Tokenizer.GetToken] at h
        by_cases hdot : tk.next_ = Token.Dot
        · simp [hdot] at h
        · simp only [hdot, if_false] at h
          by_cases hclose : tk.next_ = Token.Bracket .CLOSE
          · simp only [hclose, if_true] at h
            cases hnext : tk.Next with
            | error err => simp [hnext] at h
            | ok tk1 =>
              simp only [hnext, Except.ok.injEq, Prod.mk.injEq] at h
              obtain ⟨-, rfl⟩ := h
              have hone := Consumes.one tk tk1 hend2 hnext
              rw [hclose] at hone
              exact ⟨_, hone, by simp, Or.inl ⟨hclose, rfl⟩⟩
          · simp only [hclose, if_false] at h
            cases hr : Read n tk with
            | error err => simp [hr] at h
            | ok p =>
              obtain ⟨first, tk1⟩ := p
              simp only [hr] at h
              obtain ⟨c1, hc1, hb1, hne1⟩ := ihR tk first tk1 hr
              -- the tail of the list
              have htail : ∀ (second : Obj) (tk3 : Tokenizer),
                  (if tk1.next_ = Token.Dot then Read n tk1
                   else if tk1.next_ = Token.Bracket .CLOSE then .ok (Obj.null, tk1)
                   else ReadList n tk1 false) = .ok (second, tk3) →
                  ∃ c2, Consumes tk1 c2 tk3 ∧ Bal c2 := by
                intro second tk3 ht
                by_cases hd1 : tk1.next_ = Token.Dot
                · simp only [hd1, if_true] at ht
                  obtain ⟨c2, hc2, hb2, -⟩ := ihR tk1 second tk3 ht
                  exact ⟨c2, hc2, hb2⟩
                · simp only [hd1, if_false] at ht
                  by_cases hc1b : tk1.next_ = Token.Bracket .CLOSE
                  · simp only [hc1b, if_true, Except.ok.injEq, Prod.mk.injEq] at ht
                    obtain ⟨-, rfl⟩ := ht
                    exact ⟨[], Consumes.nil tk1, Bal.nil⟩
                  · simp only [hc1b, if_false] at ht
                    obtain ⟨c2, hc2, -, hcase⟩ := ihL tk1 false second tk3 ht
                    rcases hcase with ⟨hx, -⟩ | ⟨-, hb2⟩
                    · exact absurd hx hc1b
                    · exact ⟨c2, hc2, by simpa using hb2⟩
              cases ht : (if tk1.next_ = Token.Dot then Read n tk1
                   else if tk1.next_ = Token.Bracket .CLOSE then .ok (Obj.null, tk1)
                   else ReadList n tk1 false) with
              | error err => simp [Tokenizer.GetToken, ht] at h
              | ok q =>
                obtain ⟨second, tk3⟩ := q
                obtain ⟨c2, hc2, hb2⟩ := htail second tk3 ht
                have hc12 := Consumes.append hc1 hc2
                have hb12 := Bal.concat hb1 hb2
                simp only [Tokenizer.GetToken, ht] at h
                cases wc with
                | false =>
                  simp only [Bool.not_false, if_true, Except.ok.injEq, Prod.mk.injEq] at h
                  obtain ⟨-, rfl⟩ := h
                  exact ⟨c1 ++ c2, hc12, by simp [hne1], Or.inr ⟨hclose, by simpa using hb12⟩⟩
                | true =>
                  simp only [Bool.not_true, Bool.false_eq_true, if_false] at h
                  by_cases he3 : tk3.is_end_ = true
                  · simp [he3] at h
                  · have he3b : tk3.is_end_ = false := by simpa using he3
                    simp only [he3b, Bool.false_eq_true, if_false] at h
                    by_cases hc3 : tk3.next_ = Token.Bracket .CLOSE
                    · simp only [hc3, if_true] at h
                      cases hn3 : tk3.Next with
                      | error err => simp [hn3] at h
                      | ok tk4 =>
                        simp only [hn3, Except.ok.injEq, Prod.mk.injEq] at h
                        obtain ⟨-, rfl⟩ := h
                        have hone := Consumes.one tk3 tk4 he3b hn3
                        rw [hc3] at hone
                        refine ⟨(c1 ++ c2) ++ [Token.Bracket .CLOSE],
                          Consumes.append hc12 hone, by simp, Or.inr ⟨hclose, ?_⟩⟩
                        simp only [if_true]
                        exact ⟨c1 ++ c2, rfl, hb12⟩
                    · simp [hc3] at h

/-- The tail of a list, as `ReadList` reads it after the first element. -/
theorem tail_consume (n : Nat) (tk1 tk3 : Tokenizer) (second : Obj)
    (ht : (if tk1.next_ = Token.Dot then Read n tk1
           else if tk1.next_ = Token.Bracket .CLOSE then .ok (Obj.null, tk1)
           else ReadList n tk1 false) = .ok (second, tk3)) :
    ∃ c2, Consumes tk1 c2 tk3 ∧ Bal c2 := by
  obtain ⟨ihR, ihL⟩ := reads_consume n
  by_cases hd1 : tk1.next_ = Token.Dot
  · simp only [hd1, if_true] at ht
    obtain ⟨c2, hc2, hb2, -⟩ := ihR tk1 second tk3 ht
    exact ⟨c2, hc2, hb2⟩
  · simp only [hd1, if_false] at ht
    by_cases hc1b : tk1.next_ = Token.Bracket .CLOSE
    · simp only [hc1b, if_true, Except.ok.injEq, Prod.mk.injEq] at ht
      obtain ⟨-, rfl⟩ := ht
      exact ⟨[], Consumes.nil tk1, Bal.nil⟩
    · simp only [hc1b, if_false] at ht
      obtain ⟨c2, hc2, -, hcase⟩ := ihL tk1 false second tk3 ht
      rcases hcase with ⟨hx, -⟩ | ⟨-, hb2⟩
      · exact absurd hx hc1b
      · exact ⟨c2, hc2, by simpa using hb2⟩

/-- On a text that scans to the end, `Read` and `ReadList` under a bound of
twice the number of remaining tokens (plus one, plus two) fail only with
`SyntaxError`: the bound is not reached and `Next` does not throw. -/
theorem reads_error (n : Nat) :
    (∀ (tk : Tokenizer) (ts : List Token) (err : Stop), Scans tk ts →
      2 * ts.length + 1 ≤ n → Read n tk = .error err → err = Stop.SyntaxError) ∧
    (∀ (tk : Tokenizer) (ts : List Token) (wc : Bool) (err : Stop), Scans tk ts →
      2 * ts.length + 2 ≤ n → ReadList n tk wc = .error err → err = Stop.SyntaxError) := by
  induction n with
  | zero => exact ⟨fun _ _ _ _ h => by omega, fun _ _ _ _ _ h => by omega⟩
  | succ n ih =>
    obtain ⟨ihR, ihL⟩ := ih
    refine ⟨?_, ?_⟩
    · intro tk ts err hs hlen h
      rw [Read] at h
      by_cases hend : tk.is_end_ = true
      · simp only [Tokenizer.IsEnd, hend, if_true, Except.error.injEq] at h
        exact h.symm
      · have hend2 : tk.is_end_ = false := by simpa using hend
        obtain ⟨tk1, ts1, hnext, rfl, hs1⟩ := hs.next_ok hend2
        simp only [List.length_cons] at hlen
        simp only [Tokenizer.IsEnd, hend2, hnext, Bool.false_eq_true, if_false,
          Tokenizer.GetToken] at h
        cases htok : tk.next_ with
        | Symbol s => simp [htok] at h
        | Constant v => simp [htok] at h
        | Bool x => simp [htok] at h
        | Dot =>
          simp only [htok] at h
          by_cases he1 : tk1.is_end_ = true
          · simp only [he1, if_true, Except.error.injEq] at h
            exact h.symm
          · have he1b : tk1.is_end_ = false := by simpa using he1
            simp only [he1b, Bool.false_eq_true, if_false] at h
            exact ihR tk1 ts1 err hs1 (by omega) h
        | Quote =>
          simp only [htok] at h
          by_cases he1 : tk1.is_end_ = true
          · simp only [he1, if_true, Except.error.injEq] at h
            exact h.symm
          · have he1b : tk1.is_end_ = false := by simpa using he1
            simp only [he1b, Bool.false_eq_true, if_false] at h
            cases hr : Read n tk1 with
            | error e2 =>
              simp only [hr, Except.error.injEq] at h
              subst h
              exact ihR tk1 ts1 e2 hs1 (by omega) hr
            | ok p => simp [hr] at h
        | Bracket x =>
          cases x with
          | CLOSE =>
            simp only [htok, Except.error.injEq] at h
            exact h.symm
          | OPEN =>
            simp only [htok] at h
            exact ihL tk1 ts1 true err hs1 (by omega) h
    · intro tk ts wc err hs hlen h
      rw [ReadList] at h
      by_cases hend : tk.is_end_ = true
      · simp only [Tokenizer.IsEnd, hend, if_true, Except.error.injEq] at h
        exact h.symm
      · have hend2 : tk.is_end_ = false := by simpa using hend
        obtain ⟨tk0, ts0, hnext, hts, hs0⟩ := hs.next_ok hend2
        simp only [Tokenizer.IsEnd, hend2, Bool.false_eq_true, if_false,
          Tokenizer.GetToken] at h
        by_cases hdot : tk.next_ = Token.Dot
        · simp only [hdot, if_true, Except.error.injEq] at h
          exact h.symm
        · simp only [hdot, if_false] at h
          by_cases hclose : tk.next_ = Token.Bracket .CLOSE
          · simp [hclose, hnext] at h
          · simp only [hclose, if_false] at h
            cases hr : Read n tk with
            | error e2 =>
              simp only [hr, Except.error.injEq] at h
              subst h
              exact ihR tk ts e2 hs (by omega) hr
            | ok p =>
              obtain ⟨first, tk1⟩ := p
              simp only [hr] at h
              obtain ⟨c1, hc1, -, hne1⟩ := (reads_consume n).1 tk first tk1 hr
              obtain ⟨r, hr1, hsr⟩ := Scans.split hc1 hs
              have hlen1 : r.length < ts.length := by
                rw [hr1, List.length_append]
                have := List.length_pos.mpr hne1
                omega
              cases ht : (if tk1.next_ = Token.Dot then Read n tk1
                   else if tk1.next_ = Token.Bracket .CLOSE then .ok (Obj.null, tk1)
                   else ReadList n tk1 false) with
              | error e2 =>
                simp only [Tokenizer.GetToken, ht, Except.error.injEq] at h
                subst h
                by_cases hd1 : tk1.next_ = Token.Dot
                · simp only [hd1, if_true] at ht
                  exact ihR tk1 r e2 hsr (by omega) ht
                · simp only [hd1, if_false] at ht
                  by_cases hc1b : tk1.next_ = Token.Bracket .CLOSE
                  · simp [hc1b] at ht
                  · simp only [hc1b, if_false] at ht
                    exact ihL tk1 r false e2 hsr (by omega) ht
              | ok q =>
                obtain ⟨second, tk3⟩ := q
                obtain ⟨c2, hc2, -⟩ := tail_consume n tk1 tk3 second ht
                obtain ⟨r3, -, hs3⟩ := Scans.split hc2 hsr
                simp only [Tokenizer.GetToken, ht] at h
                cases wc with
                | false => simp at h
                | true =>
                  simp only [Bool.not_true, Bool.false_eq_true, if_false] at h
                  by_cases he3 : tk3.is_end_ = true
                  · simp only [he3, if_true, Except.error.injEq] at h
                    exact h.symm
                  · have he3b : tk3.is_end_ = false := by simpa using he3
                    obtain ⟨tk4, ts4, hn4, -, -⟩ := hs3.next_ok he3b
                    simp only [he3b, Bool.false_eq_true, if_false, hn4] at h
                    by_cases hc3 : tk3.next_ = Token.Bracket .CLOSE
                    · simp [hc3] at h
                    · simp only [hc3, if_false, Except.error.injEq] at h
                      exact h.symm


/-- A call of `Next` that does not reach the end of the stream takes at least
one character from it. -/
theorem Next_in_length (t t1 : Tokenizer) (h : t.Next = .ok t1) (h1 : t1.is_end_ = false) :
    t1.in_.length < t.in_.length := by
  have hsuf := (List.dropWhile_suffix (l := t.in_) isspace).length_le
  unfold Tokenizer.Next at h
  split at h
  · simp only [Except.ok.injEq] at h
    subst h
    exact Bool.noConfusion h1
  · rename_i ch rest hdw
    rw [hdw] at hsuf
    simp only [List.length_cons] at hsuf
    have hd1 := (List.dropWhile_suffix (l := rest) isdigit).length_le
    have hd2 := (List.dropWhile_suffix (l := rest) symbolTail).length_le
    have base : rest.length < t.in_.length := by omega
    have base1 : (List.dropWhile isdigit rest).length < t.in_.length := by omega
    have base2 : (List.dropWhile symbolTail rest).length < t.in_.length := by omega
    by_cases c1 : ch = quoteChar
    · rw [if_pos c1] at h; cases h; exact base
    rw [if_neg c1] at h
    by_cases c2 : ch = '.'
    · rw [if_pos c2] at h; cases h; exact base
    rw [if_neg c2] at h
    by_cases c3 : ch = '('
    · rw [if_pos c3] at h; cases h; exact base
    rw [if_neg c3] at h
    by_cases c4 : ch = ')'
    · rw [if_pos c4] at h; cases h; exact base
    rw [if_neg c4] at h
    by_cases c5 : ch = '*' ∨ ch = '/'
    · rw [if_pos c5] at h; cases h; exact base
    rw [if_neg c5] at h
    by_cases c6 : ch = '+' ∨ ch = '-'
    · rw [if_pos c6] at h
      split at h
      · cases h; exact base
      · rename_i nc tl
        by_cases d1 : isspace nc = true
        · rw [if_pos d1] at h; cases h; exact base
        rw [if_neg d1] at h
        by_cases d2 : isdigit nc = true
        · rw [if_pos d2] at h
          split at h
          · cases h
          · by_cases d3 : ch = '+'
            · rw [if_pos d3] at h; cases h; exact base1
            · rw [if_neg d3] at h; cases h; exact base1
        · rw [if_neg d2] at h; cases h; exact base
    rw [if_neg c6] at h
    by_cases c7 : isdigit ch = true
    · rw [if_pos c7] at h
      split at h
      · cases h
      · cases h; exact base1
    rw [if_neg c7] at h
    by_cases c8 : ch = '#'
    · rw [if_pos c8] at h
      split at h
      · cases h
      · rename_i c rest2
        have base3 : rest2.length < t.in_.length := by
          simp only [List.length_cons] at base
          omega
        by_cases e1 : c = 't'
        · rw [if_pos e1] at h; cases h; exact base3
        rw [if_neg e1] at h
        by_cases e2 : c = 'f'
        · rw [if_pos e2] at h; cases h; exact base3
        · rw [if_neg e2] at h; cases h
    rw [if_neg c8] at h
    by_cases c9 : isalpha ch = true ∨ ch ∈ first_pack
    · rw [if_pos c9] at h; cases h; exact base2
    · rw [if_neg c9] at h; cases h

theorem Consumes.length_le {tk tk2 : Tokenizer} {c : List Token} (h : Consumes tk c tk2) :
    c.length ≤ tk.in_.length + 1 := by
  induction h with
  | nil tk => exact Nat.zero_le _
  | cons tk tk1 tk2 c h0 hn hc ih =>
    by_cases he : tk1.is_end_ = true
    · cases hc with
      | nil => simp
      | cons _ _ _ _ h0b => rw [he] at h0b; exact absurd h0b (by simp)
    · have := Next_in_length tk tk1 hn (by simpa using he)
      simp only [List.length_cons]
      omega

theorem TokensOf.fuel_le {str : List Char} {ts : List Token} (h : TokensOf str ts) :
    2 * ts.length + 1 ≤ readFuel str := by
  obtain ⟨tk, hnew, tk2, hc, hend⟩ := h
  simp only [readFuel]
  by_cases he : tk.is_end_ = true
  · have := Scans.of_end ⟨tk2, hc, hend⟩ he
    subst this
    simp
  · have h1 := Next_in_length _ tk hnew (by simpa using he)
    have h2 := hc.length_le
    simp only at h1
    omega

theorem depthAfter_spec (ts : List Token) :
    ∀ d d1, depthAfter d ts = some d1 →
      (∀ p, p <+: ts → closes p ≤ d + opens p) ∧ d1 + closes ts = d + opens ts := by
  induction ts with
  | nil =>
    intro d d1 h
    simp only [depthAfter, Option.some.injEq] at h
    subst h
    exact ⟨fun p hp => by simp [List.prefix_nil.mp hp, closes, opens], by simp [closes, opens]⟩
  | cons t ts ih =>
    intro d d1 h
    have step : ∀ (d2 : Nat) (a b : Nat), depthAfter d2 ts = some d1 →
        (∀ p, p <+: ts → closes (t :: p) = closes p + a ∧ opens (t :: p) = opens p + b) →
        d2 + a = d + b →
        (∀ p, p <+: t :: ts → closes p ≤ d + opens p) ∧
          d1 + closes (t :: ts) = d + opens (t :: ts) := by
      intro d2 a b h2 hcount hd
      obtain ⟨ih1, ih2⟩ := ih d2 d1 h2
      refine ⟨?_, ?_⟩
      · intro p hp
        rcases List.prefix_cons_iff.mp hp with rfl | ⟨p1, rfl, hp1⟩
        · simp [closes, opens]
        · have := ih1 p1 hp1
          obtain ⟨e1, e2⟩ := hcount p1 hp1
          omega
      · obtain ⟨e1, e2⟩ := hcount ts (List.prefix_refl ts)
        omega
    rcases t with s | _ | _ | v | x | x
    · exact step d 0 0 (by simpa [depthAfter] using h)
        (fun p _ => by simp [closes, opens, List.count_cons]) rfl
    · exact step d 0 0 (by simpa [depthAfter] using h)
        (fun p _ => by simp [closes, opens, List.count_cons]) rfl
    · exact step d 0 0 (by simpa [depthAfter] using h)
        (fun p _ => by simp [closes, opens, List.count_cons]) rfl
    · exact step d 0 0 (by simpa [depthAfter] using h)
        (fun p _ => by simp [closes, opens, List.count_cons]) rfl
    · exact step d 0 0 (by simpa [depthAfter] using h)
        (fun p _ => by simp [closes, opens, List.count_cons]) rfl
    · cases x with
      | OPEN =>
        exact step (d + 1) 0 1 (by simpa [depthAfter] using h)
          (fun p _ => by simp [closes, opens, List.count_cons]) rfl
      | CLOSE =>
        cases d with
        | zero => simp [depthAfter] at h
        | succ d0 =>
          exact step d0 1 0 (by simpa [depthAfter] using h)
            (fun p _ => by simp [closes, opens, List.count_cons]) rfl

theorem Bal.not_unbalanced {c : List Token} (h : Bal c) : ¬ Unbalanced c := by
  obtain ⟨h1, h2⟩ := depthAfter_spec c 0 0 (h 0)
  rintro (⟨p, hp, hlt⟩ | hlt)
  · have := h1 p hp
    omega
  · omega

/-- C5. For every text with token sequence `ts`: when the brackets of `ts` are
unbalanced (some prefix holds more close brackets than open brackets, or the
whole sequence more open brackets than close brackets), `ReadFullString`
signals `SyntaxError`; and whenever `ReadFullString` returns an expression, the
text has a token sequence, all of it consumed, and its brackets are balanced. -/
theorem C5_unbalanced_brackets :
    (∀ (str : List Char) (ts : List Token), TokensOf str ts → Unbalanced ts →
      ReadFullString str = .error .SyntaxError) ∧
    (∀ (str : List Char) (e : Obj), ReadFullString str = .ok e →
      ∃ ts, TokensOf str ts ∧ ¬ Unbalanced ts) := by
  have part2 : ∀ (str : List Char) (e : Obj), ReadFullString str = .ok e →
      ∃ ts, TokensOf str ts ∧ Bal ts := by
    intro str e h
    simp only [ReadFullString] at h
    cases hnew : Tokenizer.new str with
    | error err => simp [hnew] at h
    | ok tk =>
      simp only [hnew] at h
      cases hr : Read (readFuel str) tk with
      | error err => simp [hr] at h
      | ok p =>
        obtain ⟨res, tk2⟩ := p
        simp only [hr] at h
        by_cases hend : tk2.is_end_ = true
        · obtain ⟨c, hc, hb, -⟩ := (reads_consume _).1 tk res tk2 hr
          exact ⟨c, ⟨tk, hnew, tk2, hc, hend⟩, hb⟩
        · simp [Tokenizer.IsEnd, hend] at h
  refine ⟨?_, fun str e h => ?_⟩
  · intro str ts hts hun
    cases hres : ReadFullString str with
    | ok e =>
      obtain ⟨c, ⟨tk, hnew, tk2, hc, hend⟩, hb⟩ := part2 str e hres
      obtain ⟨tk0, hnew0, hs0⟩ := hts
      rw [hnew] at hnew0
      cases hnew0
      obtain ⟨r, hr, hsr⟩ := Scans.split hc hs0
      have := hsr.of_end hend
      subst this
      rw [List.append_nil] at hr
      subst hr
      exact absurd hun hb.not_unbalanced
    | error err =>
      have hlen := hts.fuel_le
      obtain ⟨tk, hnew, hs⟩ := hts
      simp only [ReadFullString, hnew] at hres
      cases hr : Read (readFuel str) tk with
      | error e2 =>
        simp only [hr, Except.error.injEq] at hres
        subst hres
        rw [(reads_error _).1 tk ts e2 hs hlen hr]
      | ok p =>
        obtain ⟨res, tk2⟩ := p
        simp only [hr] at hres
        by_cases hend : tk2.is_end_ = true
        · simp [Tokenizer.IsEnd, hend] at hres
        · simp [Tokenizer.IsEnd, hend] at hres
          rw [← hres]
  · obtain ⟨ts, hts, hb⟩ := part2 str e h
    exact ⟨ts, hts, hb.not_unbalanced⟩

/-- Witness of C5: the text `(1` has the tokens `(` and `1`, with more open than
close brackets, and reading it signals `SyntaxError`; the text `)` has a prefix
with more close than open brackets; the text `(1 (2))` is read, and its token
sequence is balanced. -/
theorem C5_unbalanced_brackets_witness :
    ReadFullString "(1".toList = .error .SyntaxError ∧
    ReadFullString ")".toList = .error .SyntaxError ∧
    ∃ ts, TokensOf "(1 (2))".toList ts ∧ ¬ Unbalanced ts :=
  ⟨C5_unbalanced_brackets.1 "(1".toList [Token.Bracket .OPEN, Token.Constant 1]
      ⟨⟨"1".toList, Token.Bracket .OPEN, false⟩, by decide,
        ⟨[], Token.Constant 1, true⟩,
        Consumes.cons ⟨"1".toList, Token.Bracket .OPEN, false⟩ ⟨[], Token.Constant 1, false⟩ _ _
          rfl (by decide)
          (Consumes.cons ⟨[], Token.Constant 1, false⟩ ⟨[], Token.Constant 1, true⟩ _ _
            rfl (by decide) (Consumes.nil _)),
        rfl⟩
      (Or.inr (by decide)),
   C5_unbalanced_brackets.1 ")".toList [Token.Bracket .CLOSE]
      ⟨⟨[], Token.Bracket .CLOSE, false⟩, by decide,
        ⟨[], Token.Bracket .CLOSE, true⟩,
        Consumes.cons ⟨[], Token.Bracket .CLOSE, false⟩ ⟨[], Token.Bracket .CLOSE, true⟩ _ _
          rfl (by decide) (Consumes.nil _),
        rfl⟩
      (Or.inl ⟨[Token.Bracket .CLOSE], List.prefix_refl _, by decide⟩),
   C5_unbalanced_brackets.2 "(1 (2))".toList
      (Obj.cell (Obj.num 1) (Obj.cell (Obj.cell (Obj.num 2) Obj.null) Obj.null)) (by decide)⟩

/-! ## Arity of the comparisons and `cons` (C11, C12) -/

theorem Eval_quote (n : Nat) (X : Obj) :
    Eval (n + 2) (Obj.cell (Obj.sym quoteName) (Obj.cell X Obj.null)) = .ok X := by
  rw [Eval_call n _ _ _ lookup_quoteName]
  simp [Apply, Quote_Apply, As_Cell]

/-- Counterexample to C11: `(=)` and `(<)` return `#t`. -/
theorem C11_counterexample :
    Eval 2 (Obj.cell (Obj.sym "=".toList) Obj.null) = .ok (Obj.bool true) ∧
    Eval 2 (Obj.cell (Obj.sym "<".toList) Obj.null) = .ok (Obj.bool true) ∧
    Run 2 "(=)".toList = .ok "#t".toList := by
  decide

/-- C11, amended. For each of `=`, `<`, `>`, `<=`, `>=`: a call whose operands
evaluate to exactly one value, a Number or not, signals `RuntimeError`; a call
with no operand returns `#t`. -/
theorem C11_comparison_arity :
    (∀ p ∈ comparisons, ∀ (n : Nat) (es : List Obj) (v : Obj), EvalsTo n es [v] →
      Eval (n + 2) (Obj.cell (Obj.sym p.1.toList) (chain es Obj.null))
        = .error .RuntimeError) ∧
    (∀ p ∈ comparisons, ∀ (n : Nat),
      Eval (n + 2) (Obj.cell (Obj.sym p.1.toList) Obj.null) = .ok (Obj.bool true)) := by
  refine ⟨?_, ?_⟩
  · intro p hp n es v h
    obtain ⟨stop, -, hev⟩ := comparisons_spec p hp
    rw [hev]
    simp only [Compare_Apply]
    rw [GetVector_EvalsTo n es _ h]
    cases hv : ValidateObj_Number [v] <;> simp
  · intro p hp n
    obtain ⟨stop, -, hev⟩ := comparisons_spec p hp
    rw [hev]
    simp [Compare_Apply, GetVector, ValidateObj_Number, numbersOf, compare_loop]

/-- Witness of C11, amended: `(< 5)` and `(< #t)` signal `RuntimeError`. -/
theorem C11_comparison_arity_witness :
    Eval 3 (Obj.cell (Obj.sym "<".toList) (chain [Obj.num 5] Obj.null))
      = .error .RuntimeError ∧
    Eval 3 (Obj.cell (Obj.sym "<".toList) (chain [Obj.bool true] Obj.null))
      = .error .RuntimeError :=
  ⟨C11_comparison_arity.1 ("<", fun a b => decide (a < b))
      (List.mem_cons_of_mem _ (List.mem_cons_self _ _)) 1 [Obj.num 5] (Obj.num 5)
      (List.Forall₂.cons rfl List.Forall₂.nil),
   C11_comparison_arity.1 ("<", fun a b => decide (a < b))
      (List.mem_cons_of_mem _ (List.mem_cons_self _ _)) 1 [Obj.bool true] (Obj.bool true)
      (List.Forall₂.cons rfl List.Forall₂.nil)⟩

/-- C12. When the operands of `cons` evaluate to the values `vs`: with no
operand the call returns the empty list; with one value `a` it returns
`Pair(a, empty)`; with two values `a`, `b` it returns `Pair(a, b)`, whatever `b`
is; with three or more it signals `RuntimeError`. -/
theorem C12_cons :
    (∀ (n : Nat), Eval (n + 2) (Obj.cell (Obj.sym "cons".toList) Obj.null) = .ok Obj.null) ∧
    (∀ (n : Nat) (es : List Obj) (a : Obj), EvalsTo n es [a] →
      Eval (n + 2) (Obj.cell (Obj.sym "cons".toList) (chain es Obj.null))
        = .ok (Obj.cell a Obj.null)) ∧
    (∀ (n : Nat) (es : List Obj) (a b : Obj), EvalsTo n es [a, b] →
      Eval (n + 2) (Obj.cell (Obj.sym "cons".toList) (chain es Obj.null))
        = .ok (Obj.cell a b)) ∧
    (∀ (n : Nat) (es vs : List Obj), EvalsTo n es vs → 3 ≤ vs.length →
      Eval (n + 2) (Obj.cell (Obj.sym "cons".toList) (chain es Obj.null))
        = .error .RuntimeError) := by
  have hc : ∀ (n : Nat) (args : Obj),
      Eval (n + 2) (Obj.cell (Obj.sym "cons".toList) args)
        = Cons_Apply (fun e => Eval n e) args := by
    intro n args
    rw [Eval_call n _ Func.Cons _ (by decide)]
    simp only [Apply]
  refine ⟨?_, ?_, ?_, ?_⟩
  · intro n
    rw [hc]
    simp [Cons_Apply, GetVector]
  · intro n es a h
    rw [hc]
    simp only [Cons_Apply]
    rw [GetVector_EvalsTo n es _ h]
  · intro n es a b h
    rw [hc]
    simp only [Cons_Apply]
    rw [GetVector_EvalsTo n es _ h]
  · intro n es vs h hlen
    rw [hc]
    simp only [Cons_Apply]
    rw [GetVector_EvalsTo n es _ h]
    match vs, hlen with
    | _ :: _ :: _ :: _, _ => rfl

/-- Witness of C12: `(cons 1)`, `(cons 1 2)`, `(cons 1 (quote (2)))` and
`(cons 1 2 3)`. -/
theorem C12_cons_witness :
    Eval 3 (Obj.cell (Obj.sym "cons".toList) (chain [Obj.num 1] Obj.null))
      = .ok (Obj.cell (Obj.num 1) Obj.null) ∧
    Eval 3 (Obj.cell (Obj.sym "cons".toList) (chain [Obj.num 1, Obj.num 2] Obj.null))
      = .ok (Obj.cell (Obj.num 1) (Obj.num 2)) ∧
    Eval 4 (Obj.cell (Obj.sym "cons".toList) (chain [Obj.num 1,
        Obj.cell (Obj.sym quoteName) (Obj.cell (Obj.cell (Obj.num 2) Obj.null) Obj.null)]
        Obj.null))
      = .ok (Obj.cell (Obj.num 1) (Obj.cell (Obj.num 2) Obj.null)) ∧
    Eval 3 (Obj.cell (Obj.sym "cons".toList)
        (chain [Obj.num 1, Obj.num 2, Obj.num 3] Obj.null))
      = .error .RuntimeError :=
  ⟨C12_cons.2.1 1 [Obj.num 1] (Obj.num 1) (List.Forall₂.cons rfl List.Forall₂.nil),
   C12_cons.2.2.1 1 [Obj.num 1, Obj.num 2] (Obj.num 1) (Obj.num 2)
      (List.Forall₂.cons rfl (List.Forall₂.cons rfl List.Forall₂.nil)),
   C12_cons.2.2.1 2 _ (Obj.num 1) (Obj.cell (Obj.num 2) Obj.null)
      (List.Forall₂.cons rfl (List.Forall₂.cons (by decide) List.Forall₂.nil)),
   C12_cons.2.2.2 1 [Obj.num 1, Obj.num 2, Obj.num 3] [Obj.num 1, Obj.num 2, Obj.num 3]
      (List.Forall₂.cons rfl (List.Forall₂.cons rfl (List.Forall₂.cons rfl List.Forall₂.nil)))
      (by decide)⟩

/-! ## Application, `Run` and the range of the scanner (C18, C19, C20) -/

/-- C18. Evaluating a Pair whose first element is empty, or evaluates to a
value that is not a procedure (the empty value of an unbound symbol, a Number,
a Bool, a Symbol or a Pair), signals `RuntimeError`, whatever the argument list
is: the bound is the one that evaluates the first element, so no argument is
evaluated. -/
theorem C18_apply_non_procedure :
    (∀ (n : Nat) (second : Obj),
      Eval (n + 1) (Obj.cell Obj.null second) = .error .RuntimeError) ∧
    (∀ (n : Nat) (first second v : Obj), Eval n first = .ok v → (∀ f, v ≠ Obj.func f) →
      Eval (n + 1) (Obj.cell first second) = .error .RuntimeError) := by
  refine ⟨?_, ?_⟩
  · intro n second
    simp [Eval]
  · intro n first second v h hv
    have hne : first ≠ Obj.null := by
      rintro rfl
      exact Eval_null_ne_ok n v h
    cases n with
    | zero => simp [Eval] at h
    | succ k =>
      simp only [Eval, hne, ne_eq, not_false_eq_true, if_true, h]
      cases v with
      | func f => exact absurd rfl (hv f)
      | null => simp
      | num x => simp [Apply]
      | sym s => simp [Apply]
      | bool x => simp [Apply]
      | cell a b => simp [Apply]

/-- Witness of C18: `(1 (car))`, `(foo 1)` with `foo` unbound, and
`((quote x) 1)`. -/
theorem C18_apply_non_procedure_witness :
    Eval 2 (Obj.cell (Obj.num 1)
      (Obj.cell (Obj.cell (Obj.sym "car".toList) Obj.null) Obj.null))
      = .error .RuntimeError ∧
    Eval 2 (Obj.cell (Obj.sym "foo".toList) (Obj.cell (Obj.num 1) Obj.null))
      = .error .RuntimeError ∧
    Eval 4 (Obj.cell (Obj.cell (Obj.sym quoteName) (Obj.cell (Obj.sym ['x']) Obj.null))
      (Obj.cell (Obj.num 1) Obj.null)) = .error .RuntimeError :=
  ⟨C18_apply_non_procedure.2 1 (Obj.num 1) _ (Obj.num 1) rfl (by simp),
   C18_apply_non_procedure.2 1 (Obj.sym "foo".toList) _ Obj.null (by decide) (by simp),
   C18_apply_non_procedure.2 3 (Obj.cell (Obj.sym quoteName) (Obj.cell (Obj.sym ['x']) Obj.null))
      _ (Obj.sym ['x']) (by decide) (by simp)⟩

/-- Counterexample to C19: the expressions of the texts `(list)` and `(cons)`
evaluate to the empty list, and `Run` returns the text `()`. -/
theorem C19_counterexample :
    Eval 2 (Obj.cell (Obj.sym "list".toList) Obj.null) = .ok Obj.null ∧
    Run 2 "(list)".toList = .ok "()".toList ∧
    Run 2 "(cons)".toList = .ok "()".toList := by
  decide

/-- C19, amended. `Run` signals `RuntimeError` when the text reads as the empty
list, as the text `()` does, and then evaluates nothing; when the expression
read is not empty and evaluates to the empty list or to no value, `Run` signals
no error and returns the text `()`. -/
theorem C19_void :
    (∀ (fuel : Nat) (expr : List Char), ReadFullString expr = .ok Obj.null →
      Run fuel expr = .error .RuntimeError) ∧
    ReadFullString "()".toList = .ok Obj.null ∧
    (∀ (fuel : Nat) (expr : List Char) (obj : Obj), ReadFullString expr = .ok obj →
      obj ≠ Obj.null → Eval fuel obj = .ok Obj.null → Run fuel expr = .ok "()".toList) := by
  refine ⟨?_, by decide, ?_⟩
  · intro fuel expr h
    simp [Run, h]
  · intro fuel expr obj h hne hev
    exact Run_eq fuel expr obj Obj.null _ h hne hev (by decide)

/-- Witness of C19, amended: the texts `()` and `(list)`. -/
theorem C19_void_witness :
    Run 0 "()".toList = .error .RuntimeError ∧
    Run 2 "(list)".toList = .ok "()".toList :=
  ⟨C19_void.1 0 "()".toList (by decide),
   C19_void.2.2 2 "(list)".toList (Obj.cell (Obj.sym "list".toList) Obj.null)
      (by decide) (by simp) (by decide)⟩

theorem Next_digits_out_of_range (ds rest : List Char) (st : Token) (b : Bool) (hne : ds ≠ [])
    (hall : ∀ c ∈ ds, isdigit c = true) (hr : Delim rest)
    (hv : ¬ (digitsValue ds : Int) ≤ INT_MAX) :
    Tokenizer.Next ⟨ds ++ rest, st, b⟩ = .error .OutOfRange := by
  cases ds with
  | nil => exact absurd rfl hne
  | cons d ds =>
    obtain ⟨h1, h2, h3, h4, h5, h6, h7, h8, h9⟩ := isdigit_facts d (hall d (by simp))
    have hd := hall d (by simp)
    have htw := takeWhile_append_stop isdigit ds rest (fun c hc => hall c (by simp [hc]))
      hr.not_digit
    simp [Tokenizer.Next, List.dropWhile, h1, h2, h3, h4, h5, h6, h7, h8, h9, hd, htw, stoi, hv]

theorem Next_minus_digits_out_of_range (ds rest : List Char) (st : Token) (b : Bool)
    (hne : ds ≠ []) (hall : ∀ c ∈ ds, isdigit c = true) (hr : Delim rest)
    (hv : ¬ (digitsValue ds : Int) ≤ INT_MAX) :
    Tokenizer.Next ⟨'-' :: (ds ++ rest), st, b⟩ = .error .OutOfRange := by
  cases ds with
  | nil => exact absurd rfl hne
  | cons d ds =>
    obtain ⟨h1, -⟩ := isdigit_facts d (hall d (by simp))
    have hd := hall d (by simp)
    have htw := takeWhile_append_stop isdigit (d :: ds) rest hall hr.not_digit
    have hm : isspace '-' = false := by decide
    simp only [List.cons_append] at htw
    simp [Tokenizer.Next, List.dropWhile, hm, quoteChar, h1, hd, htw, stoi, hv]

/-- On the decimal form of an integer of absolute value above `2^31 - 1` the
scanner stops with `std::out_of_range`, and so does `Run`. -/
theorem Run_to_string_out_of_range (v : Int) (fuel : Nat) (hv : 2147483647 < v.natAbs) :
    Tokenizer.new (to_string v) = .error .OutOfRange ∧
    Run fuel (to_string v) = .error .OutOfRange := by
  have hval := digitsValue_natDigits (v.natAbs + 1) v.natAbs (Nat.lt_succ_self _)
  have hmax : ¬ ((digitsValue (natDigits (v.natAbs + 1) v.natAbs) : Nat) : Int) ≤ INT_MAX := by
    rw [hval]
    simp only [INT_MAX]
    omega
  have hnew : Tokenizer.new (to_string v) = .error .OutOfRange := by
    have hd : Delim [] := by intro c hc; simp at hc
    by_cases hneg : v < 0
    · have := Next_minus_digits_out_of_range _ [] (Token.Constant 0) false
        (natDigits_ne_nil _ _) (natDigits_all (v.natAbs + 1) v.natAbs) hd hmax
      simpa [Tokenizer.new, to_string, hneg] using this
    · have := Next_digits_out_of_range _ [] (Token.Constant 0) false
        (natDigits_ne_nil _ _) (natDigits_all (v.natAbs + 1) v.natAbs) hd hmax
      simpa [Tokenizer.new, to_string, hneg] using this
  exact ⟨hnew, by simp [Run, ReadFullString, hnew]⟩

/-- C20, on the code. The literals `2147483648` and `9000000000` lie in the
signed 64-bit range, yet the scanner yields no token for them: `std::stoi`
throws `std::out_of_range`, and `Run` ends with that exception under every
bound.  The largest literal that is scanned is `2147483647`. -/
theorem C20_scanner_stops_above_int :
    to_string 2147483648 = "2147483648".toList ∧
    Tokenizer.new "2147483648".toList = .error .OutOfRange ∧
    (∀ fuel : Nat, Run fuel "2147483648".toList = .error .OutOfRange) ∧
    Tokenizer.new "9000000000".toList = .error .OutOfRange ∧
    (∀ fuel : Nat, Run fuel "9000000000".toList = .error .OutOfRange) ∧
    (∀ fuel : Nat, Run fuel "-2147483648".toList = .error .OutOfRange) ∧
    (∀ fuel : Nat, Run (fuel + 1) "2147483647".toList = .ok "2147483647".toList) := by
  have h1 : to_string 2147483648 = "2147483648".toList := by decide
  have h2 : to_string 9000000000 = "9000000000".toList := by decide
  have h3 : to_string (-2147483648) = "-2147483648".toList := by decide
  refine ⟨h1, ?_, ?_, ?_, ?_, ?_, ?_⟩
  · rw [← h1]
    exact (Run_to_string_out_of_range 2147483648 0 (by decide)).1
  · intro fuel
    rw [← h1]
    exact (Run_to_string_out_of_range 2147483648 fuel (by decide)).2
  · rw [← h2]
    exact (Run_to_string_out_of_range 9000000000 0 (by decide)).1
  · intro fuel
    rw [← h2]
    exact (Run_to_string_out_of_range 9000000000 fuel (by decide)).2
  · intro fuel
    rw [← h3]
    exact (Run_to_string_out_of_range (-2147483648) fuel (by decide)).2
  · intro fuel
    exact Run_eq _ _ (Obj.num 2147483647) (Obj.num 2147483647) _ (by decide) (by simp)
      (by simp [Eval]) (by decide)

/-! ## `car` and `cdr` (C13, C14) -/

theorem Eval_car (n : Nat) (args : Obj) :
    Eval (n + 2) (Obj.cell (Obj.sym "car".toList) args)
      = Car_Apply (fun e => Eval n e) args := by
  rw [Eval_call n _ Func.Car _ (by decide)]
  simp only [Apply]

theorem Eval_cdr (n : Nat) (args : Obj) :
    Eval (n + 2) (Obj.cell (Obj.sym "cdr".toList) args)
      = Cdr_Apply (fun e => Eval n e) args := by
  rw [Eval_call n _ Func.Cdr _ (by decide)]
  simp only [Apply]

theorem Eval_cons_two (n : Nat) (x y vx vy : Obj) (hx : Eval n x = .ok vx)
    (hy : Eval n y = .ok vy) :
    Eval (n + 2) (Obj.cell (Obj.sym "cons".toList) (Obj.cell x (Obj.cell y Obj.null)))
      = .ok (Obj.cell vx vy) := by
  rw [Eval_call n _ Func.Cons _ (by decide)]
  have h := GetVector_EvalsTo n [x, y] [vx, vy]
    (List.Forall₂.cons hx (List.Forall₂.cons hy List.Forall₂.nil))
  simp only [chain, List.foldr_cons, List.foldr_nil] at h
  simp only [Apply, Cons_Apply, h]

/-- C13. For an operand `e` that is structurally a Pair: when `e` evaluates to
a Pair value with first `a` and second `b`, `(car e)` returns `a` and `(cdr e)`
returns `b`; when `e` evaluates to the empty list both signal `RuntimeError`.
In particular `(car (cons x y))` is the value of `x` and `(cdr (cons x y))` the
value of `y`, `(car '(1 2 3))` is `1`, `(cdr '(1 2 3))` is `(2 3)`, and
`(car '())` signals `RuntimeError`. -/
theorem C13_car_cdr :
    (∀ (n : Nat) (p q a b : Obj), Eval n (Obj.cell p q) = .ok (Obj.cell a b) →
      Eval (n + 2) (Obj.cell (Obj.sym "car".toList) (Obj.cell (Obj.cell p q) Obj.null))
        = .ok a ∧
      Eval (n + 2) (Obj.cell (Obj.sym "cdr".toList) (Obj.cell (Obj.cell p q) Obj.null))
        = .ok b) ∧
    (∀ (n : Nat) (p q : Obj), Eval n (Obj.cell p q) = .ok Obj.null →
      Eval (n + 2) (Obj.cell (Obj.sym "car".toList) (Obj.cell (Obj.cell p q) Obj.null))
        = .error .RuntimeError ∧
      Eval (n + 2) (Obj.cell (Obj.sym "cdr".toList) (Obj.cell (Obj.cell p q) Obj.null))
        = .error .RuntimeError) ∧
    (∀ (n : Nat) (x y vx vy : Obj), Eval n x = .ok vx → Eval n y = .ok vy →
      Eval (n + 4) (Obj.cell (Obj.sym "car".toList) (Obj.cell
        (Obj.cell (Obj.sym "cons".toList) (Obj.cell x (Obj.cell y Obj.null))) Obj.null))
        = .ok vx ∧
      Eval (n + 4) (Obj.cell (Obj.sym "cdr".toList) (Obj.cell
        (Obj.cell (Obj.sym "cons".toList) (Obj.cell x (Obj.cell y Obj.null))) Obj.null))
        = .ok vy) ∧
    (∀ (n : Nat),
      Run (n + 4) ("(car ".toList ++ [quoteChar] ++ "(1 2 3))".toList) = .ok "1".toList ∧
      Run (n + 4) ("(cdr ".toList ++ [quoteChar] ++ "(1 2 3))".toList) = .ok "(2 3)".toList ∧
      Run (n + 4) ("(car ".toList ++ [quoteChar] ++ "())".toList) = .error .RuntimeError) := by
  have hpair : ∀ (n : Nat) (p q a b : Obj), Eval n (Obj.cell p q) = .ok (Obj.cell a b) →
      Eval (n + 2) (Obj.cell (Obj.sym "car".toList) (Obj.cell (Obj.cell p q) Obj.null))
        = .ok a ∧
      Eval (n + 2) (Obj.cell (Obj.sym "cdr".toList) (Obj.cell (Obj.cell p q) Obj.null))
        = .ok b := by
    intro n p q a b h
    rw [Eval_car, Eval_cdr]
    simp [Car_Apply, Cdr_Apply, h, GetRawVector]
  have hnull : ∀ (n : Nat) (p q : Obj), Eval n (Obj.cell p q) = .ok Obj.null →
      Eval (n + 2) (Obj.cell (Obj.sym "car".toList) (Obj.cell (Obj.cell p q) Obj.null))
        = .error .RuntimeError ∧
      Eval (n + 2) (Obj.cell (Obj.sym "cdr".toList) (Obj.cell (Obj.cell p q) Obj.null))
        = .error .RuntimeError := by
    intro n p q h
    rw [Eval_car, Eval_cdr]
    simp [Car_Apply, Cdr_Apply, h]
  refine ⟨hpair, hnull, ?_, ?_⟩
  · intro n x y vx vy hx hy
    exact hpair (n + 2) _ _ vx vy (Eval_cons_two n x y vx vy hx hy)
  · intro n
    have hq := Eval_quote n (Obj.cell (Obj.num 1) (Obj.cell (Obj.num 2)
      (Obj.cell (Obj.num 3) Obj.null)))
    have hq0 := Eval_quote n Obj.null
    refine ⟨?_, ?_, ?_⟩
    · exact Run_eq _ _ _ (Obj.num 1) _ (by decide) (by simp) (hpair (n + 2) _ _ _ _ hq).1
        (by decide)
    · exact Run_eq _ _ _ (Obj.cell (Obj.num 2) (Obj.cell (Obj.num 3) Obj.null)) _
        (by decide) (by simp) (hpair (n + 2) _ _ _ _ hq).2 (by decide)
    · have hr : ReadFullString ("(car ".toList ++ [quoteChar] ++ "())".toList)
          = .ok (Obj.cell (Obj.sym "car".toList) (Obj.cell
              (Obj.cell (Obj.sym quoteName) (Obj.cell Obj.null Obj.null)) Obj.null)) := by
        decide
      simp only [Run, hr]
      rw [(hnull (n + 2) _ _ hq0).1]
      simp

/-- Witness of C13: `(car (quote (1 . 2)))` is `1` and `(cdr (quote (1 . 2)))`
is `2`. -/
theorem C13_car_cdr_witness :
    Eval 4 (Obj.cell (Obj.sym "car".toList) (Obj.cell (Obj.cell (Obj.sym quoteName)
        (Obj.cell (Obj.cell (Obj.num 1) (Obj.num 2)) Obj.null)) Obj.null)) = .ok (Obj.num 1) ∧
    Eval 4 (Obj.cell (Obj.sym "cdr".toList) (Obj.cell (Obj.cell (Obj.sym quoteName)
        (Obj.cell (Obj.cell (Obj.num 1) (Obj.num 2)) Obj.null)) Obj.null)) = .ok (Obj.num 2) :=
  C13_car_cdr.1 2 (Obj.sym quoteName) (Obj.cell (Obj.cell (Obj.num 1) (Obj.num 2)) Obj.null)
    (Obj.num 1) (Obj.num 2) (by decide)

/-- C14. When the argument list of `car` or `cdr` is not a cell whose first
element is a cell (the list is empty, or its first element is a Number, a Bool,
a Symbol or the empty list), the call signals `NameError` for every evaluator,
so before any evaluation; when the first element is a cell that evaluates to
the empty list, both signal `RuntimeError`, and so does `cdr` when it evaluates
to a value that is not a Pair. -/
theorem C14_car_cdr_name_error :
    (∀ (ev : Obj → Res Obj) (args : Obj), pairOperand args = false →
      Car_Apply ev args = .error .NameError ∧ Cdr_Apply ev args = .error .NameError) ∧
    (∀ (n : Nat) (args : Obj), pairOperand args = false →
      Eval (n + 2) (Obj.cell (Obj.sym "car".toList) args) = .error .NameError ∧
      Eval (n + 2) (Obj.cell (Obj.sym "cdr".toList) args) = .error .NameError) ∧
    (∀ (n : Nat) (p q rest : Obj), Eval n (Obj.cell p q) = .ok Obj.null →
      Eval (n + 2) (Obj.cell (Obj.sym "car".toList) (Obj.cell (Obj.cell p q) rest))
        = .error .RuntimeError ∧
      Eval (n + 2) (Obj.cell (Obj.sym "cdr".toList) (Obj.cell (Obj.cell p q) rest))
        = .error .RuntimeError) ∧
    (∀ (n : Nat) (p q rest v : Obj), Eval n (Obj.cell p q) = .ok v → Is_Cell v = false →
      Eval (n + 2) (Obj.cell (Obj.sym "cdr".toList) (Obj.cell (Obj.cell p q) rest))
        = .error .RuntimeError) := by
  have h1 : ∀ (ev : Obj → Res Obj) (args : Obj), pairOperand args = false →
      Car_Apply ev args = .error .NameError ∧ Cdr_Apply ev args = .error .NameError := by
    intro ev args h
    cases args with
    | cell first second =>
      cases first <;> simp_all [pairOperand, Car_Apply, Cdr_Apply]
    | null => simp [Car_Apply, Cdr_Apply]
    | num x => simp [Car_Apply, Cdr_Apply]
    | sym s => simp [Car_Apply, Cdr_Apply]
    | bool x => simp [Car_Apply, Cdr_Apply]
    | func f => simp [Car_Apply, Cdr_Apply]
  refine ⟨h1, ?_, ?_, ?_⟩
  · intro n args h
    rw [Eval_car, Eval_cdr]
    exact h1 _ args h
  · intro n p q rest h
    rw [Eval_car, Eval_cdr]
    simp [Car_Apply, Cdr_Apply, h]
  · intro n p q rest v h hv
    rw [Eval_cdr]
    cases v <;> simp_all [Cdr_Apply, Is_Cell]

/-- Witness of C14: `(car)`, `(car 1)` and `(cdr x)` signal `NameError` although
the bound leaves no room to evaluate an operand; `(cdr (+ 1 2))` signals
`RuntimeError`. -/
theorem C14_car_cdr_name_error_witness :
    Eval 2 (Obj.cell (Obj.sym "car".toList) Obj.null) = .error .NameError ∧
    Eval 2 (Obj.cell (Obj.sym "car".toList) (Obj.cell (Obj.num 1) Obj.null))
      = .error .NameError ∧
    Eval 2 (Obj.cell (Obj.sym "cdr".toList) (Obj.cell (Obj.sym ['x']) Obj.null))
      = .error .NameError ∧
    Eval 5 (Obj.cell (Obj.sym "cdr".toList) (Obj.cell (Obj.cell (Obj.sym ['+'])
        (Obj.cell (Obj.num 1) (Obj.cell (Obj.num 2) Obj.null))) Obj.null))
      = .error .RuntimeError :=
  ⟨(C14_car_cdr_name_error.2.1 0 Obj.null rfl).1,
   (C14_car_cdr_name_error.2.1 0 (Obj.cell (Obj.num 1) Obj.null) rfl).1,
   (C14_car_cdr_name_error.2.1 0 (Obj.cell (Obj.sym ['x']) Obj.null) rfl).2,
   C14_car_cdr_name_error.2.2.2 3 (Obj.sym ['+'])
      (Obj.cell (Obj.num 1) (Obj.cell (Obj.num 2) Obj.null)) Obj.null (Obj.num 3)
      (by decide) rfl⟩

/-! ## `and` and `or` (C16, C17) -/

theorem GetRawVector_chain (es : List Obj) : GetRawVector (chain es Obj.null) = es := by
  induction es with
  | nil => rfl
  | cons e es ih =>
    simp only [chain, List.foldr_cons] at ih ⊢
    simp [GetRawVector, ih]

theorem Eval_and (n : Nat) (args : Obj) :
    Eval (n + 2) (Obj.cell (Obj.sym "and".toList) args)
      = And_Apply (fun e => Eval n e) args := by
  rw [Eval_call n _ Func.And _ (by decide)]
  simp only [Apply]

theorem Eval_or (n : Nat) (args : Obj) :
    Eval (n + 2) (Obj.cell (Obj.sym "or".toList) args)
      = Or_Apply (fun e => Eval n e) args := by
  rw [Eval_call n _ Func.Or _ (by decide)]
  simp only [Apply]

/-- The loop of `and` returns at the first element whose value is the false
`Bool`, whatever follows it. -/
theorem And_loop_stops (ev : Obj → Res Obj) (es1 : List Obj) (e : Obj) (rest : List Obj)
    (h1 : ∀ x ∈ es1, ∃ v, ev x = .ok v ∧ v ≠ Obj.bool false)
    (he : ev e = .ok (Obj.bool false)) :
    And_loop ev (es1 ++ e :: rest) = .ok true := by
  induction es1 with
  | nil => simp [And_loop, he]
  | cons x xs ih =>
    obtain ⟨v, hv, hne⟩ := h1 x (by simp)
    simp only [List.cons_append, And_loop, hv, hne, if_false]
    exact ih (fun y hy => h1 y (by simp [hy]))

/-- The loop of `and` runs to its end when no element has the false `Bool` as
its value. -/
theorem And_loop_passes (ev : Obj → Res Obj) (es : List Obj)
    (h : ∀ x ∈ es, ∃ v, ev x = .ok v ∧ v ≠ Obj.bool false) :
    And_loop ev es = .ok false := by
  induction es with
  | nil => simp [And_loop]
  | cons x xs ih =>
    obtain ⟨v, hv, hne⟩ := h x (by simp)
    simp only [And_loop, hv, hne, if_false]
    exact ih (fun y hy => h y (by simp [hy]))

/-- The loop of `or` returns the first value that is not the false `Bool`,
whatever follows it. -/
theorem Or_loop_stops (ev : Obj → Res Obj) (es1 : List Obj) (e v : Obj) (rest : List Obj)
    (h1 : ∀ x ∈ es1, ev x = .ok (Obj.bool false))
    (he : ev e = .ok v) (hv : v ≠ Obj.bool false) :
    Or_loop ev (es1 ++ e :: rest) = .ok (some v) := by
  induction es1 with
  | nil => simp [Or_loop, he, hv]
  | cons x xs ih =>
    simp only [List.cons_append, Or_loop, h1 x (by simp), ne_eq, not_true_eq_false, if_false]
    exact ih (fun y hy => h1 y (by simp [hy]))

/-- The loop of `or` runs to its end when every element has the false `Bool` as
its value. -/
theorem Or_loop_passes (ev : Obj → Res Obj) (es : List Obj)
    (h : ∀ x ∈ es, ev x = .ok (Obj.bool false)) :
    Or_loop ev es = .ok none := by
  induction es with
  | nil => simp [Or_loop]
  | cons x xs ih =>
    simp only [Or_loop, h x (by simp), ne_eq, not_true_eq_false, if_false]
    exact ih (fun y hy => h y (by simp [hy]))

/-- C16. `(and)` returns `#t`.  When the operands before `e` evaluate to values
other than the false `Bool` and `e` evaluates to the false `Bool`, the call
returns `#f` whatever the operands after `e` are.  When every operand evaluates
to a value other than the false `Bool`, the call returns the value of the last
operand. -/
theorem C16_and :
    (∀ (n : Nat), Eval (n + 2) (Obj.cell (Obj.sym "and".toList) Obj.null)
      = .ok (Obj.bool true)) ∧
    (∀ (n : Nat) (es1 : List Obj) (e : Obj) (rest : List Obj),
      (∀ x ∈ es1, ∃ v, Eval n x = .ok v ∧ v ≠ Obj.bool false) →
      Eval n e = .ok (Obj.bool false) →
      Eval (n + 2) (Obj.cell (Obj.sym "and".toList) (chain (es1 ++ e :: rest) Obj.null))
        = .ok (Obj.bool false)) ∧
    (∀ (n : Nat) (es : List Obj) (hne : es ≠ []),
      (∀ x ∈ es, ∃ v, Eval n x = .ok v ∧ v ≠ Obj.bool false) →
      ∃ v, Eval n (es.getLast hne) = .ok v ∧
        Eval (n + 2) (Obj.cell (Obj.sym "and".toList) (chain es Obj.null)) = .ok v) := by
  refine ⟨?_, ?_, ?_⟩
  · intro n
    rw [Eval_and]
    simp [And_Apply, GetRawVector]
  · intro n es1 e rest h1 he
    rw [Eval_and]
    simp only [And_Apply, GetRawVector_chain]
    have hloop := And_loop_stops (fun e => Eval n e) es1 e rest h1 he
    cases hes : es1 ++ e :: rest with
    | nil => simp at hes
    | cons x xs =>
      rw [hes] at hloop
      simp only [hloop]
  · intro n es hne h
    obtain ⟨v, hv, -⟩ := h (es.getLast hne) (List.getLast_mem hne)
    refine ⟨v, hv, ?_⟩
    rw [Eval_and]
    simp only [And_Apply, GetRawVector_chain]
    have hloop := And_loop_passes (fun e => Eval n e) es h
    cases es with
    | nil => exact absurd rfl hne
    | cons x xs =>
      simp only [hloop]
      exact hv

/-- Witness of C16: `(and 1 2 #f 3)` is `#f`, `(and #f (car))` is `#f` although
`(car)` signals an error, and `(and 1 2)` is `2`. -/
theorem C16_and_witness :
    Eval 3 (Obj.cell (Obj.sym "and".toList)
      (chain ([Obj.num 1, Obj.num 2] ++ Obj.bool false :: [Obj.num 3]) Obj.null))
      = .ok (Obj.bool false) ∧
    Eval 3 (Obj.cell (Obj.sym "and".toList)
      (chain ([] ++ Obj.bool false :: [Obj.cell (Obj.sym "car".toList) Obj.null]) Obj.null))
      = .ok (Obj.bool false) ∧
    Eval 3 (Obj.cell (Obj.sym "car".toList) Obj.null) = .error .NameError ∧
    ∃ v, Eval 1 ([Obj.num 1, Obj.num 2].getLast (by simp)) = .ok v ∧
      Eval 3 (Obj.cell (Obj.sym "and".toList) (chain [Obj.num 1, Obj.num 2] Obj.null))
        = .ok v :=
  ⟨C16_and.2.1 1 [Obj.num 1, Obj.num 2] (Obj.bool false) [Obj.num 3]
      (by
        intro x hx
        simp only [List.mem_cons, List.mem_singleton, List.not_mem_nil, or_false] at hx
        rcases hx with rfl | rfl
        · exact ⟨Obj.num 1, rfl, by simp⟩
        · exact ⟨Obj.num 2, rfl, by simp⟩)
      rfl,
   C16_and.2.1 1 [] (Obj.bool false) [Obj.cell (Obj.sym "car".toList) Obj.null]
      (by intro x hx; simp at hx) rfl,
   by decide,
   C16_and.2.2 1 [Obj.num 1, Obj.num 2] (by simp)
      (by
        intro x hx
        simp only [List.mem_cons, List.mem_singleton, List.not_mem_nil, or_false] at hx
        rcases hx with rfl | rfl
        · exact ⟨Obj.num 1, rfl, by simp⟩
        · exact ⟨Obj.num 2, rfl, by simp⟩)⟩

/-- C17. `(or)` returns `#f`.  When the operands before `e` evaluate to the
false `Bool` and `e` evaluates to a value `v` that is anything else (the Number
`0` and the empty list included), the call returns `v` whatever the operands
after `e` are.  When every operand evaluates to the false `Bool`, the call
returns `#f`. -/
theorem C17_or :
    (∀ (n : Nat), Eval (n + 2) (Obj.cell (Obj.sym "or".toList) Obj.null)
      = .ok (Obj.bool false)) ∧
    (∀ (n : Nat) (es1 : List Obj) (e v : Obj) (rest : List Obj),
      (∀ x ∈ es1, Eval n x = .ok (Obj.bool false)) →
      Eval n e = .ok v → v ≠ Obj.bool false →
      Eval (n + 2) (Obj.cell (Obj.sym "or".toList) (chain (es1 ++ e :: rest) Obj.null))
        = .ok v) ∧
    (∀ (n : Nat) (es : List Obj), (∀ x ∈ es, Eval n x = .ok (Obj.bool false)) →
      Eval (n + 2) (Obj.cell (Obj.sym "or".toList) (chain es Obj.null))
        = .ok (Obj.bool false)) := by
  refine ⟨?_, ?_, ?_⟩
  · intro n
    rw [Eval_or]
    simp [Or_Apply, GetRawVector]
  · intro n es1 e v rest h1 he hv
    rw [Eval_or]
    simp only [Or_Apply, GetRawVector_chain]
    have hloop := Or_loop_stops (fun e => Eval n e) es1 e v rest h1 he hv
    cases hes : es1 ++ e :: rest with
    | nil => simp at hes
    | cons x xs =>
      rw [hes] at hloop
      simp only [hloop]
  · intro n es h
    rw [Eval_or]
    simp only [Or_Apply, GetRawVector_chain]
    have hloop := Or_loop_passes (fun e => Eval n e) es h
    cases es with
    | nil => rfl
    | cons x xs => simp only [hloop]

/-- Witness of C17: `(or #f #f 5)` is `5`, `(or 0 5)` is `0`, `(or (quote ()) 5)`
is the empty list, and `(or 1 (car))` is `1` although `(car)` signals an
error. -/
theorem C17_or_witness :
    Eval 3 (Obj.cell (Obj.sym "or".toList)
      (chain ([Obj.bool false, Obj.bool false] ++ Obj.num 5 :: []) Obj.null))
      = .ok (Obj.num 5) ∧
    Eval 3 (Obj.cell (Obj.sym "or".toList) (chain ([] ++ Obj.num 0 :: [Obj.num 5]) Obj.null))
      = .ok (Obj.num 0) ∧
    Eval 4 (Obj.cell (Obj.sym "or".toList)
      (chain ([] ++ Obj.cell (Obj.sym quoteName) (Obj.cell Obj.null Obj.null) :: [Obj.num 5])
        Obj.null))
      = .ok Obj.null ∧
    Eval 3 (Obj.cell (Obj.sym "or".toList)
      (chain ([] ++ Obj.num 1 :: [Obj.cell (Obj.sym "car".toList) Obj.null]) Obj.null))
      = .ok (Obj.num 1) :=
  ⟨C17_or.2.1 1 [Obj.bool false, Obj.bool false] (Obj.num 5) (Obj.num 5) []
      (by
        intro x hx
        simp only [List.mem_cons, List.mem_singleton, List.not_mem_nil, or_false, or_self] at hx
        subst hx
        rfl)
      rfl (by simp),
   C17_or.2.1 1 [] (Obj.num 0) (Obj.num 0) [Obj.num 5] (by intro x hx; simp at hx) rfl
      (by simp),
   C17_or.2.1 2 [] (Obj.cell (Obj.sym quoteName) (Obj.cell Obj.null Obj.null)) Obj.null
      [Obj.num 5] (by intro x hx; simp at hx) (by decide) (by simp),
   C17_or.2.1 1 [] (Obj.num 1) (Obj.num 1) [Obj.cell (Obj.sym "car".toList) Obj.null]
      (by intro x hx; simp at hx) rfl (by simp)⟩

/-! ## A larger bound keeps the value -/

theorem GetVector_mono (ev ev1 : Obj → Res Obj) (H : ∀ e v, ev e = .ok v → ev1 e = .ok v)
    (args : Obj) : ∀ vs, GetVector ev args = .ok vs → GetVector ev1 args = .ok vs := by
  induction args with
  | null => intro vs h; simpa [GetVector] using h
  | num x =>
    intro vs h
    simp only [GetVector] at h
    cases hx : ev (Obj.num x) <;> simp [hx] at h
  | sym s =>
    intro vs h
    simp only [GetVector] at h
    cases hx : ev (Obj.sym s) <;> simp [hx] at h
  | bool x =>
    intro vs h
    simp only [GetVector] at h
    cases hx : ev (Obj.bool x) <;> simp [hx] at h
  | func f =>
    intro vs h
    simp only [GetVector] at h
    cases hx : ev (Obj.func f) <;> simp [hx] at h
  | cell first second _ ih2 =>
    intro vs h
    simp only [GetVector] at h ⊢
    by_cases hn : first = Obj.null
    · simp [hn] at h
    · simp only [hn, if_false] at h ⊢
      cases hf : ev first with
      | error e => simp [hf] at h
      | ok v =>
        simp only [hf] at h
        rw [H first v hf]
        cases hs : GetVector ev second with
        | error e => simp [hs] at h
        | ok rest =>
          simp only [hs] at h
          rw [ih2 rest hs]
          exact h

theorem IsPair_Apply_mono (ev ev1 : Obj → Res Obj) (H : ∀ e v, ev e = .ok v → ev1 e = .ok v)
    (args v : Obj) (h : IsPair_Apply ev args = .ok v) : IsPair_Apply ev1 args = .ok v := by
  unfold IsPair_Apply at h ⊢
  cases hg : GetVector ev args with
  | error e => rw [hg] at h; simp at h
  | ok obj =>
    rw [hg] at h
    rw [GetVector_mono ev ev1 H args obj hg]
    exact h

theorem IsNull_Apply_mono (ev ev1 : Obj → Res Obj) (H : ∀ e v, ev e = .ok v → ev1 e = .ok v)
    (args v : Obj) (h : IsNull_Apply ev args = .ok v) : IsNull_Apply ev1 args = .ok v := by
  unfold IsNull_Apply at h ⊢
  cases hg : GetVector ev args with
  | error e => rw [hg] at h; simp at h
  | ok obj =>
    rw [hg] at h
    rw [GetVector_mono ev ev1 H args obj hg]
    exact h

theorem Cons_Apply_mono (ev ev1 : Obj → Res Obj) (H : ∀ e v, ev e = .ok v → ev1 e = .ok v)
    (args v : Obj) (h : Cons_Apply ev args = .ok v) : Cons_Apply ev1 args = .ok v := by
  unfold Cons_Apply at h ⊢
  cases hg : GetVector ev args with
  | error e => rw [hg] at h; simp at h
  | ok obj =>
    rw [hg] at h
    rw [GetVector_mono ev ev1 H args obj hg]
    exact h

theorem List_Apply_mono (ev ev1 : Obj → Res Obj) (H : ∀ e v, ev e = .ok v → ev1 e = .ok v)
    (args v : Obj) (h : List_Apply ev args = .ok v) : List_Apply ev1 args = .ok v := by
  unfold List_Apply at h ⊢
  cases hg : GetVector ev args with
  | error e => rw [hg] at h; simp at h
  | ok obj =>
    rw [hg] at h
    rw [GetVector_mono ev ev1 H args obj hg]
    exact h

theorem ListRef_Apply_mono (ev ev1 : Obj → Res Obj) (H : ∀ e v, ev e = .ok v → ev1 e = .ok v)
    (args v : Obj) (h : ListRef_Apply ev args = .ok v) : ListRef_Apply ev1 args = .ok v := by
  unfold ListRef_Apply at h ⊢
  cases hg : GetVector ev args with
  | error e => rw [hg] at h; simp at h
  | ok obj =>
    rw [hg] at h
    rw [GetVector_mono ev ev1 H args obj hg]
    exact h

theorem ListTail_Apply_mono (ev ev1 : Obj → Res Obj) (H : ∀ e v, ev e = .ok v → ev1 e = .ok v)
    (args v : Obj) (h : ListTail_Apply ev args = .ok v) : ListTail_Apply ev1 args = .ok v := by
  unfold ListTail_Apply at h ⊢
  cases hg : GetVector ev args with
  | error e => rw [hg] at h; simp at h
  | ok obj =>
    rw [hg] at h
    rw [GetVector_mono ev ev1 H args obj hg]
    exact h

theorem Sum_Apply_mono (ev ev1 : Obj → Res Obj) (H : ∀ e v, ev e = .ok v → ev1 e = .ok v)
    (args v : Obj) (h : Sum_Apply ev args = .ok v) : Sum_Apply ev1 args = .ok v := by
  unfold Sum_Apply at h ⊢
  cases hg : GetVector ev args with
  | error e => rw [hg] at h; simp at h
  | ok obj =>
    rw [hg] at h
    rw [GetVector_mono ev ev1 H args obj hg]
    exact h

theorem Sub_Apply_mono (ev ev1 : Obj → Res Obj) (H : ∀ e v, ev e = .ok v → ev1 e = .ok v)
    (args v : Obj) (h : Sub_Apply ev args = .ok v) : Sub_Apply ev1 args = .ok v := by
  unfold Sub_Apply at h ⊢
  cases hg : GetVector ev args with
  | error e => rw [hg] at h; simp at h
  | ok obj =>
    rw [hg] at h
    rw [GetVector_mono ev ev1 H args obj hg]
    exact h

theorem Prod_Apply_mono (ev ev1 : Obj → Res Obj) (H : ∀ e v, ev e = .ok v → ev1 e = .ok v)
    (args v : Obj) (h : Prod_Apply ev args = .ok v) : Prod_Apply ev1 args = .ok v := by
  unfold Prod_Apply at h ⊢
  cases hg : GetVector ev args with
  | error e => rw [hg] at h; simp at h
  | ok obj =>
    rw [hg] at h
    rw [GetVector_mono ev ev1 H args obj hg]
    exact h

theorem Div_Apply_mono (ev ev1 : Obj → Res Obj) (H : ∀ e v, ev e = .ok v → ev1 e = .ok v)
    (args v : Obj) (h : Div_Apply ev args = .ok v) : Div_Apply ev1 args = .ok v := by
  unfold Div_Apply at h ⊢
  cases hg : GetVector ev args with
  | error e => rw [hg] at h; simp at h
  | ok obj =>
    rw [hg] at h
    rw [GetVector_mono ev ev1 H args obj hg]
    exact h

theorem Max_Apply_mono (ev ev1 : Obj → Res Obj) (H : ∀ e v, ev e = .ok v → ev1 e = .ok v)
    (args v : Obj) (h : Max_Apply ev args = .ok v) : Max_Apply ev1 args = .ok v := by
  unfold Max_Apply at h ⊢
  cases hg : GetVector ev args with
  | error e => rw [hg] at h; simp at h
  | ok obj =>
    rw [hg] at h
    rw [GetVector_mono ev ev1 H args obj hg]
    exact h

theorem Min_Apply_mono (ev ev1 : Obj → Res Obj) (H : ∀ e v, ev e = .ok v → ev1 e = .ok v)
    (args v : Obj) (h : Min_Apply ev args = .ok v) : Min_Apply ev1 args = .ok v := by
  unfold Min_Apply at h ⊢
  cases hg : GetVector ev args with
  | error e => rw [hg] at h; simp at h
  | ok obj =>
    rw [hg] at h
    rw [GetVector_mono ev ev1 H args obj hg]
    exact h

theorem Abs_Apply_mono (ev ev1 : Obj → Res Obj) (H : ∀ e v, ev e = .ok v → ev1 e = .ok v)
    (args v : Obj) (h : Abs_Apply ev args = .ok v) : Abs_Apply ev1 args = .ok v := by
  unfold Abs_Apply at h ⊢
  cases hg : GetVector ev args with
  | error e => rw [hg] at h; simp at h
  | ok obj =>
    rw [hg] at h
    rw [GetVector_mono ev ev1 H args obj hg]
    exact h

theorem Compare_Apply_mono (stop : Int → Int → Bool) (ev ev1 : Obj → Res Obj)
    (H : ∀ e v, ev e = .ok v → ev1 e = .ok v)
    (args v : Obj) (h : Compare_Apply stop ev args = .ok v) :
    Compare_Apply stop ev1 args = .ok v := by
  unfold Compare_Apply at h ⊢
  cases hg : GetVector ev args with
  | error e => rw [hg] at h; simp at h
  | ok obj =>
    rw [hg] at h
    rw [GetVector_mono ev ev1 H args obj hg]
    exact h

theorem IsBool_Apply_mono (ev ev1 : Obj → Res Obj) (H : ∀ e v, ev e = .ok v → ev1 e = .ok v)
    (args v : Obj) (h : IsBool_Apply ev args = .ok v) : IsBool_Apply ev1 args = .ok v := by
  unfold IsBool_Apply at h ⊢
  cases ha : As_Cell args with
  | error e => rw [ha] at h; simp at h
  | ok p =>
    obtain ⟨first, second⟩ := p
    rw [ha] at h
    simp only at h ⊢
    cases hf : ev first with
    | error e => rw [hf] at h; simp at h
    | ok w =>
      rw [hf] at h
      rw [H first w hf]
      exact h

theorem And_loop_mono (ev ev1 : Obj → Res Obj) (H : ∀ e v, ev e = .ok v → ev1 e = .ok v)
    (es : List Obj) : ∀ b, And_loop ev es = .ok b → And_loop ev1 es = .ok b := by
  induction es with
  | nil => intro b h; simpa [And_loop] using h
  | cons x xs ih =>
    intro b h
    simp only [And_loop] at h ⊢
    cases hx : ev x with
    | error e => rw [hx] at h; simp at h
    | ok w =>
      rw [hx] at h
      rw [H x w hx]
      simp only at h ⊢
      by_cases hw : w = Obj.bool false
      · simpa [hw] using h
      · simp only [hw, if_false] at h ⊢
        exact ih b h

theorem And_Apply_mono (ev ev1 : Obj → Res Obj) (H : ∀ e v, ev e = .ok v → ev1 e = .ok v)
    (args v : Obj) (h : And_Apply ev args = .ok v) : And_Apply ev1 args = .ok v := by
  unfold And_Apply at h ⊢
  cases hr : GetRawVector args with
  | nil => rw [hr] at h; exact h
  | cons x xs =>
    rw [hr] at h
    simp only at h ⊢
    cases hl : And_loop ev (x :: xs) with
    | error e => rw [hl] at h; simp at h
    | ok b =>
      rw [hl] at h
      rw [And_loop_mono ev ev1 H (x :: xs) b hl]
      cases b with
      | true => exact h
      | false => exact H _ _ h

theorem Or_loop_mono (ev ev1 : Obj → Res Obj) (H : ∀ e v, ev e = .ok v → ev1 e = .ok v)
    (es : List Obj) : ∀ r, Or_loop ev es = .ok r → Or_loop ev1 es = .ok r := by
  induction es with
  | nil => intro r h; simpa [Or_loop] using h
  | cons x xs ih =>
    intro r h
    simp only [Or_loop] at h ⊢
    cases hx : ev x with
    | error e => rw [hx] at h; simp at h
    | ok w =>
      rw [hx] at h
      rw [H x w hx]
      simp only at h ⊢
      by_cases hw : w = Obj.bool false
      · simp only [hw, ne_eq, not_true_eq_false, if_false] at h ⊢
        exact ih r h
      · simpa [hw] using h

theorem Or_Apply_mono (ev ev1 : Obj → Res Obj) (H : ∀ e v, ev e = .ok v → ev1 e = .ok v)
    (args v : Obj) (h : Or_Apply ev args = .ok v) : Or_Apply ev1 args = .ok v := by
  unfold Or_Apply at h ⊢
  cases hr : GetRawVector args with
  | nil => rw [hr] at h; exact h
  | cons x xs =>
    rw [hr] at h
    simp only at h ⊢
    cases hl : Or_loop ev (x :: xs) with
    | error e => rw [hl] at h; simp at h
    | ok r =>
      rw [hl] at h
      rw [Or_loop_mono ev ev1 H (x :: xs) r hl]
      exact h

theorem Car_Apply_mono (ev ev1 : Obj → Res Obj) (H : ∀ e v, ev e = .ok v → ev1 e = .ok v)
    (args v : Obj) (h : Car_Apply ev args = .ok v) : Car_Apply ev1 args = .ok v := by
  unfold Car_Apply at h ⊢
  split at h
  · rename_i a b rest
    cases hf : ev (Obj.cell a b) with
    | error e => rw [hf] at h; simp at h
    | ok w =>
      rw [hf] at h
      rw [H _ w hf]
      exact h
  · simp at h

theorem Cdr_Apply_mono (ev ev1 : Obj → Res Obj) (H : ∀ e v, ev e = .ok v → ev1 e = .ok v)
    (args v : Obj) (h : Cdr_Apply ev args = .ok v) : Cdr_Apply ev1 args = .ok v := by
  unfold Cdr_Apply at h ⊢
  split at h
  · rename_i a b rest
    cases hf : ev (Obj.cell a b) with
    | error e => rw [hf] at h; simp at h
    | ok w =>
      rw [hf] at h
      rw [H _ w hf]
      exact h
  · simp at h

theorem IsList_Apply_mono (ev ev1 self self1 : Obj → Res Obj)
    (H : ∀ e v, ev e = .ok v → ev1 e = .ok v)
    (Hs : ∀ a v, self a = .ok v → self1 a = .ok v)
    (args v : Obj) (h : IsList_Apply ev self args = .ok v) :
    IsList_Apply ev1 self1 args = .ok v := by
  unfold IsList_Apply at h ⊢
  cases hg : GetVector ev args with
  | error e => rw [hg] at h; simp at h
  | ok obj =>
    rw [hg] at h
    rw [GetVector_mono ev ev1 H args obj hg]
    match obj, h with
    | [x], h =>
      cases x with
      | cell a sec => exact Hs _ _ h
      | null => exact h
      | num y => exact h
      | sym s => exact h
      | bool y => exact h
      | func f => exact h
    | [], h => simp at h
    | _ :: _ :: _, h => simp at h

/-- A value obtained under a bound is obtained under the next bound too, for
`Eval` and for `Apply`. -/
theorem Eval_Apply_succ (n : Nat) :
    (∀ (e v : Obj), Eval n e = .ok v → Eval (n + 1) e = .ok v) ∧
    (∀ (c a v : Obj), Apply n c a = .ok v → Apply (n + 1) c a = .ok v) := by
  induction n with
  | zero => exact ⟨fun e v h => by simp [Eval] at h, fun c a v h => by simp [Apply] at h⟩
  | succ n ih =>
    obtain ⟨ihE, ihA⟩ := ih
    have HE : ∀ e v, (fun e => Eval n e) e = .ok v → (fun e => Eval (n + 1) e) e = .ok v :=
      ihE
    refine ⟨?_, ?_⟩
    · intro e v h
      cases e with
      | null => simp [Eval] at h
      | num x => simpa [Eval] using h
      | sym s => simpa [Eval] using h
      | bool x => simpa [Eval] using h
      | func f => simp [Eval] at h
      | cell first second =>
        simp only [Eval] at h ⊢
        by_cases hn : first = Obj.null
        · simp [hn] at h
        · simp only [ne_eq, hn, not_false_eq_true, if_true] at h ⊢
          cases hf : Eval n first with
          | error err => simp [hf] at h
          | ok g =>
            simp only [hf] at h
            rw [ihE first g hf]
            by_cases hg : g = Obj.null
            · simp [hg] at h
            · simp only [ne_eq, hg, not_false_eq_true, if_true] at h ⊢
              exact ihA g second v h
    · intro c a v h
      cases c with
      | null => simp [Apply] at h
      | num x => simp [Apply] at h
      | sym s => simp [Apply] at h
      | bool x => simp [Apply] at h
      | cell p q => simp [Apply] at h
      | func f =>
        cases f
        all_goals simp only [Apply] at h ⊢
        case IsBool => exact IsBool_Apply_mono _ _ HE a v h
        case Not => exact h
        case And => exact And_Apply_mono _ _ HE a v h
        case Or => exact Or_Apply_mono _ _ HE a v h
        case Quote => exact h
        case IsPair => exact IsPair_Apply_mono _ _ HE a v h
        case IsNull => exact IsNull_Apply_mono _ _ HE a v h
        case IsList => exact IsList_Apply_mono _ _ _ _ HE (fun x w hx => ihA _ x w hx) a v h
        case Cons => exact Cons_Apply_mono _ _ HE a v h
        case Car => exact Car_Apply_mono _ _ HE a v h
        case Cdr => exact Cdr_Apply_mono _ _ HE a v h
        case List => exact List_Apply_mono _ _ HE a v h
        case ListRef => exact ListRef_Apply_mono _ _ HE a v h
        case ListTail => exact ListTail_Apply_mono _ _ HE a v h
        case IsNumber => exact h
        case IsEqual => exact Compare_Apply_mono _ _ _ HE a v h
        case IsDecrease => exact Compare_Apply_mono _ _ _ HE a v h
        case IsIncrease => exact Compare_Apply_mono _ _ _ HE a v h
        case IsNonIncrease => exact Compare_Apply_mono _ _ _ HE a v h
        case IsNonDecrease => exact Compare_Apply_mono _ _ _ HE a v h
        case Sum => exact Sum_Apply_mono _ _ HE a v h
        case Sub => exact Sub_Apply_mono _ _ HE a v h
        case Prod => exact Prod_Apply_mono _ _ HE a v h
        case Div => exact Div_Apply_mono _ _ HE a v h
        case Max => exact Max_Apply_mono _ _ HE a v h
        case Min => exact Min_Apply_mono _ _ HE a v h
        case Abs => exact Abs_Apply_mono _ _ HE a v h

/-- A value obtained under a bound is obtained under every larger bound. -/
theorem Eval_mono (n m : Nat) (e v : Obj) (hnm : n ≤ m) (h : Eval n e = .ok v) :
    Eval m e = .ok v := by
  induction m with
  | zero =>
    have : n = 0 := by omega
    subst this
    exact h
  | succ m ih =>
    by_cases hm : n ≤ m
    · exact (Eval_Apply_succ m).1 e v (ih hm)
    · have : n = m + 1 := by omega
      subst this
      exact h

theorem Apply_mono (n m : Nat) (c a v : Obj) (hnm : n ≤ m) (h : Apply n c a = .ok v) :
    Apply m c a = .ok v := by
  induction m with
  | zero =>
    have : n = 0 := by omega
    subst this
    exact h
  | succ m ih =>
    by_cases hm : n ≤ m
    · exact (Eval_Apply_succ m).2 c a v (ih hm)
    · have : n = m + 1 := by omega
      subst this
      exact h

/-! ## `list?` (C15) -/

theorem Eval_list_predicate (n : Nat) (args : Obj) :
    Eval (n + 2) (Obj.cell (Obj.sym "list?".toList) args)
      = IsList_Apply (fun e => Eval n e) (fun a => Apply n (Obj.func Func.IsList) a) args := by
  rw [Eval_call n _ Func.IsList _ (by decide)]
  simp only [Apply]

theorem GetVector_quoted (k : Nat) (v : Obj) :
    GetVector (fun e => Eval (k + 2) e) (MakeArgsForList v) = .ok [v] := by
  simp only [MakeArgsForList, GetVector]
  rw [Eval_quote k v]
  simp

/-- The recursive call of `list?` on the re-quoted tail `v`: under a bound of
three more than the number of Pairs along `v`, it returns whether `v` is a
proper list.  Only the wrapper `(quote v)` is evaluated. -/
theorem IsList_on_quoted (v : Obj) :
    ∀ n, spine v + 3 ≤ n →
      Apply n (Obj.func Func.IsList) (MakeArgsForList v) = .ok (Obj.bool (properList v)) := by
  induction v with
  | cell a s _ ihs =>
    intro n hn
    simp only [spine] at hn
    obtain ⟨k, rfl⟩ : ∃ k, n = k + 3 := ⟨n - 3, by omega⟩
    simp only [Apply, IsList_Apply, GetVector_quoted]
    simp only [properList]
    exact ihs (k + 2) (by omega)
  | null =>
    intro n hn
    obtain ⟨k, rfl⟩ : ∃ k, n = k + 3 := ⟨n - 3, by omega⟩
    simp only [Apply, IsList_Apply, GetVector_quoted, properList]
  | num x =>
    intro n hn
    obtain ⟨k, rfl⟩ : ∃ k, n = k + 3 := ⟨n - 3, by omega⟩
    simp only [Apply, IsList_Apply, GetVector_quoted, properList]
  | sym x =>
    intro n hn
    obtain ⟨k, rfl⟩ : ∃ k, n = k + 3 := ⟨n - 3, by omega⟩
    simp only [Apply, IsList_Apply, GetVector_quoted, properList]
  | bool x =>
    intro n hn
    obtain ⟨k, rfl⟩ : ∃ k, n = k + 3 := ⟨n - 3, by omega⟩
    simp only [Apply, IsList_Apply, GetVector_quoted, properList]
  | func x =>
    intro n hn
    obtain ⟨k, rfl⟩ : ∃ k, n = k + 3 := ⟨n - 3, by omega⟩
    simp only [Apply, IsList_Apply, GetVector_quoted, properList]

/-- C15. When the single operand `e` of `list?` evaluates to the value `v`,
then under every bound that evaluates `e` and exceeds the number of Pairs along
`v` by two, `(list? e)` returns `#t` if `v` is a proper list and `#f` otherwise,
whatever the elements of `v` are: they are not evaluated.  When the operands
evaluate to a number of values other than one, the call signals
`RuntimeError`. -/
theorem C15_list_predicate :
    (∀ (n m : Nat) (e v : Obj), Eval n e = .ok v → n ≤ m → spine v + 2 ≤ m →
      Eval (m + 2) (Obj.cell (Obj.sym "list?".toList) (Obj.cell e Obj.null))
        = .ok (Obj.bool (properList v))) ∧
    (∀ (n : Nat) (es vs : List Obj), EvalsTo n es vs → vs.length ≠ 1 →
      Eval (n + 2) (Obj.cell (Obj.sym "list?".toList) (chain es Obj.null))
        = .error .RuntimeError) := by
  refine ⟨?_, ?_⟩
  · intro n m e v h hnm hm
    have hev := Eval_mono n m e v hnm h
    have hg : GetVector (fun e => Eval m e) (Obj.cell e Obj.null) = .ok [v] := by
      have := GetVector_EvalsTo m [e] [v] (List.Forall₂.cons hev List.Forall₂.nil)
      simpa [chain] using this
    rw [Eval_list_predicate]
    simp only [IsList_Apply, hg]
    cases v with
    | cell a s =>
      simp only [properList]
      simp only [spine] at hm
      exact IsList_on_quoted s m (by omega)
    | null => rfl
    | num x => rfl
    | sym x => rfl
    | bool x => rfl
    | func x => rfl
  · intro n es vs h hlen
    rw [Eval_list_predicate]
    simp only [IsList_Apply]
    rw [GetVector_EvalsTo n es _ h]
    match vs, hlen with
    | [], _ => rfl
    | _ :: _ :: _, _ => rfl
    | [x], hl => exact absurd rfl hl

/-- Witness of C15: `(list? (quote ((car) 2 3)))` is `#t` although evaluating
the element `(car)` would signal an error; `(list? (cons 1 2))` is `#f`;
`(list? 1 2)` signals `RuntimeError`. -/
theorem C15_list_predicate_witness :
    Eval 7 (Obj.cell (Obj.sym "list?".toList) (Obj.cell
      (Obj.cell (Obj.sym quoteName) (Obj.cell
        (chain [Obj.cell (Obj.sym "car".toList) Obj.null, Obj.num 2, Obj.num 3] Obj.null)
        Obj.null)) Obj.null))
      = .ok (Obj.bool true) ∧
    Eval 5 (Obj.cell (Obj.sym "list?".toList) (Obj.cell
      (Obj.cell (Obj.sym "cons".toList) (chain [Obj.num 1, Obj.num 2] Obj.null)) Obj.null))
      = .ok (Obj.bool false) ∧
    Eval 3 (Obj.cell (Obj.sym "list?".toList) (chain [Obj.num 1, Obj.num 2] Obj.null))
      = .error .RuntimeError :=
  ⟨C15_list_predicate.1 2 5 _
      (chain [Obj.cell (Obj.sym "car".toList) Obj.null, Obj.num 2, Obj.num 3] Obj.null)
      (by decide) (by decide) (by decide),
   C15_list_predicate.1 3 3 _ (Obj.cell (Obj.num 1) (Obj.num 2))
      (by decide) (by decide) (by decide),
   C15_list_predicate.2 1 [Obj.num 1, Obj.num 2] [Obj.num 1, Obj.num 2]
      (List.Forall₂.cons rfl (List.Forall₂.cons rfl List.Forall₂.nil)) (by decide)⟩

/-! ## Arity of `pair?` and `null?` (C21) -/

theorem Eval_pair_predicate (n : Nat) (args : Obj) :
    Eval (n + 2) (Obj.cell (Obj.sym "pair?".toList) args)
      = IsPair_Apply (fun e => Eval n e) args := by
  rw [Eval_call n _ Func.IsPair _ (by decide)]
  simp only [Apply]

theorem Eval_null_predicate (n : Nat) (args : Obj) :
    Eval (n + 2) (Obj.cell (Obj.sym "null?".toList) args)
      = IsNull_Apply (fun e => Eval n e) args := by
  rw [Eval_call n _ Func.IsNull _ (by decide)]
  simp only [Apply]

/-- Counterexample to C21: `(pair?)`, `(pair? 1 2)`, `(null?)` and
`(null? 1 2)` return `#f`; none signals `RuntimeError`. -/
theorem C21_counterexample :
    Eval 2 (Obj.cell (Obj.sym "pair?".toList) Obj.null) = .ok (Obj.bool false) ∧
    Eval 3 (Obj.cell (Obj.sym "pair?".toList) (chain [Obj.num 1, Obj.num 2] Obj.null))
      = .ok (Obj.bool false) ∧
    Eval 2 (Obj.cell (Obj.sym "null?".toList) Obj.null) = .ok (Obj.bool false) ∧
    Eval 3 (Obj.cell (Obj.sym "null?".toList) (chain [Obj.num 1, Obj.num 2] Obj.null))
      = .ok (Obj.bool false) ∧
    Run 2 "(pair?)".toList = .ok "#f".toList ∧
    Run 3 "(null? 1 2)".toList = .ok "#f".toList := by
  decide

/-- C21, amended. When the operands of `pair?` or `null?` evaluate to the
values `vs`: with exactly one value `x`, `pair?` returns whether `x` is a Pair
and `null?` whether `x` is the empty list; with no value, or with two or more,
both return `#f` and signal no error. -/
theorem C21_pair_null_arity :
    (∀ (n : Nat) (es : List Obj) (x : Obj), EvalsTo n es [x] →
      Eval (n + 2) (Obj.cell (Obj.sym "pair?".toList) (chain es Obj.null))
        = .ok (Obj.bool (Is_Cell x)) ∧
      Eval (n + 2) (Obj.cell (Obj.sym "null?".toList) (chain es Obj.null))
        = .ok (Obj.bool (decide (x = Obj.null)))) ∧
    (∀ (n : Nat) (es vs : List Obj), EvalsTo n es vs → vs.length ≠ 1 →
      Eval (n + 2) (Obj.cell (Obj.sym "pair?".toList) (chain es Obj.null))
        = .ok (Obj.bool false) ∧
      Eval (n + 2) (Obj.cell (Obj.sym "null?".toList) (chain es Obj.null))
        = .ok (Obj.bool false)) := by
  refine ⟨?_, ?_⟩
  · intro n es x h
    rw [Eval_pair_predicate, Eval_null_predicate]
    simp only [IsPair_Apply, IsNull_Apply]
    rw [GetVector_EvalsTo n es _ h]
    cases x <;> simp [Is_Cell, GetRawVector]
  · intro n es vs h hlen
    rw [Eval_pair_predicate, Eval_null_predicate]
    simp only [IsPair_Apply, IsNull_Apply]
    rw [GetVector_EvalsTo n es _ h]
    match vs, hlen with
    | [], _ => exact ⟨rfl, rfl⟩
    | _ :: _ :: _, _ => exact ⟨rfl, rfl⟩

/-- Witness of C21, amended: `(pair? 1 2)` and `(null? 1 2)` return `#f`. -/
theorem C21_pair_null_arity_witness :
    Eval 3 (Obj.cell (Obj.sym "pair?".toList) (chain [Obj.num 1, Obj.num 2] Obj.null))
      = .ok (Obj.bool false) ∧
    Eval 3 (Obj.cell (Obj.sym "null?".toList) (chain [Obj.num 1, Obj.num 2] Obj.null))
      = .ok (Obj.bool false) :=
  C21_pair_null_arity.2 1 [Obj.num 1, Obj.num 2] [Obj.num 1, Obj.num 2]
    (List.Forall₂.cons rfl (List.Forall₂.cons rfl List.Forall₂.nil)) (by decide)

/-! ## `not` (C23) -/

theorem Eval_not (n : Nat) (args : Obj) :
    Eval (n + 2) (Obj.cell (Obj.sym "not".toList) args) = Not_Apply args := by
  rw [Eval_call n _ Func.Not _ (by decide)]
  simp only [Apply]

/-- C23. The call `(not e)` returns `#t` when the operand expression `e` is
itself the false `Bool` and `#f` for every other `e`, under a bound that leaves
no room to evaluate `e`: the operand is inspected as it stands.  With no
operand, and with two or more, the call signals `RuntimeError`. -/
theorem C23_not :
    (∀ (n : Nat) (e : Obj),
      Eval (n + 2) (Obj.cell (Obj.sym "not".toList) (Obj.cell e Obj.null))
        = .ok (Obj.bool (decide (e = Obj.bool false)))) ∧
    (∀ (n : Nat) (es : List Obj), es.length ≠ 1 →
      Eval (n + 2) (Obj.cell (Obj.sym "not".toList) (chain es Obj.null))
        = .error .RuntimeError) := by
  refine ⟨?_, ?_⟩
  · intro n e
    rw [Eval_not]
    cases e with
    | bool state => cases state <;> simp [Not_Apply, GetRawVector]
    | null => simp [Not_Apply, GetRawVector]
    | num x => simp [Not_Apply, GetRawVector]
    | sym s => simp [Not_Apply, GetRawVector]
    | cell a b => simp [Not_Apply, GetRawVector]
    | func f => simp [Not_Apply, GetRawVector]
  · intro n es hlen
    rw [Eval_not]
    simp only [Not_Apply, GetRawVector_chain]
    match es, hlen with
    | [], _ => rfl
    | _ :: _ :: _, _ => rfl

/-- Witness of C23: `(= 1 2)` evaluates to `#f`, yet `(not (= 1 2))` returns
`#f`, under a bound too small to evaluate the operand; `(not #f)` returns `#t`,
`(not #t)`, `(not 0)` and `(not x)` return `#f`; `(not)` and `(not #f #f)`
signal `RuntimeError`. -/
theorem C23_not_witness :
    Eval 3 (Obj.cell (Obj.sym "=".toList) (chain [Obj.num 1, Obj.num 2] Obj.null))
      = .ok (Obj.bool false) ∧
    Eval 2 (Obj.cell (Obj.sym "not".toList) (Obj.cell
        (Obj.cell (Obj.sym "=".toList) (chain [Obj.num 1, Obj.num 2] Obj.null)) Obj.null))
      = .ok (Obj.bool false) ∧
    Eval 2 (Obj.cell (Obj.sym "not".toList) (Obj.cell (Obj.bool false) Obj.null))
      = .ok (Obj.bool true) ∧
    Eval 2 (Obj.cell (Obj.sym "not".toList) (Obj.cell (Obj.bool true) Obj.null))
      = .ok (Obj.bool false) ∧
    Eval 2 (Obj.cell (Obj.sym "not".toList) (Obj.cell (Obj.num 0) Obj.null))
      = .ok (Obj.bool false) ∧
    Eval 2 (Obj.cell (Obj.sym "not".toList) (Obj.cell (Obj.sym ['x']) Obj.null))
      = .ok (Obj.bool false) ∧
    Eval 2 (Obj.cell (Obj.sym "not".toList) (chain [] Obj.null)) = .error .RuntimeError ∧
    Eval 2 (Obj.cell (Obj.sym "not".toList) (chain [Obj.bool false, Obj.bool false] Obj.null))
      = .error .RuntimeError :=
  ⟨by decide, C23_not.1 0 _, C23_not.1 0 _, C23_not.1 0 _, C23_not.1 0 _, C23_not.1 0 _,
   C23_not.2 0 [] (by decide), C23_not.2 0 [Obj.bool false, Obj.bool false] (by decide)⟩

/-! ## `car` and `cdr` on values that are not lists (C26) -/

/-- C26. For an operand `(p . q)` that is structurally a Pair and evaluates to a
non-empty value `v` that is not a Pair, `car` returns `v` itself and `cdr`
signals `RuntimeError`, whatever follows the first operand; and for every
evaluator, `car` and `cdr` of an argument list whose first operand is a Pair do
what they do when nothing follows that operand. -/
theorem C26_car_cdr_non_list :
    (∀ (n : Nat) (p q rest v : Obj), Eval n (Obj.cell p q) = .ok v → v ≠ Obj.null →
      Is_Cell v = false →
      Eval (n + 2) (Obj.cell (Obj.sym "car".toList) (Obj.cell (Obj.cell p q) rest)) = .ok v ∧
      Eval (n + 2) (Obj.cell (Obj.sym "cdr".toList) (Obj.cell (Obj.cell p q) rest))
        = .error .RuntimeError) ∧
    (∀ (ev : Obj → Res Obj) (p q rest : Obj),
      Car_Apply ev (Obj.cell (Obj.cell p q) rest)
        = Car_Apply ev (Obj.cell (Obj.cell p q) Obj.null) ∧
      Cdr_Apply ev (Obj.cell (Obj.cell p q) rest)
        = Cdr_Apply ev (Obj.cell (Obj.cell p q) Obj.null)) := by
  refine ⟨?_, ?_⟩
  · intro n p q rest v h hv hc
    rw [Eval_car, Eval_cdr]
    cases v <;> simp_all [Car_Apply, Cdr_Apply, Is_Cell, GetRawVector]
  · intro ev p q rest
    exact ⟨rfl, rfl⟩

/-- Witness of C26: `(car (+ 1 2))` returns `3` and `(cdr (+ 1 2))` signals
`RuntimeError`, also with further operands as in `(car (+ 1 2) 7 8)`. -/
theorem C26_car_cdr_non_list_witness :
    (Eval 5 (Obj.cell (Obj.sym "car".toList) (Obj.cell (Obj.cell (Obj.sym ['+'])
        (Obj.cell (Obj.num 1) (Obj.cell (Obj.num 2) Obj.null))) Obj.null))
      = .ok (Obj.num 3) ∧
     Eval 5 (Obj.cell (Obj.sym "cdr".toList) (Obj.cell (Obj.cell (Obj.sym ['+'])
        (Obj.cell (Obj.num 1) (Obj.cell (Obj.num 2) Obj.null))) Obj.null))
      = .error .RuntimeError) ∧
    (Eval 5 (Obj.cell (Obj.sym "car".toList) (Obj.cell (Obj.cell (Obj.sym ['+'])
        (Obj.cell (Obj.num 1) (Obj.cell (Obj.num 2) Obj.null)))
        (chain [Obj.num 7, Obj.num 8] Obj.null)))
      = .ok (Obj.num 3) ∧
     Eval 5 (Obj.cell (Obj.sym "cdr".toList) (Obj.cell (Obj.cell (Obj.sym ['+'])
        (Obj.cell (Obj.num 1) (Obj.cell (Obj.num 2) Obj.null)))
        (chain [Obj.num 7, Obj.num 8] Obj.null)))
      = .error .RuntimeError) :=
  ⟨C26_car_cdr_non_list.1 3 (Obj.sym ['+'])
      (Obj.cell (Obj.num 1) (Obj.cell (Obj.num 2) Obj.null)) Obj.null (Obj.num 3)
      (by decide) (by decide) rfl,
   C26_car_cdr_non_list.1 3 (Obj.sym ['+'])
      (Obj.cell (Obj.num 1) (Obj.cell (Obj.num 2) Obj.null))
      (chain [Obj.num 7, Obj.num 8] Obj.null) (Obj.num 3) (by decide) (by decide) rfl⟩

/-! ## Dotted argument lists (C24) -/

/-- Evaluated flattening of a chain that ends in a non-empty value that is not
a cell: once the elements are evaluated, the tail is evaluated, and the walk
fails with the error of the tail or else with `RuntimeError`. -/
theorem GetVector_dotted (n : Nat) (es vs : List Obj) (tail : Obj) (h : EvalsTo n es vs)
    (ht : tail ≠ Obj.null) (hc : Is_Cell tail = false) :
    GetVector (fun e => Eval n e) (chain es tail)
      = match Eval n tail with
        | .error e => .error e
        | .ok _ => .error .RuntimeError := by
  induction h with
  | nil =>
    cases tail <;> simp_all [chain, GetVector, Is_Cell]
  | @cons e v es vs hev _ ih =>
    have hne : e ≠ Obj.null := by
      rintro rfl
      exact Eval_null_ne_ok n _ hev
    simp only [chain, List.foldr_cons] at ih ⊢
    simp only [GetVector, hne, hev, ih, if_false]
    cases Eval n tail <;> rfl

/-- A procedure that collects its operands with `GetVector` fails as
`GetVector` does. -/
theorem Apply_GetVector_error (n : Nat) (f : Func) (args : Obj) (err : Stop)
    (hf : usesGetVector f = true)
    (h : GetVector (fun e => Eval n e) args = .error err) :
    Apply (n + 1) (Obj.func f) args = .error err := by
  cases f <;> first
    | exact Bool.noConfusion hf
    | simp [Apply, IsPair_Apply, IsNull_Apply, IsList_Apply, Cons_Apply, List_Apply,
        ListRef_Apply, ListTail_Apply, IsEqual_Apply, IsDecrease_Apply, IsIncrease_Apply,
        IsNonIncrease_Apply, IsNonDecrease_Apply, Compare_Apply, Sum_Apply, Sub_Apply,
        Prod_Apply, Div_Apply, Max_Apply, Min_Apply, Abs_Apply, h]

/-- C24. For an argument chain whose elements `es` all evaluate and whose last
`second` is a non-empty value `tail` that is not a Pair: evaluated flattening
evaluates `tail` after the elements and then fails, with the error of `tail` if
it has one and with `RuntimeError` otherwise; so when `tail` evaluates, every
call of a procedure named in the table that collects its operands with
`GetVector` (`pair?`, `null?`, `list?`, `cons`, `list`, `list-ref`,
`list-tail`, the comparisons, `+`, `-`, `*`, `/`, `max`, `min`, `abs`) signals
`RuntimeError` and returns no value. -/
theorem C24_dotted_arguments :
    (∀ (n : Nat) (es vs : List Obj) (tail : Obj), EvalsTo n es vs → tail ≠ Obj.null →
      Is_Cell tail = false →
      GetVector (fun e => Eval n e) (chain es tail)
        = match Eval n tail with
          | .error e => .error e
          | .ok _ => .error .RuntimeError) ∧
    (∀ (n : Nat) (name : List Char) (f : Func) (es vs : List Obj) (tail w : Obj),
      lookup name = Obj.func f → usesGetVector f = true → EvalsTo n es vs →
      Is_Cell tail = false → Eval n tail = .ok w →
      Eval (n + 2) (Obj.cell (Obj.sym name) (chain es tail)) = .error .RuntimeError) := by
  refine ⟨GetVector_dotted, ?_⟩
  intro n name f es vs tail w hl hf h hc hw
  have ht : tail ≠ Obj.null := by
    rintro rfl
    exact Eval_null_ne_ok n _ hw
  rw [Eval_call n name f _ hl]
  apply Apply_GetVector_error n f _ _ hf
  rw [GetVector_dotted n es vs tail h ht hc, hw]

/-- Witness of C24: `(+ 1 . 2)`, `(list 1 2 . 3)`, `(cons . 1)` and `(= 1 . x)`
signal `RuntimeError`; under a bound with no room to evaluate the tail,
flattening `(1 . 2)` stops for lack of that room. -/
theorem C24_dotted_arguments_witness :
    Eval 3 (Obj.cell (Obj.sym "+".toList) (chain [Obj.num 1] (Obj.num 2)))
      = .error .RuntimeError ∧
    Eval 3 (Obj.cell (Obj.sym "list".toList) (chain [Obj.num 1, Obj.num 2] (Obj.num 3)))
      = .error .RuntimeError ∧
    Eval 3 (Obj.cell (Obj.sym "cons".toList) (chain [] (Obj.num 1)))
      = .error .RuntimeError ∧
    Eval 3 (Obj.cell (Obj.sym "=".toList) (chain [Obj.num 1] (Obj.sym ['x'])))
      = .error .RuntimeError ∧
    GetVector (fun e => Eval 0 e) (chain [] (Obj.num 2)) = .error .OutOfFuel :=
  ⟨C24_dotted_arguments.2 1 "+".toList Func.Sum [Obj.num 1] [Obj.num 1] (Obj.num 2) (Obj.num 2)
      (by decide) rfl (List.Forall₂.cons rfl List.Forall₂.nil) rfl rfl,
   C24_dotted_arguments.2 1 "list".toList Func.List [Obj.num 1, Obj.num 2]
      [Obj.num 1, Obj.num 2] (Obj.num 3) (Obj.num 3) (by decide) rfl
      (List.Forall₂.cons rfl (List.Forall₂.cons rfl List.Forall₂.nil)) rfl rfl,
   C24_dotted_arguments.2 1 "cons".toList Func.Cons [] [] (Obj.num 1) (Obj.num 1)
      (by decide) rfl List.Forall₂.nil rfl rfl,
   C24_dotted_arguments.2 1 "=".toList Func.IsEqual [Obj.num 1] [Obj.num 1] (Obj.sym ['x'])
      Obj.null (by decide) rfl (List.Forall₂.cons rfl List.Forall₂.nil) rfl (by decide),
   C24_dotted_arguments.1 0 [] [] (Obj.num 2) List.Forall₂.nil (by decide) rfl⟩

/-! ## `list-tail` (C22) -/

theorem Eval_list_tail (n : Nat) (args : Obj) :
    Eval (n + 2) (Obj.cell (Obj.sym "list-tail".toList) args)
      = ListTail_Apply (fun e => Eval n e) args := by
  rw [Eval_call n _ Func.ListTail _ (by decide)]
  simp only [Apply]

theorem to_size_t_of_nonneg (k : Int) (h0 : 0 ≤ k) (h1 : k < 9223372036854775808) :
    to_size_t k = k.toNat := by
  simp only [to_size_t]
  congr 1
  omega

theorem to_size_t_of_neg (k : Int) (h0 : k < 0) (h1 : -9223372036854775808 ≤ k) :
    9223372036854775808 ≤ to_size_t k := by
  simp only [to_size_t]
  omega

/-- C22. Let the first operand of `list-tail` evaluate to the proper list of
the values `xs` and the second to the Number `k`, an `int64_t`, with fewer
than `2^63` values in `xs`.  If `0 <= k <= length xs` the call returns the
proper list of the values of `xs` from position `k` on, which is empty for
`k = length xs`; if `k < 0` or `k > length xs` it signals `RuntimeError`.
It also signals `RuntimeError` when the second operand evaluates to a value
that is not a Number, and when the operands evaluate to a number of values
other than two. -/
theorem C22_list_tail :
    (∀ (n : Nat) (l i : Obj) (xs : List Obj) (k : Int),
      Eval n l = .ok (chain xs Obj.null) → Eval n i = .ok (Obj.num k) →
      -9223372036854775808 ≤ k → k < 9223372036854775808 →
      xs.length < 9223372036854775808 →
      (0 ≤ k → k ≤ xs.length →
        Eval (n + 2) (Obj.cell (Obj.sym "list-tail".toList) (chain [l, i] Obj.null))
          = .ok (chain (xs.drop k.toNat) Obj.null)) ∧
      (k < 0 ∨ (xs.length : Int) < k →
        Eval (n + 2) (Obj.cell (Obj.sym "list-tail".toList) (chain [l, i] Obj.null))
          = .error .RuntimeError)) ∧
    (∀ (n : Nat) (l i vl vi : Obj), Eval n l = .ok vl → Eval n i = .ok vi →
      Is_Number vi = false →
      Eval (n + 2) (Obj.cell (Obj.sym "list-tail".toList) (chain [l, i] Obj.null))
        = .error .RuntimeError) ∧
    (∀ (n : Nat) (es vs : List Obj), EvalsTo n es vs → vs.length ≠ 2 →
      Eval (n + 2) (Obj.cell (Obj.sym "list-tail".toList) (chain es Obj.null))
        = .error .RuntimeError) := by
  refine ⟨?_, ?_, ?_⟩
  · intro n l i xs k hl hi hk1 hk2 hlen
    have hG := GetVector_EvalsTo n [l, i] _
      (List.Forall₂.cons hl (List.Forall₂.cons hi List.Forall₂.nil))
    refine ⟨?_, ?_⟩
    · intro h0 h1
      rw [Eval_list_tail]
      simp only [ListTail_Apply, hG, GetRawVector_chain, As_Number,
        to_size_t_of_nonneg k h0 hk2]
      have hle : k.toNat ≤ xs.length := by omega
      simp [hle, GetObjFrowVector, listOfVector_eq_chain]
    · intro h
      rw [Eval_list_tail]
      simp only [ListTail_Apply, hG, GetRawVector_chain, As_Number]
      have hgt : ¬ to_size_t k ≤ xs.length := by
        rcases h with h | h
        · have := to_size_t_of_neg k h hk1
          omega
        · have h0 : 0 ≤ k := by omega
          rw [to_size_t_of_nonneg k h0 hk2]
          omega
      simp [hgt]
  · intro n l i vl vi hl hi hnum
    have hG := GetVector_EvalsTo n [l, i] _
      (List.Forall₂.cons hl (List.Forall₂.cons hi List.Forall₂.nil))
    rw [Eval_list_tail]
    simp only [ListTail_Apply, hG]
    cases vi <;> simp_all [As_Number, Is_Number]
  · intro n es vs h hlen
    rw [Eval_list_tail]
    simp only [ListTail_Apply]
    rw [GetVector_EvalsTo n es _ h]
    match vs, hlen with
    | [], _ => rfl
    | [_], _ => rfl
    | _ :: _ :: _ :: _, _ => rfl

/-- Witness of C22: on the list `(1 2 3)`, index `1` gives `(2 3)`, index `3`
the empty list, and the indices `4` and `-1` signal `RuntimeError`; so do the
index `#t` and a call with one operand. -/
theorem C22_list_tail_witness :
    Eval 4 (Obj.cell (Obj.sym "list-tail".toList) (chain
        [Obj.cell (Obj.sym quoteName) (Obj.cell
          (chain [Obj.num 1, Obj.num 2, Obj.num 3] Obj.null) Obj.null), Obj.num 1] Obj.null))
      = .ok (chain [Obj.num 2, Obj.num 3] Obj.null) ∧
    Eval 4 (Obj.cell (Obj.sym "list-tail".toList) (chain
        [Obj.cell (Obj.sym quoteName) (Obj.cell
          (chain [Obj.num 1, Obj.num 2, Obj.num 3] Obj.null) Obj.null), Obj.num 3] Obj.null))
      = .ok Obj.null ∧
    Eval 4 (Obj.cell (Obj.sym "list-tail".toList) (chain
        [Obj.cell (Obj.sym quoteName) (Obj.cell
          (chain [Obj.num 1, Obj.num 2, Obj.num 3] Obj.null) Obj.null), Obj.num 4] Obj.null))
      = .error .RuntimeError ∧
    Eval 4 (Obj.cell (Obj.sym "list-tail".toList) (chain
        [Obj.cell (Obj.sym quoteName) (Obj.cell
          (chain [Obj.num 1, Obj.num 2, Obj.num 3] Obj.null) Obj.null), Obj.num (-1)]
        Obj.null))
      = .error .RuntimeError ∧
    Eval 4 (Obj.cell (Obj.sym "list-tail".toList) (chain
        [Obj.cell (Obj.sym quoteName) (Obj.cell
          (chain [Obj.num 1, Obj.num 2, Obj.num 3] Obj.null) Obj.null), Obj.bool true]
        Obj.null))
      = .error .RuntimeError ∧
    Eval 3 (Obj.cell (Obj.sym "list-tail".toList) (chain [Obj.num 1] Obj.null))
      = .error .RuntimeError :=
  ⟨(C22_list_tail.1 2 _ (Obj.num 1) [Obj.num 1, Obj.num 2, Obj.num 3] 1 (Eval_quote 0 _) rfl
      (by decide) (by decide) (by decide)).1 (by decide) (by decide),
   (C22_list_tail.1 2 _ (Obj.num 3) [Obj.num 1, Obj.num 2, Obj.num 3] 3 (Eval_quote 0 _) rfl
      (by decide) (by decide) (by decide)).1 (by decide) (by decide),
   (C22_list_tail.1 2 _ (Obj.num 4) [Obj.num 1, Obj.num 2, Obj.num 3] 4 (Eval_quote 0 _) rfl
      (by decide) (by decide) (by decide)).2 (Or.inr (by decide)),
   (C22_list_tail.1 2 _ (Obj.num (-1)) [Obj.num 1, Obj.num 2, Obj.num 3] (-1)
      (Eval_quote 0 _) rfl (by decide) (by decide) (by decide)).2 (Or.inl (by decide)),
   C22_list_tail.2.1 2 _ (Obj.bool true) _ (Obj.bool true) (Eval_quote 0 _) rfl rfl,
   C22_list_tail.2.2 1 [Obj.num 1] [Obj.num 1] (List.Forall₂.cons rfl List.Forall₂.nil)
      (by decide)⟩

/-! ## Size of values and origin of errors -/

theorem spine_le_cells (v : Obj) : spine v ≤ cells v := by
  induction v with
  | cell first second _ ih => simp only [spine, cells]; omega
  | null => simp [spine]
  | num x => simp [spine]
  | sym s => simp [spine]
  | bool x => simp [spine]
  | func f => simp [spine]

theorem cells_lookup (name : List Char) : cells (lookup name) = 0 := by
  unfold lookup
  cases symbol_map.lookup name <;> rfl

theorem cells_listOfVector (xs : List Obj) : cells (listOfVector xs) = weight xs := by
  induction xs with
  | nil => rfl
  | cons x rest ih => simp only [listOfVector, cells, weight, ih]; omega

theorem weight_drop (xs : List Obj) (k : Nat) : weight (xs.drop k) ≤ weight xs := by
  induction xs generalizing k with
  | nil => simp [weight]
  | cons x rest ih =>
    cases k with
    | zero => simp
    | succ k =>
      have := ih k
      simp only [List.drop_succ_cons, weight]
      omega

theorem cells_lt_weight_of_mem (xs : List Obj) (x : Obj) (h : x ∈ xs) :
    cells x + 1 ≤ weight xs := by
  induction xs with
  | nil => simp at h
  | cons y rest ih =>
    rcases List.mem_cons.mp h with rfl | h
    · simp only [weight]; omega
    · have := ih h
      simp only [weight]
      omega

theorem weight_GetRawVector (l : Obj) : weight (GetRawVector l) ≤ cells l + 1 := by
  induction l with
  | cell first second _ ih => simp only [GetRawVector, weight, cells]; omega
  | null => simp [GetRawVector, weight]
  | num x => simp [GetRawVector, weight, cells]
  | sym s => simp [GetRawVector, weight, cells]
  | bool x => simp [GetRawVector, weight, cells]
  | func f => simp [GetRawVector, weight, cells]

theorem cells_le_of_mem_GetRawVector (args e : Obj) (h : e ∈ GetRawVector args) :
    cells e ≤ cells args := by
  induction args with
  | cell first second _ ih =>
    simp only [GetRawVector, List.mem_cons] at h
    rcases h with rfl | h
    · simp only [cells]; omega
    · have := ih h
      simp only [cells]
      omega
  | null => simp [GetRawVector] at h
  | num x => simp [GetRawVector] at h; simp [h]
  | sym s => simp [GetRawVector] at h; simp [h]
  | bool x => simp [GetRawVector] at h; simp [h]
  | func f => simp [GetRawVector] at h; simp [h]

/-- An error of evaluated flattening is `RuntimeError` or the error of a
non-empty operand. -/
theorem GetVector_error_cases (ev : Obj → Res Obj) (args : Obj) (err : Stop)
    (h : GetVector ev args = .error err) :
    err = .RuntimeError ∨ ∃ e ∈ GetRawVector args, e ≠ Obj.null ∧ ev e = .error err := by
  have atom : ∀ a : Obj, a ≠ Obj.null → GetRawVector a = [a] →
      (match ev a with
        | .error e => (.error e : Res (List Obj))
        | .ok _ => .error .RuntimeError) = .error err →
      err = .RuntimeError ∨ ∃ e ∈ GetRawVector a, e ≠ Obj.null ∧ ev e = .error err := by
    intro a ha hr h
    cases hev : ev a with
    | error e =>
      rw [hev] at h
      right
      exact ⟨a, by simp [hr], ha, by rw [← Except.error.inj h]; exact hev⟩
    | ok v =>
      rw [hev] at h
      left
      exact (Except.error.inj h).symm
  induction args with
  | null => simp [GetVector] at h
  | cell first second _ ih =>
    simp only [GetVector] at h
    by_cases hf : first = Obj.null
    · rw [if_pos hf] at h
      exact Or.inl (Except.error.inj h).symm
    · rw [if_neg hf] at h
      cases hev : ev first with
      | error e =>
        rw [hev] at h
        right
        exact ⟨first, by simp [GetRawVector], hf, by rw [← Except.error.inj h]; exact hev⟩
      | ok v =>
        rw [hev] at h
        cases hG : GetVector ev second with
        | error e =>
          rw [hG] at h
          have he : e = err := Except.error.inj h
          subst he
          rcases ih hG with h1 | ⟨e2, hm, hne, he⟩
          · exact Or.inl h1
          · exact Or.inr ⟨e2, by simp [GetRawVector, hm], hne, he⟩
        | ok rest =>
          rw [hG] at h
          exact Except.noConfusion h
  | num x => exact atom _ (by simp) rfl (by simpa [GetVector] using h)
  | sym s => exact atom _ (by simp) rfl (by simpa [GetVector] using h)
  | bool x => exact atom _ (by simp) rfl (by simpa [GetVector] using h)
  | func f => exact atom _ (by simp) rfl (by simpa [GetVector] using h)

/-- The values that evaluated flattening collects hold no more Pairs than the
operand list, when no value holds more Pairs than its expression. -/
theorem GetVector_weight (ev : Obj → Res Obj) (args : Obj) (vs : List Obj)
    (hev : ∀ e v, ev e = .ok v → cells v ≤ cells e)
    (h : GetVector ev args = .ok vs) : weight vs ≤ cells args := by
  induction args generalizing vs with
  | null =>
    simp only [GetVector] at h
    rw [← Except.ok.inj h]
    simp [weight]
  | cell first second _ ih =>
    simp only [GetVector] at h
    by_cases hf : first = Obj.null
    · rw [if_pos hf] at h
      exact Except.noConfusion h
    · rw [if_neg hf] at h
      cases hv : ev first with
      | error e =>
        rw [hv] at h
        exact Except.noConfusion h
      | ok v =>
        rw [hv] at h
        cases hG : GetVector ev second with
        | error e =>
          rw [hG] at h
          exact Except.noConfusion h
        | ok rest =>
          rw [hG] at h
          rw [← Except.ok.inj h]
          have h1 := hev _ _ hv
          have h2 := ih rest hG
          simp only [weight, cells]
          omega
  | num x => simp only [GetVector] at h; cases hv : ev (Obj.num x) <;> rw [hv] at h <;> exact Except.noConfusion h
  | sym s => simp only [GetVector] at h; cases hv : ev (Obj.sym s) <;> rw [hv] at h <;> exact Except.noConfusion h
  | bool x => simp only [GetVector] at h; cases hv : ev (Obj.bool x) <;> rw [hv] at h <;> exact Except.noConfusion h
  | func f => simp only [GetVector] at h; cases hv : ev (Obj.func f) <;> rw [hv] at h <;> exact Except.noConfusion h
theorem numbersOf_of_valid (vs : List Obj) (h : ValidateObj_Number vs = true) :
    ∃ ns, numbersOf vs = .ok ns ∧ ns.length = vs.length := by
  induction vs with
  | nil => exact ⟨[], rfl, rfl⟩
  | cons v rest ih =>
    simp only [ValidateObj_Number, List.all_cons, Bool.and_eq_true] at h
    obtain ⟨ns, h1, h2⟩ := ih h.2
    cases v with
    | num x => exact ⟨x :: ns, by simp [numbersOf, As_Number, h1], by simp [h2]⟩
    | null => simp [Is_Number] at h
    | sym s => simp [Is_Number] at h
    | bool b => simp [Is_Number] at h
    | cell a b => simp [Is_Number] at h
    | func f => simp [Is_Number] at h

theorem IsPair_Apply_flat (ev : Obj → Res Obj) (args : Obj) :
    Flat ev args (IsPair_Apply ev args) := by
  unfold Flat IsPair_Apply
  cases GetVector ev args with
  | error e => rfl
  | ok vs =>
    right
    match vs with
    | [] => exact ⟨_, rfl, by simp [cells]⟩
    | [x] => by_cases hx : Is_Cell x = true <;> simp [hx, cells]
    | _ :: _ :: _ => exact ⟨_, rfl, by simp [cells]⟩

theorem IsNull_Apply_flat (ev : Obj → Res Obj) (args : Obj) :
    Flat ev args (IsNull_Apply ev args) := by
  unfold Flat IsNull_Apply
  cases GetVector ev args with
  | error e => rfl
  | ok vs =>
    right
    match vs with
    | [] => exact ⟨_, rfl, by simp [cells]⟩
    | [x] => by_cases hx : (GetRawVector x).isEmpty = true <;> simp [hx, cells]
    | _ :: _ :: _ => exact ⟨_, rfl, by simp [cells]⟩

theorem Cons_Apply_flat (ev : Obj → Res Obj) (args : Obj) :
    Flat ev args (Cons_Apply ev args) := by
  unfold Flat Cons_Apply
  cases GetVector ev args with
  | error e => rfl
  | ok vs =>
    match vs with
    | [] => exact Or.inr ⟨_, rfl, by simp [cells]⟩
    | [a] => exact Or.inr ⟨_, rfl, by simp [cells, weight]⟩
    | [a, b] => exact Or.inr ⟨_, rfl, by simp only [cells, weight]; omega⟩
    | _ :: _ :: _ :: _ => exact Or.inl rfl

theorem List_Apply_flat (ev : Obj → Res Obj) (args : Obj) :
    Flat ev args (List_Apply ev args) := by
  unfold Flat List_Apply
  cases GetVector ev args with
  | error e => rfl
  | ok vs => exact Or.inr ⟨_, rfl, by simp [GetObjFrowVector, cells_listOfVector]⟩

theorem ListRef_Apply_flat (ev : Obj → Res Obj) (args : Obj) :
    Flat ev args (ListRef_Apply ev args) := by
  unfold Flat ListRef_Apply
  cases GetVector ev args with
  | error e => rfl
  | ok vs =>
    match vs with
    | [] => exact Or.inl rfl
    | [_] => exact Or.inl rfl
    | _ :: _ :: _ :: _ => exact Or.inl rfl
    | [l, i] =>
      simp only
      by_cases hi : i = Obj.null
      · simp [hi]
      · simp only [ne_eq, hi, not_false_eq_true, if_true]
        cases i with
        | num k =>
          simp only [As_Number]
          cases hx : (GetRawVector l)[to_size_t k]? with
          | none => exact Or.inl rfl
          | some x =>
            refine Or.inr ⟨x, rfl, ?_⟩
            have h1 := cells_lt_weight_of_mem _ _ (List.getElem?_mem hx)
            have h2 := weight_GetRawVector l
            simp only [weight]
            omega
        | null => exact absurd rfl hi
        | sym s => exact Or.inl rfl
        | bool b => exact Or.inl rfl
        | cell a b => exact Or.inl rfl
        | func f => exact Or.inl rfl

theorem ListTail_Apply_flat (ev : Obj → Res Obj) (args : Obj) :
    Flat ev args (ListTail_Apply ev args) := by
  unfold Flat ListTail_Apply
  cases GetVector ev args with
  | error e => rfl
  | ok vs =>
    match vs with
    | [] => exact Or.inl rfl
    | [_] => exact Or.inl rfl
    | _ :: _ :: _ :: _ => exact Or.inl rfl
    | [l, i] =>
      simp only
      by_cases hi : i = Obj.null
      · simp [hi]
      · simp only [ne_eq, hi, not_false_eq_true, if_true]
        cases i with
        | num k =>
          simp only [As_Number]
          by_cases hk : to_size_t k ≤ (GetRawVector l).length
          · rw [if_pos hk]
            refine Or.inr ⟨_, rfl, ?_⟩
            have h1 := weight_drop (GetRawVector l) (to_size_t k)
            have h2 := weight_GetRawVector l
            simp only [GetObjFrowVector, cells_listOfVector, weight]
            omega
          · rw [if_neg hk]
            exact Or.inl rfl
        | null => exact absurd rfl hi
        | sym s => exact Or.inl rfl
        | bool b => exact Or.inl rfl
        | cell a b => exact Or.inl rfl
        | func f => exact Or.inl rfl
theorem Compare_Apply_flat (stop : Int → Int → Bool) (ev : Obj → Res Obj) (args : Obj) :
    Flat ev args (Compare_Apply stop ev args) := by
  unfold Flat Compare_Apply
  cases GetVector ev args with
  | error e => rfl
  | ok vs =>
    simp only
    by_cases hv : ValidateObj_Number vs = true
    · obtain ⟨ns, h1, -⟩ := numbersOf_of_valid vs hv
      by_cases hl : vs.length = 1
      · simp [hv, hl]
      · simp [hv, hl, h1, cells]
    · simp [hv]

theorem Sum_Apply_flat (ev : Obj → Res Obj) (args : Obj) :
    Flat ev args (Sum_Apply ev args) := by
  unfold Flat Sum_Apply
  cases GetVector ev args with
  | error e => rfl
  | ok vs =>
    simp only
    by_cases hv : ValidateObj_Number vs = true
    · obtain ⟨ns, h1, -⟩ := numbersOf_of_valid vs hv
      simp [hv, h1, cells]
    · simp [hv]

theorem Prod_Apply_flat (ev : Obj → Res Obj) (args : Obj) :
    Flat ev args (Prod_Apply ev args) := by
  unfold Flat Prod_Apply
  cases GetVector ev args with
  | error e => rfl
  | ok vs =>
    simp only
    by_cases hv : ValidateObj_Number vs = true
    · obtain ⟨ns, h1, -⟩ := numbersOf_of_valid vs hv
      simp [hv, h1, cells]
    · simp [hv]

theorem Sub_Apply_flat (ev : Obj → Res Obj) (args : Obj) :
    Flat ev args (Sub_Apply ev args) := by
  unfold Flat Sub_Apply
  cases GetVector ev args with
  | error e => rfl
  | ok vs =>
    simp only
    by_cases hv : ValidateObj_Number vs = true
    · obtain ⟨ns, h1, h2⟩ := numbersOf_of_valid vs hv
      by_cases hl : vs.length < 2
      · simp [hv, hl]
      · match ns, h1, h2 with
        | [], _, h2 => exact absurd h2 (by simp only [List.length_nil]; omega)
        | x :: xs, h1, _ => simp [hv, hl, h1, cells]
    · simp [hv]

theorem Div_loop_error (m : Int) (l : List Int) (e : Stop) (h : Div_loop m l = .error e) :
    e = .RuntimeError ∨ e = .Undefined := by
  induction l generalizing m with
  | nil => exact Except.noConfusion h
  | cons a l ih =>
    simp only [Div_loop] at h
    by_cases ha : a = 0
    · rw [if_pos ha] at h
      exact Or.inl (Except.error.inj h).symm
    · rw [if_neg ha] at h
      simp only [div64] at h
      by_cases ht : m = -9223372036854775808 ∧ a = -1
      · rw [if_pos ht] at h
        exact Or.inr (Except.error.inj h).symm
      · rw [if_neg ht] at h
        exact ih _ h

/-- An error of `/` is `RuntimeError`, the error of an operand, or the
undefined division of `INT64_MIN` by `-1` in the loop over the operand
values. -/
theorem Div_Apply_error (ev : Obj → Res Obj) (args : Obj) (err : Stop)
    (h : Div_Apply ev args = .error err) :
    err = .RuntimeError ∨ (∃ e ∈ GetRawVector args, e ≠ Obj.null ∧ ev e = .error err) ∨
      (err = .Undefined ∧ ∃ vals v vs, GetVector ev args = .ok vals ∧
        numbersOf vals = .ok (v :: vs) ∧ Div_loop v vs = .error .Undefined) := by
  unfold Div_Apply at h
  cases hG : GetVector ev args with
  | error e =>
    rw [hG] at h
    have he : e = err := Except.error.inj h
    subst he
    rcases GetVector_error_cases ev args _ hG with h1 | h1
    · exact Or.inl h1
    · exact Or.inr (Or.inl h1)
  | ok vals =>
    rw [hG] at h
    dsimp only at h
    by_cases hv : ValidateObj_Number vals = true
    · obtain ⟨ns, h1, h2⟩ := numbersOf_of_valid vals hv
      by_cases hl : vals.length < 2
      · simp [hv, hl] at h
        exact Or.inl h.symm
      · match ns, h1, h2 with
        | [], _, h2 => exact absurd h2 (by simp only [List.length_nil]; omega)
        | x :: xs, h1, _ =>
          simp only [hv, hl, h1, Bool.not_true, Bool.false_eq_true, if_false] at h
          cases hr : Div_loop x xs with
          | error e =>
            rw [hr] at h
            have he : e = err := Except.error.inj h
            subst he
            rcases Div_loop_error _ _ _ hr with h3 | h3
            · exact Or.inl h3
            · subst h3
              exact Or.inr (Or.inr ⟨rfl, vals, x, xs, rfl, h1, hr⟩)
          | ok q =>
            rw [hr] at h
            exact Except.noConfusion h
    · simp [hv] at h
      exact Or.inl h.symm

/-- The value of `/` is a Number. -/
theorem Div_Apply_cells (ev : Obj → Res Obj) (args v : Obj)
    (h : Div_Apply ev args = .ok v) : cells v = 0 := by
  unfold Div_Apply at h
  cases hG : GetVector ev args with
  | error e =>
    rw [hG] at h
    exact Except.noConfusion h
  | ok vals =>
    rw [hG] at h
    dsimp only at h
    by_cases hv : ValidateObj_Number vals = true
    · by_cases hl : vals.length < 2
      · simp [hv, hl] at h
      · simp only [hv, hl, Bool.not_true, Bool.false_eq_true, if_false] at h
        cases hn : numbersOf vals with
        | error e =>
          rw [hn] at h
          exact Except.noConfusion h
        | ok ns =>
          rw [hn] at h
          match ns, h with
          | [], h => exact Except.noConfusion h
          | x :: xs, h =>
            dsimp only at h
            cases hr : Div_loop x xs with
            | error e =>
              rw [hr] at h
              exact Except.noConfusion h
            | ok q =>
              rw [hr] at h
              rw [← Except.ok.inj h]
              rfl
    · simp [hv] at h

theorem Max_Apply_flat (ev : Obj → Res Obj) (args : Obj) :
    Flat ev args (Max_Apply ev args) := by
  unfold Flat Max_Apply
  cases GetVector ev args with
  | error e => rfl
  | ok vs =>
    simp only
    by_cases hv : ValidateObj_Number vs = true
    · obtain ⟨ns, h1, h2⟩ := numbersOf_of_valid vs hv
      by_cases hl : vs.isEmpty = true
      · simp [hv, hl]
      · match ns, h1, h2 with
        | [], _, h2 =>
          have : vs = [] := List.length_eq_zero.mp h2.symm
          exact absurd (by simp [this]) hl
        | x :: xs, h1, _ => simp [hv, hl, h1, cells]
    · simp [hv]

theorem Min_Apply_flat (ev : Obj → Res Obj) (args : Obj) :
    Flat ev args (Min_Apply ev args) := by
  unfold Flat Min_Apply
  cases GetVector ev args with
  | error e => rfl
  | ok vs =>
    simp only
    by_cases hv : ValidateObj_Number vs = true
    · obtain ⟨ns, h1, h2⟩ := numbersOf_of_valid vs hv
      by_cases hl : vs.isEmpty = true
      · simp [hv, hl]
      · match ns, h1, h2 with
        | [], _, h2 =>
          have : vs = [] := List.length_eq_zero.mp h2.symm
          exact absurd (by simp [this]) hl
        | x :: xs, h1, _ => simp [hv, hl, h1, cells]
    · simp [hv]

theorem Abs_Apply_flat (ev : Obj → Res Obj) (args : Obj) :
    Flat ev args (Abs_Apply ev args) := by
  unfold Flat Abs_Apply
  cases GetVector ev args with
  | error e => rfl
  | ok vs =>
    simp only
    by_cases hv : ValidateObj_Number vs = true
    · match vs, hv with
      | [], _ => simp [ValidateObj_Number]
      | _ :: _ :: _, hv => simp [hv]
      | [x], hv =>
        cases x with
        | num k => simp [hv, As_Number, cells]
        | null => simp [ValidateObj_Number, Is_Number] at hv
        | sym s => simp [ValidateObj_Number, Is_Number] at hv
        | bool b => simp [ValidateObj_Number, Is_Number] at hv
        | cell a b => simp [ValidateObj_Number, Is_Number] at hv
        | func f => simp [ValidateObj_Number, Is_Number] at hv
    · simp [hv]

/-- Every procedure class that collects its operands with `GetVector`, apart
from `list?` and `/`, has an outcome that comes from evaluated flattening. -/
theorem Apply_flat (n : Nat) (f : Func) (args : Obj) (hf : usesGetVector f = true)
    (hl : f ≠ Func.IsList) (hd : f ≠ Func.Div) :
    Flat (fun e => Eval n e) args (Apply (n + 1) (Obj.func f) args) := by
  cases f with
  | IsBool => exact Bool.noConfusion hf
  | Not => exact Bool.noConfusion hf
  | And => exact Bool.noConfusion hf
  | Or => exact Bool.noConfusion hf
  | Quote => exact Bool.noConfusion hf
  | Car => exact Bool.noConfusion hf
  | Cdr => exact Bool.noConfusion hf
  | IsNumber => exact Bool.noConfusion hf
  | IsList => exact absurd rfl hl
  | IsPair => simp only [Apply]; exact IsPair_Apply_flat _ _
  | IsNull => simp only [Apply]; exact IsNull_Apply_flat _ _
  | Cons => simp only [Apply]; exact Cons_Apply_flat _ _
  | List => simp only [Apply]; exact List_Apply_flat _ _
  | ListRef => simp only [Apply]; exact ListRef_Apply_flat _ _
  | ListTail => simp only [Apply]; exact ListTail_Apply_flat _ _
  | IsEqual => simp only [Apply]; exact Compare_Apply_flat _ _ _
  | IsDecrease => simp only [Apply]; exact Compare_Apply_flat _ _ _
  | IsIncrease => simp only [Apply]; exact Compare_Apply_flat _ _ _
  | IsNonIncrease => simp only [Apply]; exact Compare_Apply_flat _ _ _
  | IsNonDecrease => simp only [Apply]; exact Compare_Apply_flat _ _ _
  | Sum => simp only [Apply]; exact Sum_Apply_flat _ _
  | Sub => simp only [Apply]; exact Sub_Apply_flat _ _
  | Prod => simp only [Apply]; exact Prod_Apply_flat _ _
  | Div => exact absurd rfl hd
  | Max => simp only [Apply]; exact Max_Apply_flat _ _
  | Min => simp only [Apply]; exact Min_Apply_flat _ _
  | Abs => simp only [Apply]; exact Abs_Apply_flat _ _
theorem And_loop_error (ev : Obj → Res Obj) (l : List Obj) (err : Stop)
    (h : And_loop ev l = .error err) : ∃ e ∈ l, ev e = .error err := by
  induction l with
  | nil => exact Except.noConfusion h
  | cons el rest ih =>
    simp only [And_loop] at h
    cases hev : ev el with
    | error e =>
      rw [hev] at h
      exact ⟨el, List.mem_cons_self _ _, by rw [← Except.error.inj h]; exact hev⟩
    | ok v =>
      rw [hev] at h
      dsimp only at h
      by_cases hv : v = Obj.bool false
      · rw [if_pos hv] at h
        exact Except.noConfusion h
      · rw [if_neg hv] at h
        obtain ⟨e, hm, he⟩ := ih h
        exact ⟨e, List.mem_cons_of_mem _ hm, he⟩

theorem Or_loop_error (ev : Obj → Res Obj) (l : List Obj) (err : Stop)
    (h : Or_loop ev l = .error err) : ∃ e ∈ l, ev e = .error err := by
  induction l with
  | nil => exact Except.noConfusion h
  | cons el rest ih =>
    simp only [Or_loop] at h
    cases hev : ev el with
    | error e =>
      rw [hev] at h
      exact ⟨el, List.mem_cons_self _ _, by rw [← Except.error.inj h]; exact hev⟩
    | ok v =>
      rw [hev] at h
      by_cases hv : v = Obj.bool false
      · simp only [ne_eq, hv, not_true_eq_false, if_false] at h
        obtain ⟨e, hm, he⟩ := ih h
        exact ⟨e, List.mem_cons_of_mem _ hm, he⟩
      · simp only [ne_eq, hv, not_false_eq_true, if_true] at h
        exact Except.noConfusion h

theorem Or_loop_some (ev : Obj → Res Obj) (l : List Obj) (v : Obj)
    (h : Or_loop ev l = .ok (some v)) : ∃ e ∈ l, ev e = .ok v := by
  induction l with
  | nil => simp [Or_loop] at h
  | cons el rest ih =>
    simp only [Or_loop] at h
    cases hev : ev el with
    | error e =>
      rw [hev] at h
      exact Except.noConfusion h
    | ok w =>
      rw [hev] at h
      by_cases hw : w = Obj.bool false
      · simp only [ne_eq, hw, not_true_eq_false, if_false] at h
        obtain ⟨e, hm, he⟩ := ih h
        exact ⟨e, List.mem_cons_of_mem _ hm, he⟩
      · simp only [ne_eq, hw, not_false_eq_true, if_true] at h
        have hwv : w = v := Option.some.inj (Except.ok.inj h)
        exact ⟨el, List.mem_cons_self _ _, by rw [← hwv]; exact hev⟩

/-- The value of `and` holds no more Pairs than the operand list. -/
theorem And_Apply_cells (ev : Obj → Res Obj) (args v : Obj)
    (hev : ∀ e v, ev e = .ok v → cells v ≤ cells e) (h : And_Apply ev args = .ok v) :
    cells v ≤ cells args := by
  unfold And_Apply at h
  cases hr : GetRawVector args with
  | nil =>
    rw [hr] at h
    rw [← Except.ok.inj h]
    simp [cells]
  | cons x xs =>
    rw [hr] at h
    simp only at h
    cases hl : And_loop ev (x :: xs) with
    | error e =>
      rw [hl] at h
      exact Except.noConfusion h
    | ok b =>
      rw [hl] at h
      cases b with
      | true =>
        rw [← Except.ok.inj h]
        simp [cells]
      | false =>
        have h1 := hev _ _ h
        have h2 := cells_le_of_mem_GetRawVector args _
          (by rw [hr]; exact List.getLast_mem (List.cons_ne_nil x xs))
        omega

/-- An error of `and` is the error of an operand. -/
theorem And_Apply_error (ev : Obj → Res Obj) (args : Obj) (err : Stop)
    (h : And_Apply ev args = .error err) : ∃ e ∈ GetRawVector args, ev e = .error err := by
  unfold And_Apply at h
  cases hr : GetRawVector args with
  | nil =>
    rw [hr] at h
    exact Except.noConfusion h
  | cons x xs =>
    rw [hr] at h
    simp only at h
    cases hl : And_loop ev (x :: xs) with
    | error e =>
      rw [hl] at h
      have he : e = err := Except.error.inj h
      subst he
      exact And_loop_error ev _ _ hl
    | ok b =>
      rw [hl] at h
      cases b with
      | true => exact Except.noConfusion h
      | false => exact ⟨_, List.getLast_mem (List.cons_ne_nil x xs), h⟩

/-- The value of `or` holds no more Pairs than the operand list. -/
theorem Or_Apply_cells (ev : Obj → Res Obj) (args v : Obj)
    (hev : ∀ e v, ev e = .ok v → cells v ≤ cells e) (h : Or_Apply ev args = .ok v) :
    cells v ≤ cells args := by
  unfold Or_Apply at h
  cases hr : GetRawVector args with
  | nil =>
    rw [hr] at h
    rw [← Except.ok.inj h]
    simp [cells]
  | cons x xs =>
    rw [hr] at h
    simp only at h
    cases hl : Or_loop ev (x :: xs) with
    | error e =>
      rw [hl] at h
      exact Except.noConfusion h
    | ok o =>
      rw [hl] at h
      cases o with
      | none =>
        rw [← Except.ok.inj h]
        simp [cells]
      | some w =>
        have hwv : w = v := Except.ok.inj h
        subst hwv
        obtain ⟨e, hm, he⟩ := Or_loop_some ev _ _ hl
        have h1 := hev _ _ he
        have h2 := cells_le_of_mem_GetRawVector args e (by rw [hr]; exact hm)
        omega

/-- An error of `or` is the error of an operand. -/
theorem Or_Apply_error (ev : Obj → Res Obj) (args : Obj) (err : Stop)
    (h : Or_Apply ev args = .error err) : ∃ e ∈ GetRawVector args, ev e = .error err := by
  unfold Or_Apply at h
  cases hr : GetRawVector args with
  | nil =>
    rw [hr] at h
    exact Except.noConfusion h
  | cons x xs =>
    rw [hr] at h
    simp only at h
    cases hl : Or_loop ev (x :: xs) with
    | error e =>
      rw [hl] at h
      have he : e = err := Except.error.inj h
      subst he
      exact Or_loop_error ev _ _ hl
    | ok o =>
      rw [hl] at h
      cases o <;> exact Except.noConfusion h

/-- An error of `boolean?` is `RuntimeError` or the error of the first operand. -/
theorem IsBool_Apply_error (ev : Obj → Res Obj) (args : Obj) (err : Stop)
    (h : IsBool_Apply ev args = .error err) :
    err = .RuntimeError ∨ ∃ e ∈ GetRawVector args, ev e = .error err := by
  unfold IsBool_Apply at h
  cases args with
  | cell first second =>
    simp only [As_Cell] at h
    cases hev : ev first with
    | error e =>
      rw [hev] at h
      exact Or.inr ⟨first, by simp [GetRawVector], by rw [← Except.error.inj h]; exact hev⟩
    | ok w =>
      rw [hev] at h
      left
      by_cases h2 : second = Obj.null
      · by_cases hw : w = Obj.null
        · simp [h2, hw] at h
        · by_cases hb : Is_Bool w = true <;> simp [h2, hw, hb] at h
      · simp [h2] at h
        exact h.symm
  | null => simp [As_Cell] at h; exact Or.inl h.symm
  | num x => simp [As_Cell] at h; exact Or.inl h.symm
  | sym s => simp [As_Cell] at h; exact Or.inl h.symm
  | bool x => simp [As_Cell] at h; exact Or.inl h.symm
  | func f => simp [As_Cell] at h; exact Or.inl h.symm

/-- The value of `boolean?` is a Bool. -/
theorem IsBool_Apply_cells (ev : Obj → Res Obj) (args v : Obj)
    (h : IsBool_Apply ev args = .ok v) : cells v = 0 := by
  unfold IsBool_Apply at h
  cases args with
  | cell first second =>
    simp only [As_Cell] at h
    cases hev : ev first with
    | error e =>
      rw [hev] at h
      exact Except.noConfusion h
    | ok w =>
      rw [hev] at h
      by_cases h2 : second = Obj.null
      · by_cases hw : w = Obj.null
        · simp [h2, hw] at h
          rw [← h]; rfl
        · by_cases hb : Is_Bool w = true <;> simp [h2, hw, hb] at h <;> rw [← h] <;> rfl
      · simp [h2] at h
  | null => simp [As_Cell] at h
  | num x => simp [As_Cell] at h
  | sym s => simp [As_Cell] at h
  | bool x => simp [As_Cell] at h
  | func f => simp [As_Cell] at h

theorem Not_Apply_error (args : Obj) (err : Stop) (h : Not_Apply args = .error err) :
    err = .RuntimeError := by
  unfold Not_Apply at h
  split at h
  · split at h
    · split at h <;> exact Except.noConfusion h
    · exact Except.noConfusion h
  · exact (Except.error.inj h).symm

theorem Not_Apply_cells (args v : Obj) (h : Not_Apply args = .ok v) : cells v = 0 := by
  unfold Not_Apply at h
  split at h
  · split at h
    · split at h <;> rw [← Except.ok.inj h] <;> rfl
    · rw [← Except.ok.inj h]; rfl
  · exact Except.noConfusion h

theorem Quote_Apply_error (args : Obj) (err : Stop) (h : Quote_Apply args = .error err) :
    err = .RuntimeError := by
  unfold Quote_Apply at h
  cases args with
  | cell first second =>
    simp only [As_Cell] at h
    by_cases h2 : second = Obj.null
    · simp [h2] at h
    · simp [h2] at h
      exact h.symm
  | null => simp [As_Cell] at h; exact h.symm
  | num x => simp [As_Cell] at h; exact h.symm
  | sym s => simp [As_Cell] at h; exact h.symm
  | bool x => simp [As_Cell] at h; exact h.symm
  | func f => simp [As_Cell] at h; exact h.symm

theorem Quote_Apply_cells (args v : Obj) (h : Quote_Apply args = .ok v) :
    cells v ≤ cells args := by
  unfold Quote_Apply at h
  cases args with
  | cell first second =>
    simp only [As_Cell] at h
    by_cases h2 : second = Obj.null
    · simp [h2] at h
      rw [← h]
      simp only [cells]
      omega
    · simp [h2] at h
  | null => simp [As_Cell] at h
  | num x => simp [As_Cell] at h
  | sym s => simp [As_Cell] at h
  | bool x => simp [As_Cell] at h
  | func f => simp [As_Cell] at h

theorem IsNumber_Apply_error (args : Obj) (err : Stop) (h : IsNumber_Apply args = .error err) :
    err = .RuntimeError := by
  unfold IsNumber_Apply at h
  cases args with
  | cell first second =>
    simp only [As_Cell] at h
    by_cases h2 : second = Obj.null
    · simp [h2] at h
    · simp [h2] at h
      exact h.symm
  | null => simp [As_Cell] at h; exact h.symm
  | num x => simp [As_Cell] at h; exact h.symm
  | sym s => simp [As_Cell] at h; exact h.symm
  | bool x => simp [As_Cell] at h; exact h.symm
  | func f => simp [As_Cell] at h; exact h.symm

theorem IsNumber_Apply_cells (args v : Obj) (h : IsNumber_Apply args = .ok v) :
    cells v = 0 := by
  unfold IsNumber_Apply at h
  cases args with
  | cell first second =>
    simp only [As_Cell] at h
    by_cases h2 : second = Obj.null
    · simp [h2] at h
      rw [← h]
      rfl
    · simp [h2] at h
  | null => simp [As_Cell] at h
  | num x => simp [As_Cell] at h
  | sym s => simp [As_Cell] at h
  | bool x => simp [As_Cell] at h
  | func f => simp [As_Cell] at h
/-- An error of `car` is `NameError`, `RuntimeError` or the error of the first
operand. -/
theorem Car_Apply_error (ev : Obj → Res Obj) (args : Obj) (err : Stop)
    (h : Car_Apply ev args = .error err) :
    err = .RuntimeError ∨ err = .NameError ∨
      ∃ e ∈ GetRawVector args, e ≠ Obj.null ∧ ev e = .error err := by
  unfold Car_Apply at h
  split at h
  · rename_i a b rest
    cases hev : ev (Obj.cell a b) with
    | error e =>
      rw [hev] at h
      exact Or.inr (Or.inr ⟨Obj.cell a b, by simp [GetRawVector], by simp,
        by rw [← Except.error.inj h]; exact hev⟩)
    | ok w =>
      rw [hev] at h
      dsimp only at h
      left
      by_cases hw : w = Obj.null
      · rw [if_pos hw] at h
        exact (Except.error.inj h).symm
      · rw [if_neg hw] at h
        split at h
        · exact Except.noConfusion h
        · exact (Except.error.inj h).symm
  · exact Or.inr (Or.inl (Except.error.inj h).symm)

/-- The value of `car` holds no more Pairs than the operand list. -/
theorem Car_Apply_cells (ev : Obj → Res Obj) (args v : Obj)
    (hev : ∀ e v, ev e = .ok v → cells v ≤ cells e) (h : Car_Apply ev args = .ok v) :
    cells v ≤ cells args := by
  unfold Car_Apply at h
  split at h
  · rename_i a b rest
    cases hw : ev (Obj.cell a b) with
    | error e =>
      rw [hw] at h
      exact Except.noConfusion h
    | ok w =>
      rw [hw] at h
      dsimp only at h
      by_cases hn : w = Obj.null
      · rw [if_pos hn] at h
        exact Except.noConfusion h
      · rw [if_neg hn] at h
        have h1 := hev _ _ hw
        cases hr : GetRawVector w with
        | nil =>
          rw [hr] at h
          exact Except.noConfusion h
        | cons x xs =>
          rw [hr] at h
          have hx : x = v := Except.ok.inj h
          subst hx
          have h2 := cells_le_of_mem_GetRawVector w x (by rw [hr]; exact List.mem_cons_self _ _)
          simp only [cells] at h1 ⊢
          omega
  · exact Except.noConfusion h

/-- An error of `cdr` is `NameError`, `RuntimeError` or the error of the first
operand. -/
theorem Cdr_Apply_error (ev : Obj → Res Obj) (args : Obj) (err : Stop)
    (h : Cdr_Apply ev args = .error err) :
    err = .RuntimeError ∨ err = .NameError ∨
      ∃ e ∈ GetRawVector args, e ≠ Obj.null ∧ ev e = .error err := by
  unfold Cdr_Apply at h
  split at h
  · rename_i a b rest
    cases hev : ev (Obj.cell a b) with
    | error e =>
      rw [hev] at h
      exact Or.inr (Or.inr ⟨Obj.cell a b, by simp [GetRawVector], by simp,
        by rw [← Except.error.inj h]; exact hev⟩)
    | ok w =>
      rw [hev] at h
      dsimp only at h
      left
      by_cases hw : w = Obj.null
      · rw [if_pos hw] at h
        exact (Except.error.inj h).symm
      · rw [if_neg hw] at h
        split at h
        · exact Except.noConfusion h
        · exact (Except.error.inj h).symm
  · exact Or.inr (Or.inl (Except.error.inj h).symm)

/-- The value of `cdr` holds no more Pairs than the operand list. -/
theorem Cdr_Apply_cells (ev : Obj → Res Obj) (args v : Obj)
    (hev : ∀ e v, ev e = .ok v → cells v ≤ cells e) (h : Cdr_Apply ev args = .ok v) :
    cells v ≤ cells args := by
  unfold Cdr_Apply at h
  split at h
  · rename_i a b rest
    cases hw : ev (Obj.cell a b) with
    | error e =>
      rw [hw] at h
      exact Except.noConfusion h
    | ok w =>
      rw [hw] at h
      dsimp only at h
      by_cases hn : w = Obj.null
      · rw [if_pos hn] at h
        exact Except.noConfusion h
      · rw [if_neg hn] at h
        have h1 := hev _ _ hw
        split at h
        · rename_i x second
          have hx : second = v := Except.ok.inj h
          subst hx
          simp only [cells] at h1 ⊢
          omega
        · exact Except.noConfusion h
  · exact Except.noConfusion h

/-- An error of `list?` is `RuntimeError`, the error of an operand, or the
error of the call of `list?` on the quoted `second` of the operand value. -/
theorem IsList_Apply_error (ev self : Obj → Res Obj) (args : Obj) (err : Stop)
    (h : IsList_Apply ev self args = .error err) :
    err = .RuntimeError ∨ (∃ e ∈ GetRawVector args, e ≠ Obj.null ∧ ev e = .error err) ∨
      ∃ a sec, GetVector ev args = .ok [Obj.cell a sec] ∧
        self (MakeArgsForList sec) = .error err := by
  unfold IsList_Apply at h
  cases hG : GetVector ev args with
  | error e =>
    rw [hG] at h
    have he : e = err := Except.error.inj h
    subst he
    rcases GetVector_error_cases ev args _ hG with h1 | h1
    · exact Or.inl h1
    · exact Or.inr (Or.inl h1)
  | ok vs =>
    rw [hG] at h
    match vs, h with
    | [], h => exact Or.inl (Except.error.inj h).symm
    | _ :: _ :: _, h => exact Or.inl (Except.error.inj h).symm
    | [x], h =>
      cases x with
      | cell a sec => exact Or.inr (Or.inr ⟨a, sec, rfl, h⟩)
      | null => exact Except.noConfusion h
      | num k => exact Except.noConfusion h
      | sym s => exact Except.noConfusion h
      | bool b => exact Except.noConfusion h
      | func f => exact Except.noConfusion h

/-- A value of `list?` is a Bool. -/
theorem IsList_value (n : Nat) (args v : Obj)
    (h : Apply n (Obj.func Func.IsList) args = .ok v) : cells v = 0 := by
  induction n generalizing args with
  | zero => simp [Apply] at h
  | succ n ih =>
    simp only [Apply, IsList_Apply] at h
    cases hG : GetVector (fun e => Eval n e) args with
    | error e =>
      rw [hG] at h
      exact Except.noConfusion h
    | ok vs =>
      rw [hG] at h
      match vs, h with
      | [], h => exact Except.noConfusion h
      | _ :: _ :: _, h => exact Except.noConfusion h
      | [x], h =>
        cases x with
        | cell a sec => exact ih _ h
        | null => rw [← Except.ok.inj h]; rfl
        | num k => rw [← Except.ok.inj h]; rfl
        | sym s => rw [← Except.ok.inj h]; rfl
        | bool b => rw [← Except.ok.inj h]; rfl
        | func f => rw [← Except.ok.inj h]; rfl

/-- On the quoted argument that `list?` builds, `list?` stops only for lack of
depth. -/
theorem IsList_quoted_error (n : Nat) (sec : Obj) (err : Stop)
    (h : Apply n (Obj.func Func.IsList) (MakeArgsForList sec) = .error err) :
    err = .OutOfFuel := by
  induction n generalizing sec with
  | zero =>
    simp only [Apply] at h
    exact (Except.error.inj h).symm
  | succ n ih =>
    simp only [Apply] at h
    rcases IsList_Apply_error _ _ _ _ h with h1 | ⟨e, hm, -, he⟩ | ⟨a, s2, -, h3⟩
    · exfalso
      subst h1
      match n, h with
      | 0, h => simp [IsList_Apply, MakeArgsForList, GetVector, Eval] at h
      | 1, h => simp [IsList_Apply, MakeArgsForList, GetVector, Eval] at h
      | k + 2, h =>
        rw [IsList_Apply, GetVector_quoted k sec] at h
        cases sec with
        | cell a s2 => exact absurd (ih _ h) (by decide)
        | null => exact Except.noConfusion h
        | num k => exact Except.noConfusion h
        | sym s => exact Except.noConfusion h
        | bool b => exact Except.noConfusion h
        | func f => exact Except.noConfusion h
    · simp only [MakeArgsForList, GetRawVector, List.mem_singleton] at hm
      subst hm
      match n, he with
      | 0, he => simp only [Eval] at he; exact (Except.error.inj he).symm
      | 1, he => simp [Eval] at he; exact he.symm
      | k + 2, he =>
        rw [Eval_quote] at he
        exact Except.noConfusion he
    · exact ih _ h3

/-! ## Evaluation ends (C25) -/

theorem Flat_ok_cells (ev : Obj → Res Obj) (args v : Obj)
    (hev : ∀ e v, ev e = .ok v → cells v ≤ cells e) (h : Flat ev args (.ok v)) :
    cells v ≤ cells args := by
  unfold Flat at h
  cases hG : GetVector ev args with
  | error e =>
    rw [hG] at h
    exact Except.noConfusion h
  | ok vs =>
    rw [hG] at h
    rcases h with h | ⟨w, hw, hle⟩
    · exact Except.noConfusion h
    · have := GetVector_weight ev args vs hev hG
      rw [Except.ok.inj hw]
      omega

theorem Flat_error_cases (ev : Obj → Res Obj) (args : Obj) (err : Stop)
    (h : Flat ev args (.error err)) :
    err = .RuntimeError ∨ ∃ e ∈ GetRawVector args, e ≠ Obj.null ∧ ev e = .error err := by
  unfold Flat at h
  cases hG : GetVector ev args with
  | error e =>
    rw [hG] at h
    have he : err = e := Except.error.inj h
    subst he
    exact GetVector_error_cases ev args _ hG
  | ok vs =>
    rw [hG] at h
    rcases h with h | ⟨w, hw, -⟩
    · exact Or.inl (Except.error.inj h)
    · exact Except.noConfusion hw

theorem evaluates_of_usesGetVector (f : Func) (h : usesGetVector f = true) :
    evaluates f = some false := by
  cases f <;> first
    | rfl
    | exact Bool.noConfusion h

/-- Where an error of a procedure comes from: the procedure itself signals
`RuntimeError` or `NameError`, or an operand that it evaluates has the error
(an empty operand only under `boolean?`, `and`, `or`), or the error is that of
`list?` on the quoted `second` of its operand value, or the procedure is `/`
and its loop divides `INT64_MIN` by `-1`. -/
theorem Apply_error (n : Nat) (f : Func) (args : Obj) (err : Stop)
    (h : Apply (n + 1) (Obj.func f) args = .error err) :
    err = .RuntimeError ∨ err = .NameError ∨
      (∃ e ∈ GetRawVector args, ∃ strict, evaluates f = some strict ∧
        (e = Obj.null → strict = true) ∧ Eval n e = .error err) ∨
      (∃ a sec, GetVector (fun e => Eval n e) args = .ok [Obj.cell a sec] ∧
        Apply n (Obj.func Func.IsList) (MakeArgsForList sec) = .error err) ∨
      (f = Func.Div ∧ err = .Undefined ∧ ∃ vals v vs,
        GetVector (fun e => Eval n e) args = .ok vals ∧ numbersOf vals = .ok (v :: vs) ∧
        Div_loop v vs = .error .Undefined) := by
  by_cases hu : usesGetVector f = true ∧ f ≠ Func.IsList ∧ f ≠ Func.Div
  · have hF := Apply_flat n f args hu.1 hu.2.1 hu.2.2
    rw [h] at hF
    rcases Flat_error_cases _ _ _ hF with h1 | ⟨e, hm, hne, he⟩
    · exact Or.inl h1
    · exact Or.inr (Or.inr (Or.inl ⟨e, hm, false, evaluates_of_usesGetVector f hu.1,
        fun h0 => absurd h0 hne, he⟩))
  · cases f <;> simp only [usesGetVector, ne_eq, not_true_eq_false, and_false, and_true,
      not_false_eq_true, reduceCtorEq, Bool.false_eq_true, false_and, and_self] at hu
    · simp only [Apply] at h
      rcases IsBool_Apply_error _ _ _ h with h1 | ⟨e, hm, he⟩
      · exact Or.inl h1
      · exact Or.inr (Or.inr (Or.inl ⟨e, hm, true, rfl, fun _ => rfl, he⟩))
    · simp only [Apply] at h
      exact Or.inl (Not_Apply_error _ _ h)
    · simp only [Apply] at h
      obtain ⟨e, hm, he⟩ := And_Apply_error _ _ _ h
      exact Or.inr (Or.inr (Or.inl ⟨e, hm, true, rfl, fun _ => rfl, he⟩))
    · simp only [Apply] at h
      obtain ⟨e, hm, he⟩ := Or_Apply_error _ _ _ h
      exact Or.inr (Or.inr (Or.inl ⟨e, hm, true, rfl, fun _ => rfl, he⟩))
    · simp only [Apply] at h
      exact Or.inl (Quote_Apply_error _ _ h)
    · simp only [Apply] at h
      rcases IsList_Apply_error _ _ _ _ h with h1 | ⟨e, hm, hne, he⟩ | ⟨a, sec, hG, hs⟩
      · exact Or.inl h1
      · exact Or.inr (Or.inr (Or.inl ⟨e, hm, false, rfl, fun h0 => absurd h0 hne, he⟩))
      · exact Or.inr (Or.inr (Or.inr (Or.inl ⟨a, sec, hG, hs⟩)))
    · simp only [Apply] at h
      rcases Car_Apply_error _ _ _ h with h1 | h1 | ⟨e, hm, hne, he⟩
      · exact Or.inl h1
      · exact Or.inr (Or.inl h1)
      · exact Or.inr (Or.inr (Or.inl ⟨e, hm, false, rfl, fun h0 => absurd h0 hne, he⟩))
    · simp only [Apply] at h
      rcases Cdr_Apply_error _ _ _ h with h1 | h1 | ⟨e, hm, hne, he⟩
      · exact Or.inl h1
      · exact Or.inr (Or.inl h1)
      · exact Or.inr (Or.inr (Or.inl ⟨e, hm, false, rfl, fun h0 => absurd h0 hne, he⟩))
    · simp only [Apply] at h
      exact Or.inl (IsNumber_Apply_error _ _ h)
    · simp only [Apply] at h
      rcases Div_Apply_error _ _ _ h with h1 | ⟨e, hm, hne, he⟩ | ⟨h1, h2⟩
      · exact Or.inl h1
      · exact Or.inr (Or.inr (Or.inl ⟨e, hm, false, rfl, fun h0 => absurd h0 hne, he⟩))
      · exact Or.inr (Or.inr (Or.inr (Or.inr ⟨rfl, h1, h2⟩)))

/-- The value of a procedure holds no more Pairs than its operand list, when
no operand value holds more Pairs than the operand. -/
theorem Apply_cells (n : Nat) (f : Func) (args v : Obj)
    (hev : ∀ e v, Eval n e = .ok v → cells v ≤ cells e)
    (h : Apply (n + 1) (Obj.func f) args = .ok v) : cells v ≤ cells args := by
  by_cases hu : usesGetVector f = true ∧ f ≠ Func.IsList ∧ f ≠ Func.Div
  · have hF := Apply_flat n f args hu.1 hu.2.1 hu.2.2
    rw [h] at hF
    exact Flat_ok_cells _ _ _ hev hF
  · cases f <;> simp only [usesGetVector, ne_eq, not_true_eq_false, and_false, and_true,
      not_false_eq_true, reduceCtorEq, Bool.false_eq_true, false_and, and_self] at hu
    · simp only [Apply] at h
      have := IsBool_Apply_cells _ _ _ h
      omega
    · simp only [Apply] at h
      have := Not_Apply_cells _ _ h
      omega
    · simp only [Apply] at h
      exact And_Apply_cells _ _ _ hev h
    · simp only [Apply] at h
      exact Or_Apply_cells _ _ _ hev h
    · simp only [Apply] at h
      exact Quote_Apply_cells _ _ h
    · have := IsList_value _ _ _ h
      omega
    · simp only [Apply] at h
      exact Car_Apply_cells _ _ _ hev h
    · simp only [Apply] at h
      exact Cdr_Apply_cells _ _ _ hev h
    · simp only [Apply] at h
      have := IsNumber_Apply_cells _ _ h
      omega
    · simp only [Apply] at h
      have := Div_Apply_cells _ _ _ h
      omega

/-- No value holds more Pairs than the expression it is the value of, and no
value of a call more than the operand list. -/
theorem cells_Eval_Apply (n : Nat) :
    (∀ e v, Eval n e = .ok v → cells v ≤ cells e) ∧
    (∀ c args v, Apply n c args = .ok v → cells v ≤ cells args) := by
  induction n with
  | zero =>
    refine ⟨?_, ?_⟩
    · intro e v h
      simp [Eval] at h
    · intro c args v h
      simp [Apply] at h
  | succ n ih =>
    obtain ⟨ihE, ihA⟩ := ih
    refine ⟨?_, ?_⟩
    · intro e v h
      cases e with
      | null => simp [Eval] at h
      | num x => simp only [Eval] at h; rw [← Except.ok.inj h]
      | sym s => simp only [Eval] at h; rw [← Except.ok.inj h, cells_lookup]; omega
      | bool b => simp only [Eval] at h; rw [← Except.ok.inj h]
      | func f => simp [Eval] at h
      | cell first second =>
        simp only [Eval] at h
        by_cases hf : first = Obj.null
        · simp [hf] at h
        · simp only [ne_eq, hf, not_false_eq_true, if_true] at h
          cases hev : Eval n first with
          | error e =>
            rw [hev] at h
            exact Except.noConfusion h
          | ok w =>
            rw [hev] at h
            dsimp only at h
            by_cases hw : w = Obj.null
            · simp [hw] at h
            · simp only [hw, not_false_eq_true, if_true] at h
              have := ihA _ _ _ h
              simp only [cells]
              omega
    · intro c args v h
      cases c with
      | func f => exact Apply_cells n f args v ihE h
      | null => simp [Apply] at h
      | num x => simp [Apply] at h
      | sym s => simp [Apply] at h
      | bool b => simp [Apply] at h
      | cell a b => simp [Apply] at h

/-- Within the depth `evalBound e` the evaluation of `e` does not stop for lack
of depth; nor does a call within twice the number of Pairs of its operand list
plus two. -/
theorem Eval_Apply_ends (n : Nat) :
    (∀ e, evalBound e ≤ n → Eval n e ≠ .error .OutOfFuel) ∧
    (∀ c args, 2 * cells args + 2 ≤ n → Apply n c args ≠ .error .OutOfFuel) := by
  induction n with
  | zero =>
    refine ⟨?_, ?_⟩
    · intro e hb
      simp only [evalBound] at hb
      omega
    · intro c args hb
      omega
  | succ n ih =>
    obtain ⟨ihE, ihA⟩ := ih
    refine ⟨?_, ?_⟩
    · intro e hb h
      cases e with
      | null => simp [Eval] at h
      | num x => simp [Eval] at h
      | sym s => simp [Eval] at h
      | bool b => simp [Eval] at h
      | func f => simp [Eval] at h
      | cell first second =>
        simp only [evalBound, cells] at hb
        simp only [Eval] at h
        by_cases hf : first = Obj.null
        · simp [hf] at h
        · simp only [ne_eq, hf, not_false_eq_true, if_true] at h
          cases hev : Eval n first with
          | error e =>
            rw [hev] at h
            have he : e = .OutOfFuel := Except.error.inj h
            subst he
            exact ihE first (by simp only [evalBound]; omega) hev
          | ok w =>
            rw [hev] at h
            dsimp only at h
            by_cases hw : w = Obj.null
            · simp [hw] at h
            · simp only [hw, not_false_eq_true, if_true] at h
              exact ihA w second (by omega) h
    · intro c args hb h
      cases c with
      | func f =>
        rcases Apply_error n f args _ h with
          h1 | h1 | ⟨e, hm, -, -, -, he⟩ | ⟨a, sec, hG, hs⟩ | ⟨-, h1, -⟩
        · exact Stop.noConfusion h1
        · exact Stop.noConfusion h1
        · have := cells_le_of_mem_GetRawVector args e hm
          exact ihE e (by simp only [evalBound]; omega) he
        · have h1 := GetVector_weight _ args _ (cells_Eval_Apply n).1 hG
          have h2 := spine_le_cells sec
          simp only [weight, cells] at h1
          rw [IsList_on_quoted sec n (by omega)] at hs
          exact Except.noConfusion hs
        · exact Stop.noConfusion h1
      | null => simp [Apply] at h
      | num x => simp [Apply] at h
      | sym s => simp [Apply] at h
      | bool b => simp [Apply] at h
      | cell a b => simp [Apply] at h

/-! ### More depth keeps an error -/

theorem GetVector_stable (ev ev1 : Obj → Res Obj) (H : ∀ e v, ev e = .ok v → ev1 e = .ok v)
    (K : ∀ e err, ev e = .error err → err ≠ .OutOfFuel → ev1 e = .error err)
    (args : Obj) (err : Stop) (h : GetVector ev args = .error err) (hne : err ≠ .OutOfFuel) :
    GetVector ev1 args = .error err := by
  have atom : ∀ a : Obj,
      (match ev a with
        | .error e => (.error e : Res (List Obj))
        | .ok _ => .error .RuntimeError) = .error err →
      (match ev1 a with
        | .error e => (.error e : Res (List Obj))
        | .ok _ => .error .RuntimeError) = .error err := by
    intro a h
    cases hev : ev a with
    | error e =>
      rw [hev] at h
      have he : e = err := Except.error.inj h
      subst he
      rw [K _ _ hev hne]
    | ok v =>
      rw [hev] at h
      rw [H _ _ hev]
      exact h
  induction args with
  | null => simp [GetVector] at h
  | cell first second _ ih =>
    simp only [GetVector] at h ⊢
    by_cases hf : first = Obj.null
    · rw [if_pos hf] at h ⊢
      exact h
    · rw [if_neg hf] at h ⊢
      cases hev : ev first with
      | error e =>
        rw [hev] at h
        have he : e = err := Except.error.inj h
        subst he
        rw [K _ _ hev hne]
      | ok v =>
        rw [hev] at h
        rw [H _ _ hev]
        dsimp only at h ⊢
        cases hG : GetVector ev second with
        | error e =>
          rw [hG] at h
          have he : e = err := Except.error.inj h
          subst he
          rw [ih hG]
        | ok rest =>
          rw [hG] at h
          exact Except.noConfusion h
  | num x => simp only [GetVector] at h ⊢; exact atom _ h
  | sym s => simp only [GetVector] at h ⊢; exact atom _ h
  | bool x => simp only [GetVector] at h ⊢; exact atom _ h
  | func f => simp only [GetVector] at h ⊢; exact atom _ h

/-- A procedure that does nothing with its operands but collect them with
`GetVector` depends on the evaluator through `GetVector` only. -/
theorem Apply_GetVector_congr (n m : Nat) (f : Func) (args : Obj)
    (hf : usesGetVector f = true) (hl : f ≠ Func.IsList)
    (h : GetVector (fun e => Eval n e) args = GetVector (fun e => Eval m e) args) :
    Apply (n + 1) (Obj.func f) args = Apply (m + 1) (Obj.func f) args := by
  cases f with
  | IsBool => exact Bool.noConfusion hf
  | Not => exact Bool.noConfusion hf
  | And => exact Bool.noConfusion hf
  | Or => exact Bool.noConfusion hf
  | Quote => exact Bool.noConfusion hf
  | Car => exact Bool.noConfusion hf
  | Cdr => exact Bool.noConfusion hf
  | IsNumber => exact Bool.noConfusion hf
  | IsList => exact absurd rfl hl
  | IsPair => simp only [Apply, IsPair_Apply, h]
  | IsNull => simp only [Apply, IsNull_Apply, h]
  | Cons => simp only [Apply, Cons_Apply, h]
  | List => simp only [Apply, List_Apply, h]
  | ListRef => simp only [Apply, ListRef_Apply, h]
  | ListTail => simp only [Apply, ListTail_Apply, h]
  | IsEqual => simp only [Apply, IsEqual_Apply, Compare_Apply, h]
  | IsDecrease => simp only [Apply, IsDecrease_Apply, Compare_Apply, h]
  | IsIncrease => simp only [Apply, IsIncrease_Apply, Compare_Apply, h]
  | IsNonIncrease => simp only [Apply, IsNonIncrease_Apply, Compare_Apply, h]
  | IsNonDecrease => simp only [Apply, IsNonDecrease_Apply, Compare_Apply, h]
  | Sum => simp only [Apply, Sum_Apply, h]
  | Sub => simp only [Apply, Sub_Apply, h]
  | Prod => simp only [Apply, Prod_Apply, h]
  | Div => simp only [Apply, Div_Apply, h]
  | Max => simp only [Apply, Max_Apply, h]
  | Min => simp only [Apply, Min_Apply, h]
  | Abs => simp only [Apply, Abs_Apply, h]

theorem And_loop_stable (ev ev1 : Obj → Res Obj) (H : ∀ e v, ev e = .ok v → ev1 e = .ok v)
    (K : ∀ e err, ev e = .error err → err ≠ .OutOfFuel → ev1 e = .error err)
    (l : List Obj) (err : Stop) (h : And_loop ev l = .error err) (hne : err ≠ .OutOfFuel) :
    And_loop ev1 l = .error err := by
  induction l with
  | nil => exact Except.noConfusion h
  | cons el rest ih =>
    simp only [And_loop] at h ⊢
    cases hev : ev el with
    | error e =>
      rw [hev] at h
      have he : e = err := Except.error.inj h
      subst he
      rw [K _ _ hev hne]
    | ok v =>
      rw [hev] at h
      rw [H _ _ hev]
      dsimp only at h ⊢
      by_cases hv : v = Obj.bool false
      · rw [if_pos hv] at h
        exact Except.noConfusion h
      · rw [if_neg hv] at h ⊢
        exact ih h

theorem Or_loop_stable (ev ev1 : Obj → Res Obj) (H : ∀ e v, ev e = .ok v → ev1 e = .ok v)
    (K : ∀ e err, ev e = .error err → err ≠ .OutOfFuel → ev1 e = .error err)
    (l : List Obj) (err : Stop) (h : Or_loop ev l = .error err) (hne : err ≠ .OutOfFuel) :
    Or_loop ev1 l = .error err := by
  induction l with
  | nil => exact Except.noConfusion h
  | cons el rest ih =>
    simp only [Or_loop] at h ⊢
    cases hev : ev el with
    | error e =>
      rw [hev] at h
      have he : e = err := Except.error.inj h
      subst he
      rw [K _ _ hev hne]
    | ok v =>
      rw [hev] at h
      rw [H _ _ hev]
      dsimp only at h ⊢
      by_cases hv : v = Obj.bool false
      · simp only [ne_eq, hv, not_true_eq_false, if_false] at h ⊢
        exact ih h
      · simp only [ne_eq, hv, not_false_eq_true, if_true] at h
        exact Except.noConfusion h

theorem And_Apply_stable (ev ev1 : Obj → Res Obj) (H : ∀ e v, ev e = .ok v → ev1 e = .ok v)
    (K : ∀ e err, ev e = .error err → err ≠ .OutOfFuel → ev1 e = .error err)
    (args : Obj) (err : Stop) (h : And_Apply ev args = .error err) (hne : err ≠ .OutOfFuel) :
    And_Apply ev1 args = .error err := by
  unfold And_Apply at h ⊢
  cases hr : GetRawVector args with
  | nil =>
    rw [hr] at h
    exact Except.noConfusion h
  | cons x xs =>
    rw [hr] at h
    dsimp only at h ⊢
    cases hl : And_loop ev (x :: xs) with
    | error e =>
      rw [hl] at h
      have he : e = err := Except.error.inj h
      subst he
      rw [And_loop_stable ev ev1 H K _ _ hl hne]
    | ok b =>
      rw [hl] at h
      rw [And_loop_mono ev ev1 H _ _ hl]
      cases b with
      | true => exact Except.noConfusion h
      | false => exact K _ _ h hne

theorem Or_Apply_stable (ev ev1 : Obj → Res Obj) (H : ∀ e v, ev e = .ok v → ev1 e = .ok v)
    (K : ∀ e err, ev e = .error err → err ≠ .OutOfFuel → ev1 e = .error err)
    (args : Obj) (err : Stop) (h : Or_Apply ev args = .error err) (hne : err ≠ .OutOfFuel) :
    Or_Apply ev1 args = .error err := by
  unfold Or_Apply at h ⊢
  cases hr : GetRawVector args with
  | nil =>
    rw [hr] at h
    exact Except.noConfusion h
  | cons x xs =>
    rw [hr] at h
    dsimp only at h ⊢
    cases hl : Or_loop ev (x :: xs) with
    | error e =>
      rw [hl] at h
      have he : e = err := Except.error.inj h
      subst he
      rw [Or_loop_stable ev ev1 H K _ _ hl hne]
    | ok o =>
      rw [hl] at h
      cases o <;> exact Except.noConfusion h

theorem IsBool_Apply_stable (ev ev1 : Obj → Res Obj)
    (H : ∀ e v, ev e = .ok v → ev1 e = .ok v)
    (K : ∀ e err, ev e = .error err → err ≠ .OutOfFuel → ev1 e = .error err)
    (args : Obj) (err : Stop) (h : IsBool_Apply ev args = .error err)
    (hne : err ≠ .OutOfFuel) : IsBool_Apply ev1 args = .error err := by
  unfold IsBool_Apply at h ⊢
  cases args with
  | cell first second =>
    simp only [As_Cell] at h ⊢
    cases hev : ev first with
    | error e =>
      rw [hev] at h
      have he : e = err := Except.error.inj h
      subst he
      rw [K _ _ hev hne]
    | ok w =>
      rw [hev] at h
      rw [H _ _ hev]
      exact h
  | null => exact h
  | num x => exact h
  | sym s => exact h
  | bool x => exact h
  | func f => exact h

theorem Car_Apply_stable (ev ev1 : Obj → Res Obj) (H : ∀ e v, ev e = .ok v → ev1 e = .ok v)
    (K : ∀ e err, ev e = .error err → err ≠ .OutOfFuel → ev1 e = .error err)
    (args : Obj) (err : Stop) (h : Car_Apply ev args = .error err) (hne : err ≠ .OutOfFuel) :
    Car_Apply ev1 args = .error err := by
  unfold Car_Apply at h ⊢
  split
  · rename_i a b rest
    dsimp only at h
    cases hev : ev (Obj.cell a b) with
    | error e =>
      rw [hev] at h
      have he : e = err := Except.error.inj h
      subst he
      rw [K _ _ hev hne]
    | ok w =>
      rw [hev] at h
      rw [H _ _ hev]
      exact h
  · rename_i hn
    split at h
    · rename_i a b rest
      exact absurd rfl (hn a b rest)
    · exact h

theorem Cdr_Apply_stable (ev ev1 : Obj → Res Obj) (H : ∀ e v, ev e = .ok v → ev1 e = .ok v)
    (K : ∀ e err, ev e = .error err → err ≠ .OutOfFuel → ev1 e = .error err)
    (args : Obj) (err : Stop) (h : Cdr_Apply ev args = .error err) (hne : err ≠ .OutOfFuel) :
    Cdr_Apply ev1 args = .error err := by
  unfold Cdr_Apply at h ⊢
  split
  · rename_i a b rest
    dsimp only at h
    cases hev : ev (Obj.cell a b) with
    | error e =>
      rw [hev] at h
      have he : e = err := Except.error.inj h
      subst he
      rw [K _ _ hev hne]
    | ok w =>
      rw [hev] at h
      rw [H _ _ hev]
      exact h
  · rename_i hn
    split at h
    · rename_i a b rest
      exact absurd rfl (hn a b rest)
    · exact h

/-- An error other than the lack of depth is kept under one more level of
depth. -/
theorem Eval_Apply_stable (n : Nat) :
    (∀ e err, Eval n e = .error err → err ≠ .OutOfFuel → Eval (n + 1) e = .error err) ∧
    (∀ c args err, Apply n c args = .error err → err ≠ .OutOfFuel →
      Apply (n + 1) c args = .error err) := by
  induction n with
  | zero =>
    refine ⟨?_, ?_⟩
    · intro e err h hne
      simp only [Eval] at h
      exact absurd (Except.error.inj h).symm hne
    · intro c args err h hne
      simp only [Apply] at h
      exact absurd (Except.error.inj h).symm hne
  | succ n ih =>
    obtain ⟨ihE, ihA⟩ := ih
    have H : ∀ e v, (fun e => Eval n e) e = .ok v → (fun e => Eval (n + 1) e) e = .ok v :=
      (Eval_Apply_succ n).1
    have K : ∀ e err, (fun e => Eval n e) e = .error err → err ≠ .OutOfFuel →
        (fun e => Eval (n + 1) e) e = .error err := ihE
    refine ⟨?_, ?_⟩
    · intro e err h hne
      cases e with
      | null => exact h
      | num x => exact h
      | sym s => exact h
      | bool b => exact h
      | func f => exact h
      | cell first second =>
        rw [Eval] at h ⊢
        by_cases hf : first = Obj.null
        · simp only [ne_eq, hf, not_true_eq_false, if_false] at h ⊢
          exact h
        · simp only [ne_eq, hf, not_false_eq_true, if_true] at h ⊢
          cases hev : Eval n first with
          | error e =>
            rw [hev] at h
            have he : e = err := Except.error.inj h
            subst he
            rw [ihE _ _ hev hne]
          | ok w =>
            rw [hev] at h
            rw [(Eval_Apply_succ n).1 _ _ hev]
            dsimp only at h ⊢
            by_cases hw : w = Obj.null
            · simp only [hw, not_true_eq_false, if_false] at h ⊢
              exact h
            · simp only [hw, not_false_eq_true, if_true] at h ⊢
              exact ihA _ _ _ h hne
    · intro c args err h hne
      cases c with
      | func f =>
        by_cases hu : usesGetVector f = true
        · cases hG : GetVector (fun e => Eval n e) args with
          | error e =>
            have h1 := Apply_GetVector_error n f args e hu hG
            rw [h] at h1
            have he : err = e := Except.error.inj h1
            subst he
            exact Apply_GetVector_error (n + 1) f args err hu
              (GetVector_stable _ _ H K args err hG hne)
          | ok vs =>
            have hG1 := GetVector_mono _ _ H args vs hG
            by_cases hl : f = Func.IsList
            · subst hl
              simp only [Apply, IsList_Apply, hG, hG1] at h ⊢
              match vs, h with
              | [], h => exact h
              | _ :: _ :: _, h => exact h
              | [x], h =>
                cases x with
                | cell a sec => exact ihA _ _ _ h hne
                | null => exact Except.noConfusion h
                | num k => exact Except.noConfusion h
                | sym s => exact Except.noConfusion h
                | bool b => exact Except.noConfusion h
                | func g => exact Except.noConfusion h
            · rw [← Apply_GetVector_congr n (n + 1) f args hu hl (by rw [hG, hG1])]
              exact h
        · cases f <;> simp only [usesGetVector, not_true_eq_false, Bool.false_eq_true,
            not_false_eq_true] at hu
          · simp only [Apply] at h ⊢
            exact IsBool_Apply_stable _ _ H K args err h hne
          · simp only [Apply] at h ⊢
            exact h
          · simp only [Apply] at h ⊢
            exact And_Apply_stable _ _ H K args err h hne
          · simp only [Apply] at h ⊢
            exact Or_Apply_stable _ _ H K args err h hne
          · simp only [Apply] at h ⊢
            exact h
          · simp only [Apply] at h ⊢
            exact Car_Apply_stable _ _ H K args err h hne
          · simp only [Apply] at h ⊢
            exact Cdr_Apply_stable _ _ H K args err h hne
          · simp only [Apply] at h ⊢
            exact h
      | null => exact h
      | num x => simpa [Apply] using h
      | sym s => simpa [Apply] using h
      | bool b => simpa [Apply] using h
      | cell a b => simpa [Apply] using h

/-- From the depth `evalBound e` on, the outcome of evaluating `e` is the
same at every depth. -/
theorem Eval_settled (e : Obj) (n : Nat) (h : evalBound e ≤ n) :
    Eval n e = Eval (evalBound e) e := by
  induction n with
  | zero =>
    simp only [evalBound] at h
    omega
  | succ n ih =>
    by_cases hn : evalBound e ≤ n
    · rw [← ih hn]
      cases hr : Eval n e with
      | ok v => exact (Eval_Apply_succ n).1 e v hr
      | error err =>
        exact (Eval_Apply_stable n).1 e err hr
          (fun h0 => (Eval_Apply_ends n).1 e hn (by rw [hr, h0]))
    · have : n + 1 = evalBound e := by omega
      rw [this]

/-! ### The reader builds no procedure object -/

theorem Read_funcFree (n : Nat) :
    (∀ tk obj tk1, Read n tk = .ok (obj, tk1) → funcFree obj = true) ∧
    (∀ tk wc obj tk1, ReadList n tk wc = .ok (obj, tk1) → funcFree obj = true) := by
  induction n with
  | zero =>
    refine ⟨?_, ?_⟩
    · intro tk obj tk1 h
      simp [Read] at h
    · intro tk wc obj tk1 h
      simp [ReadList] at h
  | succ n ih =>
    obtain ⟨ihR, ihL⟩ := ih
    refine ⟨?_, ?_⟩
    · intro tk obj tk1 h
      rw [Read] at h
      by_cases h0 : tk.IsEnd = true
      · rw [if_pos h0] at h
        exact Except.noConfusion h
      · rw [if_neg h0] at h
        cases hN : tk.Next with
        | error e =>
          rw [hN] at h
          exact Except.noConfusion h
        | ok tk2 =>
          rw [hN] at h
          dsimp only at h
          cases hT : tk.GetToken with
          | Symbol name =>
            rw [hT] at h
            rw [← (Prod.mk.inj (Except.ok.inj h)).1]
            rfl
          | Constant value =>
            rw [hT] at h
            rw [← (Prod.mk.inj (Except.ok.inj h)).1]
            rfl
          | Bool b =>
            rw [hT] at h
            rw [← (Prod.mk.inj (Except.ok.inj h)).1]
            cases b <;> rfl
          | Dot =>
            rw [hT] at h
            dsimp only at h
            by_cases h1 : tk2.IsEnd = true
            · rw [if_pos h1] at h
              exact Except.noConfusion h
            · rw [if_neg h1] at h
              exact ihR _ _ _ h
          | Quote =>
            rw [hT] at h
            dsimp only at h
            by_cases h1 : tk2.IsEnd = true
            · rw [if_pos h1] at h
              exact Except.noConfusion h
            · rw [if_neg h1] at h
              cases hR : Read n tk2 with
              | error e =>
                rw [hR] at h
                exact Except.noConfusion h
              | ok p =>
                obtain ⟨x, tk3⟩ := p
                rw [hR] at h
                rw [← (Prod.mk.inj (Except.ok.inj h)).1]
                simp [funcFree, ihR _ _ _ hR]
          | Bracket b =>
            rw [hT] at h
            cases b with
            | OPEN => exact ihL _ _ _ _ h
            | CLOSE => exact Except.noConfusion h
    · intro tk wc obj tk1 h
      rw [ReadList] at h
      by_cases h0 : tk.IsEnd = true
      · rw [if_pos h0] at h
        exact Except.noConfusion h
      · rw [if_neg h0] at h
        by_cases h1 : tk.GetToken = Token.Dot
        · rw [if_pos h1] at h
          exact Except.noConfusion h
        · rw [if_neg h1] at h
          by_cases h2 : tk.GetToken = Token.Bracket .CLOSE
          · rw [if_pos h2] at h
            cases hN : tk.Next with
            | error e =>
              rw [hN] at h
              exact Except.noConfusion h
            | ok tk2 =>
              rw [hN] at h
              rw [← (Prod.mk.inj (Except.ok.inj h)).1]
              rfl
          · rw [if_neg h2] at h
            cases hR : Read n tk with
            | error e =>
              rw [hR] at h
              exact Except.noConfusion h
            | ok p =>
              obtain ⟨first, tk2⟩ := p
              rw [hR] at h
              dsimp only at h
              have hfirst := ihR _ _ _ hR
              have hsec : ∀ second tk3,
                  (if tk2.GetToken = Token.Dot then Read n tk2
                    else if tk2.GetToken = Token.Bracket .CLOSE then .ok (Obj.null, tk2)
                    else ReadList n tk2 false) = .ok (second, tk3) →
                  funcFree second = true := by
                intro second tk3 hs
                by_cases h3 : tk2.GetToken = Token.Dot
                · rw [if_pos h3] at hs
                  exact ihR _ _ _ hs
                · rw [if_neg h3] at hs
                  by_cases h4 : tk2.GetToken = Token.Bracket .CLOSE
                  · rw [if_pos h4] at hs
                    rw [← (Prod.mk.inj (Except.ok.inj hs)).1]
                    rfl
                  · rw [if_neg h4] at hs
                    exact ihL _ _ _ _ hs
              cases hS : (if tk2.GetToken = Token.Dot then Read n tk2
                    else if tk2.GetToken = Token.Bracket .CLOSE then .ok (Obj.null, tk2)
                    else ReadList n tk2 false) with
              | error e =>
                rw [hS] at h
                exact Except.noConfusion h
              | ok q =>
                obtain ⟨second, tk3⟩ := q
                rw [hS] at h
                dsimp only at h
                have hsecond := hsec _ _ hS
                have hcell : funcFree (Obj.cell first second) = true := by
                  simp [funcFree, hfirst, hsecond]
                by_cases h5 : (!wc) = true
                · rw [if_pos h5] at h
                  rw [← (Prod.mk.inj (Except.ok.inj h)).1]
                  exact hcell
                · rw [if_neg h5] at h
                  by_cases h6 : tk3.IsEnd = true
                  · rw [if_pos h6] at h
                    exact Except.noConfusion h
                  · rw [if_neg h6] at h
                    by_cases h7 : tk3.GetToken = Token.Bracket .CLOSE
                    · rw [if_pos h7] at h
                      cases hN : tk3.Next with
                      | error e =>
                        rw [hN] at h
                        exact Except.noConfusion h
                      | ok tk4 =>
                        rw [hN] at h
                        rw [← (Prod.mk.inj (Except.ok.inj h)).1]
                        exact hcell
                    · rw [if_neg h7] at h
                      exact Except.noConfusion h

/-- An expression that `ReadFullString` returns holds no procedure object. -/
theorem ReadFullString_funcFree (str : List Char) (obj : Obj)
    (h : ReadFullString str = .ok obj) : funcFree obj = true := by
  unfold ReadFullString at h
  cases hT : Tokenizer.new str with
  | error e =>
    rw [hT] at h
    exact Except.noConfusion h
  | ok tokenizer =>
    rw [hT] at h
    dsimp only at h
    cases hR : Read (readFuel str) tokenizer with
    | error e =>
      rw [hR] at h
      exact Except.noConfusion h
    | ok p =>
      obtain ⟨res, tk⟩ := p
      rw [hR] at h
      dsimp only at h
      by_cases h1 : (!tk.IsEnd) = true
      · rw [if_pos h1] at h
        exact Except.noConfusion h
      · rw [if_neg h1] at h
        rw [← Except.ok.inj h]
        exact (Read_funcFree _).1 _ _ _ hR

/-! ### An error at a larger depth -/

theorem Eval_error_mono (n m : Nat) (e : Obj) (err : Stop) (hnm : n ≤ m)
    (h : Eval n e = .error err) (hne : err ≠ .OutOfFuel) : Eval m e = .error err := by
  induction hnm with
  | refl => exact h
  | step _ ih => exact (Eval_Apply_stable _).1 e err ih hne

/-! ### Calls with no defined behaviour -/

theorem headProc_of_Eval (n : Nat) (first : Obj) (f : Func)
    (h : Eval n first = .ok (Obj.func f)) : headProc first = some f := by
  have h1 := Eval_mono n (max n (evalBound first)) first _ (le_max_left _ _) h
  have h2 := Eval_settled first (max n (evalBound first)) (le_max_right _ _)
  unfold headProc
  rw [← h2, h1]

theorem GetVector_congr_mem (ev ev1 : Obj → Res Obj) (args : Obj)
    (h : ∀ e ∈ GetRawVector args, ev e = ev1 e) : GetVector ev args = GetVector ev1 args := by
  induction args with
  | null => rfl
  | cell first second _ ih =>
    have h1 : ev first = ev1 first := h first (by simp [GetRawVector])
    have h2 : GetVector ev second = GetVector ev1 second :=
      ih (fun e hm => h e (by simp [GetRawVector, hm]))
    simp only [GetVector, h1, h2]
  | num x =>
    have h1 : ev (Obj.num x) = ev1 (Obj.num x) := h _ (by simp [GetRawVector])
    simp only [GetVector, h1]
  | sym s =>
    have h1 : ev (Obj.sym s) = ev1 (Obj.sym s) := h _ (by simp [GetRawVector])
    simp only [GetVector, h1]
  | bool b =>
    have h1 : ev (Obj.bool b) = ev1 (Obj.bool b) := h _ (by simp [GetRawVector])
    simp only [GetVector, h1]
  | func f =>
    have h1 : ev (Obj.func f) = ev1 (Obj.func f) := h _ (by simp [GetRawVector])
    simp only [GetVector, h1]

/-- The operand values that a call collects at any depth are those of
`operandValues`. -/
theorem operandValues_of_GetVector (n : Nat) (args : Obj) (vals : List Obj)
    (h : GetVector (fun e => Eval n e) args = .ok vals) : operandValues args = .ok vals := by
  unfold operandValues
  by_cases hn : n ≤ 2 * cells args + 1
  · exact GetVector_mono _ _ (fun e v he => Eval_mono n _ e v hn he) args vals h
  · rw [← h]
    apply GetVector_congr_mem
    intro e hm
    have hc := cells_le_of_mem_GetRawVector args e hm
    show Eval (2 * cells args + 1) e = Eval n e
    rw [Eval_settled e (2 * cells args + 1) (by simp only [evalBound]; omega),
      Eval_settled e n (by simp only [evalBound]; omega)]

theorem avoids_first (P : Func → Obj → Bool) (first second : Obj)
    (h : avoids P (Obj.cell first second) = true) : avoids P first = true := by
  simp only [avoids, Bool.and_eq_true] at h
  exact h.1

theorem avoids_call (P : Func → Obj → Bool) (first second : Obj) (f : Func)
    (h : avoids P (Obj.cell first second) = true) (hp : headProc first = some f) :
    P f second = false ∧ (evaluates f ≠ none → avoidsArgs P second = true) := by
  simp only [avoids, hp, Bool.and_eq_true, Bool.not_eq_true'] at h
  refine ⟨h.2.1, ?_⟩
  intro hne
  have h3 := h.2.2
  cases he : evaluates f with
  | none => exact absurd he hne
  | some b =>
    rw [he] at h3
    exact h3

theorem avoidsArgs_mem (P : Func → Obj → Bool) (args e : Obj)
    (h : avoidsArgs P args = true) (hm : e ∈ GetRawVector args) : avoids P e = true := by
  induction args with
  | cell first second _ ih =>
    simp only [avoidsArgs, Bool.and_eq_true] at h
    simp only [GetRawVector, List.mem_cons] at hm
    rcases hm with rfl | hm
    · exact h.1
    · exact ih h.2 hm
  | null => simp [GetRawVector] at hm
  | num x => simp [GetRawVector] at hm; subst hm; simp [avoids]
  | sym s => simp [GetRawVector] at hm; subst hm; simp [avoids]
  | bool b => simp [GetRawVector] at hm; subst hm; simp [avoids]
  | func f => simp [GetRawVector] at hm; subst hm; simp [avoids]

theorem funcFree_mem (args e : Obj) (h : funcFree args = true) (hm : e ∈ GetRawVector args) :
    funcFree e = true := by
  induction args with
  | cell first second _ ih =>
    simp only [funcFree, Bool.and_eq_true] at h
    simp only [GetRawVector, List.mem_cons] at hm
    rcases hm with rfl | hm
    · exact h.1
    · exact ih h.2 hm
  | null => simp [GetRawVector] at hm
  | num x => simp [GetRawVector] at hm; subst hm; rfl
  | sym s => simp [GetRawVector] at hm; subst hm; rfl
  | bool b => simp [GetRawVector] at hm; subst hm; rfl
  | func f => simp [funcFree] at h

/-- The error of an expression without procedure objects, none of whose calls
hands the empty list to `boolean?`, `and` or `or` or divides `INT64_MIN` by
`-1`, is `RuntimeError`, `NameError`, or the lack of depth. -/
theorem Eval_Apply_error_kinds (n : Nat) :
    (∀ e err, e ≠ Obj.null → funcFree e = true → avoids emptyOperand e = true →
      avoids divisionTrap e = true → Eval n e = .error err →
      err = .RuntimeError ∨ err = .NameError ∨ err = .OutOfFuel) ∧
    (∀ f args err, funcFree args = true → emptyOperand f args = false →
      divisionTrap f args = false →
      (evaluates f ≠ none →
        avoidsArgs emptyOperand args = true ∧ avoidsArgs divisionTrap args = true) →
      Apply n (Obj.func f) args = .error err →
      err = .RuntimeError ∨ err = .NameError ∨ err = .OutOfFuel) := by
  induction n with
  | zero =>
    refine ⟨?_, ?_⟩
    · intro e err _ _ _ _ h
      simp only [Eval] at h
      exact Or.inr (Or.inr (Except.error.inj h).symm)
    · intro f args err _ _ _ _ h
      simp only [Apply] at h
      exact Or.inr (Or.inr (Except.error.inj h).symm)
  | succ n ih =>
    obtain ⟨ihE, ihA⟩ := ih
    refine ⟨?_, ?_⟩
    · intro e err hne hff hs hd h
      cases e with
      | null => exact absurd rfl hne
      | num x => simp [Eval] at h
      | sym s => simp [Eval] at h
      | bool b => simp [Eval] at h
      | func f => simp [funcFree] at hff
      | cell first second =>
        simp only [funcFree, Bool.and_eq_true] at hff
        simp only [Eval] at h
        by_cases hf : first = Obj.null
        · simp [hf] at h
          exact Or.inl h.symm
        · simp only [ne_eq, hf, not_false_eq_true, if_true] at h
          cases hev : Eval n first with
          | error e =>
            rw [hev] at h
            have he : e = err := Except.error.inj h
            subst he
            exact ihE first _ hf hff.1 (avoids_first _ first second hs)
              (avoids_first _ first second hd) hev
          | ok w =>
            rw [hev] at h
            dsimp only at h
            by_cases hw : w = Obj.null
            · simp [hw] at h
              exact Or.inl h.symm
            · simp only [hw, not_false_eq_true, if_true] at h
              cases w with
              | func f =>
                have hp := headProc_of_Eval n first f hev
                obtain ⟨hs1, hs2⟩ := avoids_call _ first second f hs hp
                obtain ⟨hd1, hd2⟩ := avoids_call _ first second f hd hp
                exact ihA f second err hff.2 hs1 hd1 (fun hne => ⟨hs2 hne, hd2 hne⟩) h
              | null => exact absurd rfl hw
              | num x =>
                cases n with
                | zero => simp only [Apply] at h; exact Or.inr (Or.inr (Except.error.inj h).symm)
                | succ k => simp only [Apply] at h; exact Or.inl (Except.error.inj h).symm
              | sym s =>
                cases n with
                | zero => simp only [Apply] at h; exact Or.inr (Or.inr (Except.error.inj h).symm)
                | succ k => simp only [Apply] at h; exact Or.inl (Except.error.inj h).symm
              | bool b =>
                cases n with
                | zero => simp only [Apply] at h; exact Or.inr (Or.inr (Except.error.inj h).symm)
                | succ k => simp only [Apply] at h; exact Or.inl (Except.error.inj h).symm
              | cell a b =>
                cases n with
                | zero => simp only [Apply] at h; exact Or.inr (Or.inr (Except.error.inj h).symm)
                | succ k => simp only [Apply] at h; exact Or.inl (Except.error.inj h).symm
    · intro f args err hff hs hd hargs h
      rcases Apply_error n f args _ h with
        h1 | h1 | ⟨e, hm, strict, hst, h0, he⟩ | ⟨a, sec, -, h3⟩ | ⟨hf, -, vals, v, vs, hG, hN, hL⟩
      · exact Or.inl h1
      · exact Or.inr (Or.inl h1)
      · have hev : evaluates f ≠ none := by
          rw [hst]
          exact Option.some_ne_none _
        obtain ⟨ha1, ha2⟩ := hargs hev
        by_cases hne : e = Obj.null
        · exfalso
          have hstrict := h0 hne
          subst hstrict
          subst hne
          have : emptyOperand f args = true := by
            simp only [emptyOperand, hst, decide_True, Bool.true_and, List.contains_iff_exists_mem_beq]
            exact ⟨Obj.null, hm, by simp⟩
          rw [this] at hs
          exact Bool.noConfusion hs
        · exact ihE e err hne (funcFree_mem args e hff hm) (avoidsArgs_mem _ args e ha1 hm)
            (avoidsArgs_mem _ args e ha2 hm) he
      · exact Or.inr (Or.inr (IsList_quoted_error n sec err h3))
      · exfalso
        have hov := operandValues_of_GetVector n args vals hG
        have : divisionTrap f args = true := by
          simp [divisionTrap, hf, hov, hN, hL]
        rw [this] at hd
        exact Bool.noConfusion hd

/-! ### Statement of C25 -/

theorem RepresentAsStr_error (v : Obj) (brackets : Bool) (err : Stop)
    (h : RepresentAsStr v brackets = .error err) : err = .RuntimeError := by
  induction v generalizing brackets with
  | null => exact Except.noConfusion h
  | num x => exact Except.noConfusion h
  | sym s => exact Except.noConfusion h
  | bool b => exact Except.noConfusion h
  | func f => exact (Except.error.inj h).symm
  | cell first second ih1 ih2 =>
    rw [RepresentAsStr] at h
    cases h1 : RepresentAsStr first true with
    | error e =>
      rw [h1] at h
      have he : e = err := Except.error.inj h
      subst he
      exact ih1 _ h1
    | ok a =>
      rw [h1] at h
      dsimp only at h
      by_cases hs : second = Obj.null
      · simp only [ne_eq, hs, not_true_eq_false, if_false] at h
        exact Except.noConfusion h
      · simp only [ne_eq, hs, not_false_eq_true, if_true] at h
        cases h2 : RepresentAsStr second false with
        | error e =>
          rw [h2] at h
          have he : e = err := Except.error.inj h
          subst he
          exact ih2 _ h2
        | ok b =>
          rw [h2] at h
          exact Except.noConfusion h

/-- The outcome, at a depth of at least `evalBound`, of a non-empty expression
without procedure objects none of whose calls hands the empty list to
`boolean?`, `and` or `or` or divides `INT64_MIN` by `-1`. -/
theorem Eval_outcome (e : Obj) (n : Nat) (hne : e ≠ Obj.null) (hff : funcFree e = true)
    (hs : avoids emptyOperand e = true) (hd : avoids divisionTrap e = true)
    (hb : evalBound e ≤ n) :
    (∃ v, Eval n e = .ok v) ∨ Eval n e = .error .RuntimeError ∨
      Eval n e = .error .NameError := by
  cases hr : Eval n e with
  | ok v => exact Or.inl ⟨v, rfl⟩
  | error err =>
    rcases (Eval_Apply_error_kinds n).1 e err hne hff hs hd hr with h | h | h
    · exact Or.inr (Or.inl (by rw [h]))
    · exact Or.inr (Or.inr (by rw [h]))
    · exact absurd (by rw [hr, h]) ((Eval_Apply_ends n).1 e hb)

/-- The expression `(/ (* (- -2147483647 1) (+ 2147483647 1) 2) -1)`, whose
first operand evaluates to `INT64_MIN` without any overflow. -/
theorem trap_example :
    ReadFullString "(/ (* (- -2147483647 1) (+ 2147483647 1) 2) -1)".toList
      = .ok (Obj.cell (Obj.sym ['/']) (chain [Obj.cell (Obj.sym ['*']) (chain
          [Obj.cell (Obj.sym ['-']) (chain [Obj.num (-2147483647), Obj.num 1] Obj.null),
           Obj.cell (Obj.sym ['+']) (chain [Obj.num 2147483647, Obj.num 1] Obj.null),
           Obj.num 2] Obj.null), Obj.num (-1)] Obj.null)) ∧
    Eval 5 (Obj.cell (Obj.sym ['*']) (chain
          [Obj.cell (Obj.sym ['-']) (chain [Obj.num (-2147483647), Obj.num 1] Obj.null),
           Obj.cell (Obj.sym ['+']) (chain [Obj.num 2147483647, Obj.num 1] Obj.null),
           Obj.num 2] Obj.null)) = .ok (Obj.num (-9223372036854775808)) ∧
    Eval 7 (Obj.cell (Obj.sym ['/']) (chain [Obj.cell (Obj.sym ['*']) (chain
          [Obj.cell (Obj.sym ['-']) (chain [Obj.num (-2147483647), Obj.num 1] Obj.null),
           Obj.cell (Obj.sym ['+']) (chain [Obj.num 2147483647, Obj.num 1] Obj.null),
           Obj.num 2] Obj.null), Obj.num (-1)] Obj.null)) = .error .Undefined := by
  refine ⟨by decide, by decide, by decide⟩

/-- On that text `Run` ends in the undefined division at every depth that
reaches it. -/
theorem Run_trap_example (n : Nat) :
    Run (n + 7) "(/ (* (- -2147483647 1) (+ 2147483647 1) 2) -1)".toList
      = .error .Undefined := by
  have h := Eval_error_mono 7 (n + 7) _ _ (by omega) trap_example.2.2 (by decide)
  simp only [Run, trap_example.1]
  rw [if_neg (by simp [chain]), h]

/-- C25, on the code. The text `(/ (* (- -2147483647 1) (+ 2147483647 1) 2) -1)`
reads as an expression without procedure objects in which no call hands the
empty list to `boolean?`, `and` or `or`, and `Run` on it ends in the division
of `INT64_MIN` by `-1`, which returns no value and signals no error kind.
Apart from that division, evaluation ends as the claim says.  For every
expression `e` and every depth `n` of at least `evalBound e`, twice the number
of Pairs of `e` plus one, `Eval n e` does not stop for lack of depth and is the
outcome at the depth `evalBound e`; the bound holds because a value never holds
more Pairs than the expression it is the value of, which also bounds the calls
of `list?` on the quoted `second` of its operand value.  When `e` is not empty,
holds no procedure object, as every expression that `ReadFullString` returns,
and none of its calls hands the empty list to `boolean?`, `and` or `or` or
divides `INT64_MIN` by `-1`, the outcome is a value, `RuntimeError` or
`NameError`; and so `Run`, on a text that reads as such an expression, returns
a text or signals `RuntimeError` or `NameError`. -/
theorem C25_evaluation_ends :
    (ReadFullString "(/ (* (- -2147483647 1) (+ 2147483647 1) 2) -1)".toList
        = .ok (Obj.cell (Obj.sym ['/']) (chain [Obj.cell (Obj.sym ['*']) (chain
          [Obj.cell (Obj.sym ['-']) (chain [Obj.num (-2147483647), Obj.num 1] Obj.null),
           Obj.cell (Obj.sym ['+']) (chain [Obj.num 2147483647, Obj.num 1] Obj.null),
           Obj.num 2] Obj.null), Obj.num (-1)] Obj.null)) ∧
      avoids emptyOperand (Obj.cell (Obj.sym ['/']) (chain [Obj.cell (Obj.sym ['*']) (chain
          [Obj.cell (Obj.sym ['-']) (chain [Obj.num (-2147483647), Obj.num 1] Obj.null),
           Obj.cell (Obj.sym ['+']) (chain [Obj.num 2147483647, Obj.num 1] Obj.null),
           Obj.num 2] Obj.null), Obj.num (-1)] Obj.null)) = true ∧
      ∀ n : Nat, Run (n + 7) "(/ (* (- -2147483647 1) (+ 2147483647 1) 2) -1)".toList
        = .error .Undefined) ∧
    (∀ (e : Obj) (n : Nat), evalBound e ≤ n →
      Eval n e ≠ .error .OutOfFuel ∧ Eval n e = Eval (evalBound e) e) ∧
    (∀ (n : Nat) (e v : Obj), Eval n e = .ok v → cells v ≤ cells e) ∧
    (∀ (e : Obj) (n : Nat), e ≠ Obj.null → funcFree e = true →
      avoids emptyOperand e = true → avoids divisionTrap e = true → evalBound e ≤ n →
      (∃ v, Eval n e = .ok v) ∨ Eval n e = .error .RuntimeError ∨
        Eval n e = .error .NameError) ∧
    (∀ (str : List Char) (obj : Obj), ReadFullString str = .ok obj → funcFree obj = true) ∧
    (∀ (str : List Char) (obj : Obj) (n : Nat), ReadFullString str = .ok obj →
      avoids emptyOperand obj = true → avoids divisionTrap obj = true → evalBound obj ≤ n →
      (∃ out, Run n str = .ok out) ∨ Run n str = .error .RuntimeError ∨
        Run n str = .error .NameError) := by
  refine ⟨⟨trap_example.1, by decide, Run_trap_example⟩, ?_, ?_, Eval_outcome,
    ReadFullString_funcFree, ?_⟩
  · intro e n hb
    exact ⟨(Eval_Apply_ends n).1 e hb, Eval_settled e n hb⟩
  · intro n e v h
    exact (cells_Eval_Apply n).1 e v h
  · intro str obj n hr hs hd hb
    simp only [Run, hr]
    by_cases h0 : obj = Obj.null
    · rw [if_pos h0]
      exact Or.inr (Or.inl rfl)
    · rw [if_neg h0]
      rcases Eval_outcome obj n h0 (ReadFullString_funcFree str obj hr) hs hd hb
        with ⟨v, hv⟩ | hv | hv
      · rw [hv]
        dsimp only
        cases hp : RepresentAsStr v true with
        | ok out => exact Or.inl ⟨out, rfl⟩
        | error err =>
          rw [RepresentAsStr_error v true err hp]
          exact Or.inr (Or.inl rfl)
      · rw [hv]
        exact Or.inr (Or.inl rfl)
      · rw [hv]
        exact Or.inr (Or.inr rfl)

/-- Witness of C25: the expression `(list? (quote (1 2)))` has six Pairs, so
its evaluation ends within the depth `13`; at the depth `20` it returns `#t`,
as `Run` does on its text, while the depth `4` is too small.  The expression
`(and ())` hands the empty list to `and`, and its evaluation calls `Eval`
through the empty pointer; in `((car (list + 1)) ())` the empty list is an
operand of `+`, which rejects it with `RuntimeError`. -/
theorem C25_evaluation_ends_witness :
    evalBound (Obj.cell (Obj.sym "list?".toList) (Obj.cell (Obj.cell (Obj.sym quoteName)
        (Obj.cell (chain [Obj.num 1, Obj.num 2] Obj.null) Obj.null)) Obj.null)) = 13 ∧
    (Eval 20 (Obj.cell (Obj.sym "list?".toList) (Obj.cell (Obj.cell (Obj.sym quoteName)
        (Obj.cell (chain [Obj.num 1, Obj.num 2] Obj.null) Obj.null)) Obj.null))
        ≠ .error .OutOfFuel ∧
      Eval 20 (Obj.cell (Obj.sym "list?".toList) (Obj.cell (Obj.cell (Obj.sym quoteName)
        (Obj.cell (chain [Obj.num 1, Obj.num 2] Obj.null) Obj.null)) Obj.null))
        = Eval (evalBound (Obj.cell (Obj.sym "list?".toList) (Obj.cell (Obj.cell
            (Obj.sym quoteName) (Obj.cell (chain [Obj.num 1, Obj.num 2] Obj.null) Obj.null))
            Obj.null)))
          (Obj.cell (Obj.sym "list?".toList) (Obj.cell (Obj.cell (Obj.sym quoteName)
            (Obj.cell (chain [Obj.num 1, Obj.num 2] Obj.null) Obj.null)) Obj.null))) ∧
    Eval 13 (Obj.cell (Obj.sym "list?".toList) (Obj.cell (Obj.cell (Obj.sym quoteName)
        (Obj.cell (chain [Obj.num 1, Obj.num 2] Obj.null) Obj.null)) Obj.null))
      = .ok (Obj.bool true) ∧
    Eval 4 (Obj.cell (Obj.sym "list?".toList) (Obj.cell (Obj.cell (Obj.sym quoteName)
        (Obj.cell (chain [Obj.num 1, Obj.num 2] Obj.null) Obj.null)) Obj.null))
      = .error .OutOfFuel ∧
    ((∃ out, Run 20 ("(list? ".toList ++ [quoteChar] ++ "(1 2))".toList) = .ok out) ∨
      Run 20 ("(list? ".toList ++ [quoteChar] ++ "(1 2))".toList) = .error .RuntimeError ∨
      Run 20 ("(list? ".toList ++ [quoteChar] ++ "(1 2))".toList) = .error .NameError) ∧
    ((∃ v, Eval 20 (Obj.cell (Obj.cell (Obj.sym "car".toList) (Obj.cell
        (Obj.cell (Obj.sym "list".toList) (chain [Obj.sym ['+'], Obj.num 1] Obj.null))
        Obj.null)) (Obj.cell Obj.null Obj.null)) = .ok v) ∨
      Eval 20 (Obj.cell (Obj.cell (Obj.sym "car".toList) (Obj.cell
        (Obj.cell (Obj.sym "list".toList) (chain [Obj.sym ['+'], Obj.num 1] Obj.null))
        Obj.null)) (Obj.cell Obj.null Obj.null)) = .error .RuntimeError ∨
      Eval 20 (Obj.cell (Obj.cell (Obj.sym "car".toList) (Obj.cell
        (Obj.cell (Obj.sym "list".toList) (chain [Obj.sym ['+'], Obj.num 1] Obj.null))
        Obj.null)) (Obj.cell Obj.null Obj.null)) = .error .NameError) ∧
    cells (chain [Obj.num 1, Obj.num 2] Obj.null)
      ≤ cells (Obj.cell (Obj.sym quoteName)
          (Obj.cell (chain [Obj.num 1, Obj.num 2] Obj.null) Obj.null)) ∧
    avoids emptyOperand (Obj.cell (Obj.sym "and".toList) (Obj.cell Obj.null Obj.null))
      = false ∧
    Eval 20 (Obj.cell (Obj.sym "and".toList) (Obj.cell Obj.null Obj.null))
      = .error .Undefined :=
  ⟨by decide,
   C25_evaluation_ends.2.1 _ 20 (by decide),
   by decide, by decide,
   C25_evaluation_ends.2.2.2.2.2 ("(list? ".toList ++ [quoteChar] ++ "(1 2))".toList)
     (Obj.cell (Obj.sym "list?".toList) (Obj.cell (Obj.cell (Obj.sym quoteName)
        (Obj.cell (chain [Obj.num 1, Obj.num 2] Obj.null) Obj.null)) Obj.null))
     20 (by decide) (by decide) (by decide) (by decide),
   C25_evaluation_ends.2.2.2.1 _ 20 (by decide) (by decide) (by decide) (by decide)
     (by decide),
   C25_evaluation_ends.2.2.1 2 _ _ (Eval_quote 0 _),
   by decide, by decide⟩

/-! ## Division (C9) -/

/-- The quotient that `div64` returns for an `int64_t` dividend and a non-zero
divisor is an `int64_t`. -/
theorem div64_int64 (a b q : Int) (ha1 : -9223372036854775808 ≤ a)
    (ha2 : a < 9223372036854775808) (hb : b ≠ 0) (h : div64 a b = .ok q) :
    q = Int.tdiv a b ∧ -9223372036854775808 ≤ q ∧ q < 9223372036854775808 := by
  simp only [div64] at h
  by_cases hov : a = -9223372036854775808 ∧ b = -1
  · rw [if_pos hov] at h
    exact Except.noConfusion h
  · rw [if_neg hov] at h
    have hq : q = Int.tdiv a b := (Except.ok.inj h).symm
    have hn := Int.natAbs_tdiv a b
    have hle : (a.tdiv b).natAbs ≤ a.natAbs := by
      rw [hn]
      exact Nat.div_le_self _ _
    have hlt : a.tdiv b < 9223372036854775808 := by
      by_contra hcon
      have ha3 : a = -9223372036854775808 := by omega
      have hb1 : b.natAbs = 1 := by
        by_contra hne
        have h2 : 2 ≤ b.natAbs := by omega
        have h3 : a.natAbs / b.natAbs ≤ a.natAbs / 2 := Nat.div_le_div_left h2 (by decide)
        have h4 : (a.tdiv b).natAbs ≤ a.natAbs / 2 := by
          rw [hn]
          exact h3
        omega
      rcases Int.natAbs_eq b with hb2 | hb2
      · rw [hb1] at hb2
        have : a.tdiv b = a := by
          rw [hb2]
          exact Int.tdiv_one a
        omega
      · rw [hb1] at hb2
        exact hov ⟨ha3, hb2⟩
    refine ⟨hq, ?_, ?_⟩
    · rw [hq]
      omega
    · rw [hq]
      exact hlt

theorem overflows_nil (m : Int) : ¬ overflows m [] := by
  rintro ⟨p, rest, h, -, -⟩
  cases p <;> simp at h

theorem overflows_cons_zero (m : Int) (ds : List Int) : ¬ overflows m (0 :: ds) := by
  rintro ⟨p, rest, h, hp, -⟩
  cases p with
  | nil => simp at h
  | cons a p =>
    simp only [List.cons_append, List.cons.injEq] at h
    exact hp (by simp [← h.1])

theorem overflows_cons_trap (ds : List Int) :
    overflows (-9223372036854775808) ((-1) :: ds) :=
  ⟨[], ds, rfl, by simp, rfl⟩

theorem overflows_cons_step (m d : Int) (ds : List Int) (hd : d ≠ 0)
    (ht : ¬ (m = -9223372036854775808 ∧ d = -1)) :
    overflows m (d :: ds) ↔ overflows (Int.tdiv m d) ds := by
  constructor
  · rintro ⟨p, rest, h, hp, hf⟩
    cases p with
    | nil =>
      simp only [List.nil_append, List.cons.injEq] at h
      exact absurd ⟨hf, h.1⟩ ht
    | cons a p =>
      simp only [List.cons_append, List.cons.injEq] at h
      simp only [List.mem_cons, not_or] at hp
      simp only [List.foldl_cons] at hf
      rw [← h.1] at hf
      exact ⟨p, rest, h.2, hp.2, hf⟩
  · rintro ⟨p, rest, h, hp, hf⟩
    refine ⟨d :: p, rest, by rw [h]; rfl, ?_, by simpa using hf⟩
    simp only [List.mem_cons, not_or]
    exact ⟨fun h0 => hd h0.symm, hp⟩

theorem not_overflows_of_not_mem (m : Int) (ds : List Int) (h : (-1 : Int) ∉ ds) :
    ¬ overflows m ds := by
  rintro ⟨p, rest, hds, -, -⟩
  exact h (by rw [hds]; simp)

/-- The loop of `Div::Apply` ends in the undefined division exactly when the
divisors overflow; otherwise it signals `RuntimeError` when some divisor is
zero and returns the left fold of the truncating division when none is. -/
theorem Div_loop_spec (m : Int) (ds : List Int) :
    (Div_loop m ds = .error .Undefined ↔ overflows m ds) ∧
    (¬ overflows m ds →
      Div_loop m ds
        = if (0 : Int) ∈ ds then .error .RuntimeError else .ok (ds.foldl Int.tdiv m)) := by
  induction ds generalizing m with
  | nil =>
    refine ⟨?_, ?_⟩
    · constructor
      · intro h
        exact Except.noConfusion h
      · intro h
        exact absurd h (overflows_nil m)
    · intro _
      simp [Div_loop]
  | cons d ds ih =>
    by_cases hd : d = 0
    · subst hd
      refine ⟨?_, ?_⟩
      · constructor
        · intro h
          simp [Div_loop] at h
        · intro h
          exact absurd h (overflows_cons_zero m ds)
      · intro _
        simp [Div_loop]
    · by_cases ht : m = -9223372036854775808 ∧ d = -1
      · obtain ⟨rfl, rfl⟩ := ht
        refine ⟨?_, ?_⟩
        · constructor
          · intro _
            exact overflows_cons_trap ds
          · intro _
            simp [Div_loop, div64]
        · intro h
          exact absurd (overflows_cons_trap ds) h
      · have hstep : Div_loop m (d :: ds) = Div_loop (Int.tdiv m d) ds := by
          simp only [Div_loop, div64, if_neg hd, if_neg ht]
        have hmem : (0 : Int) ∈ d :: ds ↔ (0 : Int) ∈ ds := by
          simp only [List.mem_cons]
          constructor
          · rintro (h | h)
            · exact absurd h.symm hd
            · exact h
          · exact Or.inr
        rw [hstep, overflows_cons_step m d ds hd ht]
        refine ⟨(ih _).1, ?_⟩
        intro h
        rw [(ih _).2 h]
        simp only [hmem, List.foldl_cons]

/-- C9, on the code. The first operand of
`(/ (* (- -2147483647 1) (+ 2147483647 1) 2) -1)` evaluates to `INT64_MIN`
without any overflow, and `Run` on that text ends in the division of
`INT64_MIN` by `-1`: no value is returned and no `RuntimeError` is signalled,
although no divisor is zero.  In general, when the operands of `/` evaluate to
the Numbers `n1, d1, ..., dm` with at least one divisor, the call ends in that
undefined division exactly when the divisors overflow (a divisor `-1` is
reached, with no zero divisor before it, while the quotient so far is
`INT64_MIN`); when they do not, the call signals `RuntimeError` exactly when
some divisor is zero, wherever it stands, and otherwise returns the left fold
`((n1 / d1) / ...) / dm` of the division truncating toward zero.  When the
operands evaluate to fewer than two values the call signals `RuntimeError`. -/
theorem C9_div :
    (Eval 5 (Obj.cell (Obj.sym ['*']) (chain
          [Obj.cell (Obj.sym ['-']) (chain [Obj.num (-2147483647), Obj.num 1] Obj.null),
           Obj.cell (Obj.sym ['+']) (chain [Obj.num 2147483647, Obj.num 1] Obj.null),
           Obj.num 2] Obj.null)) = .ok (Obj.num (-9223372036854775808)) ∧
      ∀ n : Nat, Run (n + 7) "(/ (* (- -2147483647 1) (+ 2147483647 1) 2) -1)".toList
        = .error .Undefined) ∧
    (∀ (n : Nat) (es : List Obj) (n1 : Int) (ds : List Int), ds ≠ [] →
      EvalsToNumbers n es (n1 :: ds) →
      (Eval (n + 2) (Obj.cell (Obj.sym "/".toList) (chain es Obj.null)) = .error .Undefined
        ↔ overflows n1 ds) ∧
      (¬ overflows n1 ds →
        (Eval (n + 2) (Obj.cell (Obj.sym "/".toList) (chain es Obj.null))
            = .error .RuntimeError ↔ (0 : Int) ∈ ds) ∧
        ((0 : Int) ∉ ds →
          Eval (n + 2) (Obj.cell (Obj.sym "/".toList) (chain es Obj.null))
            = .ok (Obj.num (ds.foldl Int.tdiv n1))))) ∧
    (∀ (n : Nat) (es vs : List Obj), EvalsTo n es vs → vs.length < 2 →
      Eval (n + 2) (Obj.cell (Obj.sym "/".toList) (chain es Obj.null))
        = .error .RuntimeError) := by
  refine ⟨⟨trap_example.2.1, Run_trap_example⟩, ?_, ?_⟩
  · intro n es n1 ds hds h
    have hlen : ¬ ((List.map Obj.num (n1 :: ds)).length < 2) := by
      cases ds with
      | nil => exact absurd rfl hds
      | cons d ds => simp
    have key : Eval (n + 2) (Obj.cell (Obj.sym "/".toList) (chain es Obj.null))
        = match Div_loop n1 ds with
          | .error e => .error e
          | .ok mul => .ok (Obj.num mul) := by
      rw [Eval_call n _ Func.Div _ (by decide)]
      simp only [Apply, Div_Apply]
      rw [GetVector_EvalsTo n es _ h.evalsTo]
      simp only [ValidateObj_map_num, numbersOf_map_num, hlen, Bool.not_true,
        Bool.false_eq_true, if_false]
    rw [key]
    obtain ⟨h1, h2⟩ := Div_loop_spec n1 ds
    refine ⟨?_, ?_⟩
    · rw [← h1]
      cases Div_loop n1 ds with
      | error e => simp
      | ok q => simp
    · intro hno
      rw [h2 hno]
      by_cases h0 : (0 : Int) ∈ ds <;> simp [h0]
  · intro n es vs h hlen
    rw [Eval_call n _ Func.Div _ (by decide)]
    simp only [Apply, Div_Apply]
    rw [GetVector_EvalsTo n es _ h]
    by_cases hv : ValidateObj_Number vs = true <;> simp [hv, hlen]

/-- Witness of C9: `(/ 0 5 0)` signals `RuntimeError` although the first
quotient is already `0`, `(/ 10 2)` is `5`, `(/ -7 2)` is `-3`, `(/ 10)`
signals `RuntimeError`, and the division of the Number `INT64_MIN` by `-1`
has no defined outcome. -/
theorem C9_div_witness :
    Eval 3 (Obj.cell (Obj.sym "/".toList) (chain [Obj.num 0, Obj.num 5, Obj.num 0] Obj.null))
      = .error .RuntimeError ∧
    Eval 3 (Obj.cell (Obj.sym "/".toList) (chain [Obj.num 10, Obj.num 2] Obj.null))
      = .ok (Obj.num 5) ∧
    Eval 3 (Obj.cell (Obj.sym "/".toList) (chain [Obj.num (-7), Obj.num 2] Obj.null))
      = .ok (Obj.num (-3)) ∧
    Eval 3 (Obj.cell (Obj.sym "/".toList) (chain [Obj.num 10] Obj.null))
      = .error .RuntimeError ∧
    Eval 3 (Obj.cell (Obj.sym "/".toList)
        (chain [Obj.num (-9223372036854775808), Obj.num (-1)] Obj.null))
      = .error .Undefined :=
  ⟨((C9_div.2.1 1 [Obj.num 0, Obj.num 5, Obj.num 0] 0 [5, 0] (by decide)
      (List.Forall₂.cons rfl (List.Forall₂.cons rfl (List.Forall₂.cons rfl
        List.Forall₂.nil)))).2 (not_overflows_of_not_mem _ _ (by decide))).1.2 (by decide),
   ((C9_div.2.1 1 [Obj.num 10, Obj.num 2] 10 [2] (by decide)
      (List.Forall₂.cons rfl (List.Forall₂.cons rfl List.Forall₂.nil))).2
        (not_overflows_of_not_mem _ _ (by decide))).2 (by decide),
   ((C9_div.2.1 1 [Obj.num (-7), Obj.num 2] (-7) [2] (by decide)
      (List.Forall₂.cons rfl (List.Forall₂.cons rfl List.Forall₂.nil))).2
        (not_overflows_of_not_mem _ _ (by decide))).2 (by decide),
   C9_div.2.2 1 [Obj.num 10] [Obj.num 10]
      (List.Forall₂.cons rfl List.Forall₂.nil) (by decide),
   (C9_div.2.1 1 [Obj.num (-9223372036854775808), Obj.num (-1)] (-9223372036854775808) [-1]
      (by decide) (List.Forall₂.cons rfl (List.Forall₂.cons rfl List.Forall₂.nil))).1.2
      (overflows_cons_trap [])⟩

end Scheme
